import Mathlib

/-!
# log4cpp `SimpleConfigurator::configure`

A shallow embedding of `src/SimpleConfigurator.cpp`.

* The input file stream (`std::ifstream`) is a list of the characters not yet
  read, together with its `eofbit` and `failbit`.  The embedding follows the
  C++ rules for formatted and unformatted input: every extraction first builds
  a sentry, a sentry fails (and sets `failbit`) on a stream that is not `good`,
  and `failbit` is never cleared by `configure`.
* The collaborators that live outside this file (the category registry, the
  priority table, the file system, `LOG_USER`, `LOG4CPP_HAVE_SYSLOG`) are
  either parameters (`Env`) or small models that are marked as such.
* `configure` is the C++ function: it returns how the call ended (normally, or
  with `ConfigureFailure(reason)`), the registry it left behind and the final
  state of the stream.
-/

set_option autoImplicit false
set_option maxRecDepth 4000

namespace log4cpp

/-! ## The input stream -/

/-- State of `std::ifstream initFile`: unread characters, `eofbit`, `failbit`. -/
structure IStream where
  rest : List Char
  eofbit : Bool
  failbit : Bool
  deriving DecidableEq, Repr

/-- A string literal of the source, as the list of its characters. -/
def lit (s : String) : List Char := s.toList

/-- A stream in good state (no `eofbit`, no `failbit`) with the given text left
to read: the stream of a file just opened, or a stream between two commands. -/
def fresh (content : List Char) : IStream := { rest := content, eofbit := false, failbit := false }

/-- The `good()` test of a stream: neither `eofbit` nor `failbit` is set. -/
def IStream.good (s : IStream) : Bool := !s.eofbit && !s.failbit

/-- Whitespace of the classic "C" locale (`std::isspace`): space, `\t`, `\n`,
`\v`, `\f`, `\r`. -/
def isspace (c : Char) : Bool :=
  c == ' ' || c == '\t' || c == '\n' || c == Char.ofNat 11 || c == Char.ofNat 12 || c == '\r'

/-- Decimal digit (`std::isdigit`). -/
def isdigit (c : Char) : Bool := 48 ≤ c.toNat && c.toNat ≤ 57

/-- The `istream::sentry` constructor.  On a stream that is not `good` it sets
`failbit` and reports failure.  Otherwise, unless `noskipws`, it discards
leading whitespace; reaching the end of input while doing so sets
`eofbit | failbit` and reports failure. -/
def sentry (noskipws : Bool) (s : IStream) : IStream × Bool :=
  if !s.good then ({ s with failbit := true }, false)
  else if noskipws then (s, true)
  else
    let r := s.rest.dropWhile isspace
    if r.isEmpty then ({ rest := [], eofbit := true, failbit := true }, false)
    else ({ s with rest := r }, true)

/-- The extraction `initFile >> str` for a `std::string`.  After a successful
sentry the characters up to the next whitespace (or the end of input, which
sets `eofbit`) are extracted; extracting nothing sets `failbit`.  The second
component is the text stored into the string; when the sentry fails the target
is left alone, and `configure` never reads a target after a failed
extraction. -/
def extractString (s : IStream) : IStream × List Char :=
  match sentry false s with
  | (s1, true) =>
    let str := s1.rest.takeWhile (fun c => !isspace c)
    let r := s1.rest.dropWhile (fun c => !isspace c)
    ({ rest := r, eofbit := s1.eofbit || r.isEmpty, failbit := s1.failbit || str.isEmpty }, str)
  | (s1, false) => (s1, [])

def INT_MIN : Int := -2147483648
def INT_MAX : Int := 2147483647

/-- Value of a run of decimal digits. -/
def digitsValue (ds : List Char) : Nat :=
  ds.foldl (fun a c => 10 * a + (c.toNat - 48)) 0

/-- The extraction `initFile >> n` for an `int` (base ten): after a successful
sentry an optional sign and the following digits are consumed.  No digit, or a
value outside the range of `int`, sets `failbit`.  The second component is the
value stored into the target: the number read; `0` when there is no digit;
`INT_MIN` or `INT_MAX` when the number is out of range; and `none` when the
sentry fails, since the target is then left as it was (for a local `int`
without initialiser: never assigned). -/
def extractInt (s : IStream) : IStream × Option Int :=
  match sentry false s with
  | (s1, true) =>
    let signed : Bool × List Char :=
      match s1.rest with
      | c :: t => if c == '-' then (true, t) else if c == '+' then (false, t) else (false, c :: t)
      | [] => (false, [])
    let ds := signed.2.takeWhile isdigit
    let r := signed.2.dropWhile isdigit
    let mag : Int := (digitsValue ds : Nat)
    let v : Int := if signed.1 then -mag else mag
    let bad : Bool := ds.isEmpty || decide (v < INT_MIN) || decide (INT_MAX < v)
    let stored : Int :=
      if ds.isEmpty then 0 else if v < INT_MIN then INT_MIN else if INT_MAX < v then INT_MAX else v
    ({ rest := r, eofbit := s1.eofbit || r.isEmpty, failbit := s1.failbit || bad }, some stored)
  | (s1, false) => (s1, none)

/-- The call `std::getline(initFile, str)`: an unformatted read of the rest of
the current line.  The newline is extracted and dropped; the end of input sets
`eofbit`; extracting nothing at all sets `failbit`. -/
def getlineString (s : IStream) : IStream × List Char :=
  match sentry true s with
  | (s1, true) =>
    let line := s1.rest.takeWhile (fun c => c != '\n')
    match s1.rest.dropWhile (fun c => c != '\n') with
    | [] => ({ rest := [], eofbit := true, failbit := s1.failbit || line.isEmpty }, line)
    | _ :: r => ({ s1 with rest := r }, line)
  | (s1, false) => (s1, [])

/-- The manipulator `initFile >> std::ws`: behind a `noskipws` sentry it
discards whitespace, and sets `eofbit` when it reaches the end of input. -/
def ws (s : IStream) : IStream :=
  match sentry true s with
  | (s1, true) =>
    let r := s1.rest.dropWhile isspace
    { s1 with rest := r, eofbit := s1.eofbit || r.isEmpty }
  | (s1, false) => s1

/-- The call `initFile.getline(buf, n)` on a `char buf[n]` with `0 < n`: behind
a `noskipws` sentry it stores characters until the end of input (`eofbit`), a
newline (extracted, not stored) or `n - 1` stored characters (`failbit`), tested
in that order; extracting nothing sets `failbit`.  The second component is the
content of the buffer before its terminating NUL. -/
def getlineBuf (n : Nat) (s : IStream) : IStream × List Char :=
  match sentry true s with
  | (s1, true) =>
    let line := (s1.rest.takeWhile (fun c => c != '\n')).take (n - 1)
    match s1.rest.drop line.length with
    | [] => ({ rest := [], eofbit := true, failbit := s1.failbit || line.isEmpty }, line)
    | c :: t =>
      if c == '\n' then ({ s1 with rest := t }, line)
      else ({ s1 with rest := c :: t, failbit := true }, line)
  | (s1, false) => (s1, [])

/-- Reading a character buffer as a C string (`std::string(pattern)`,
`initFileName.c_str()`): the characters before the first NUL. -/
def cstr (buf : List Char) : List Char := buf.takeWhile (fun c => c != Char.ofNat 0)

/-! ## Appenders and layouts -/

/-- The layout objects `configure` constructs. -/
inductive Layout where
  | basic
  | simple
  | pattern (conversionPattern : List Char)
  deriving DecidableEq, Repr

/-- The appender objects `configure` constructs, with their constructor
arguments.  `fd name n` is `FileAppender(name, dup(n))`; `ostream name` is
`OstreamAppender(name, &std::cout)`.  The port of a remote syslog appender is
`none` when `portNumber` was passed without ever having been assigned. -/
inductive AppenderTarget where
  | file (name fileName : List Char)
  | ostream (name : List Char)
  | fd (name : List Char) (fileno : Nat)
  | syslog (name syslogName : List Char) (facility : Int)
  | remoteSyslog (name syslogName relayer : List Char) (facility : Int) (portNumber : Option Int)
  deriving DecidableEq, Repr

/-- An appender: what it writes to, and the layout given by `setLayout`. -/
structure Appender where
  target : AppenderTarget
  layout : Option Layout
  deriving DecidableEq, Repr

/-- The call `appender->setLayout(l)`. -/
def Appender.setLayout (a : Appender) (l : Layout) : Appender := { a with layout := some l }

def STDOUT_FILENO : Nat := 1
def STDERR_FILENO : Nat := 2

/-! ## The category registry -/

/-- Modelled from the spec: the `Category` class is not part of the source
file.  A category carries its priority threshold (`none` until one is set) and
the appenders attached to it, which accumulate. -/
structure Category where
  priority : Option Int
  appenders : List Appender
  deriving DecidableEq, Repr

/-- Modelled from the spec: the process-wide table of categories
(`Category::getRoot`, `Category::getInstance`) is not part of the source file.
It holds the distinguished root category and the named categories in order of
creation. -/
structure Registry where
  root : Category
  named : List (List Char × Category)
  deriving DecidableEq, Repr

/-- A reference `Category&` into the registry. -/
inductive CategoryRef where
  | root
  | named (name : List Char)
  deriving DecidableEq, Repr

namespace Registry

/-- Names of the named categories, in order of creation. -/
def names (reg : Registry) : List (List Char) := reg.named.map Prod.fst

/-- Modelled from the spec: `Category::getRoot()` returns the distinguished
root category and creates nothing. -/
def getRoot (reg : Registry) : CategoryRef × Registry := (CategoryRef.root, reg)

/-- Modelled from the spec: `Category::getInstance(name)` is get-or-create by
exact name; a category is created on first reference, with no priority set and
no appender. -/
def getInstance (name : List Char) (reg : Registry) : CategoryRef × Registry :=
  if name ∈ reg.names then (CategoryRef.named name, reg)
  else (CategoryRef.named name,
    { reg with named := reg.named ++ [(name, { priority := none, appenders := [] })] })

/-- Look-up of a named category: the first entry of that name. -/
def lookup (name : List Char) : List (List Char × Category) → Option Category
  | [] => none
  | e :: t => if e.1 = name then some e.2 else lookup name t

/-- Update of the entries of a given name. -/
def update (name : List Char) (f : Category → Category) :
    List (List Char × Category) → List (List Char × Category)
  | [] => []
  | e :: t => (if e.1 = name then (e.1, f e.2) else e) :: update name f t

/-- The category a reference denotes, if the registry holds it. -/
def find? (reg : Registry) : CategoryRef → Option Category
  | CategoryRef.root => some reg.root
  | CategoryRef.named name => lookup name reg.named

/-- Update of the category a reference denotes. -/
def modify (reg : Registry) (ref : CategoryRef) (f : Category → Category) : Registry :=
  match ref with
  | CategoryRef.root => { reg with root := f reg.root }
  | CategoryRef.named name => { reg with named := update name f reg.named }

/-- Modelled from the spec: `category.addAppender(appender)` attaches one more
appender; nothing is replaced or removed. -/
def addAppender (reg : Registry) (ref : CategoryRef) (a : Appender) : Registry :=
  reg.modify ref (fun c => { c with appenders := c.appenders ++ [a] })

/-- Modelled from the spec: `category.setPriority(v)` sets the threshold. -/
def setPriority (reg : Registry) (ref : CategoryRef) (v : Int) : Registry :=
  reg.modify ref (fun c => { c with priority := some v })

/-- Appenders attached to a category (none if the category does not exist). -/
def appendersOf (reg : Registry) (ref : CategoryRef) : List Appender :=
  match reg.find? ref with
  | some c => c.appenders
  | none => []

/-- Priority threshold of a category (`none` if unset or if the category does
not exist). -/
def priorityOf (reg : Registry) (ref : CategoryRef) : Option Int :=
  match reg.find? ref with
  | some c => c.priority
  | none => none

end Registry

/-! ## The environment of `configure` -/

/-- What `configure` takes from outside the source file.
* `openFile path` is the content of the file when `std::ifstream` can open it
  for reading, and `none` otherwise.
* `getPriorityValue name` is `Priority::getPriorityValue`; `none` stands for
  the `std::invalid_argument` it throws on a name it does not know.
* `LOG_USER` is the constant of `<syslog.h>`.
* `haveSyslog` is the configuration macro `LOG4CPP_HAVE_SYSLOG`. -/
structure Env where
  openFile : List Char → Option (List Char)
  getPriorityValue : List Char → Option Int
  LOG_USER : Int
  haveSyslog : Bool

/-! ## `SimpleConfigurator::configure` -/

/-- How a call of `configure` ends: it returns, or throws
`ConfigureFailure(reason)`, where `reason` is the `std::string` handed to the
constructor (lines 35-37).  What a handler reads of it is `Outcome.what`. -/
inductive Outcome where
  | success
  | failure (reason : List Char)
  deriving DecidableEq, Repr

/-- The message of the failure a call ended with, and `none` when the call
returned.  `ConfigureFailure` is a `std::runtime_error` built from `reason`
(lines 35-37); its message is read through `what()`, a C string: the
characters of `reason` before the first NUL. -/
def Outcome.what : Outcome → Option (List Char)
  | Outcome.success => none
  | Outcome.failure reason => some (cstr reason)

/-- Everything observable after a call of `configure`.  `stream` is the final
state of `initFile`, and `none` when the file was never opened. -/
structure Result where
  outcome : Outcome
  registry : Registry
  stream : Option IStream
  deriving DecidableEq, Repr

/-- Lines 71-129: construction of the appender named by `appenderName`.  The
result is the stream after the arguments were read and either the new
appender (no layout yet) or the reason of the `ConfigureFailure` thrown.

Each local variable that is read from the stream is bound to the pair the
extraction returns: `x.1` is the stream after `initFile >> x`, tested by
`if (!(initFile >> x))`, and `x.2` is the value read.  For `remotesyslog` the
source assigns `514` to `facility`, not to `portNumber`, when the port cannot
be read (line 119); `portNumber` is then passed on as it is: with the value
the failed extraction stored, or never assigned. -/
def buildAppender (env : Env) (categoryName appenderName : List Char) (s : IStream) :
    IStream × Except (List Char) Appender :=
  if appenderName = lit "file" then
    let logFileName := extractString s
    if logFileName.1.failbit then
      (logFileName.1, Except.error
        (lit "Missing filename for log file logging configuration file for category: "
          ++ categoryName))
    else (logFileName.1, Except.ok ⟨AppenderTarget.file categoryName logFileName.2, none⟩)
  else if appenderName = lit "console" then
    (s, Except.ok ⟨AppenderTarget.ostream categoryName, none⟩)
  else if appenderName = lit "stdout" then
    (s, Except.ok ⟨AppenderTarget.fd categoryName STDOUT_FILENO, none⟩)
  else if appenderName = lit "stderr" then
    (s, Except.ok ⟨AppenderTarget.fd categoryName STDERR_FILENO, none⟩)
  else if env.haveSyslog = true ∧ appenderName = lit "syslog" then
    let syslogName := extractString s
    if syslogName.1.failbit then
      (syslogName.1, Except.error
        (lit "Missing syslogname for SysLogAppender for category: " ++ categoryName))
    else
      let read := extractInt syslogName.1
      let facility : Int := if read.1.failbit then env.LOG_USER else read.2.getD 0
      (read.1, Except.ok ⟨AppenderTarget.syslog categoryName syslogName.2 facility, none⟩)
  else if appenderName = lit "remotesyslog" then
    let syslogName := extractString s
    if syslogName.1.failbit then
      (syslogName.1, Except.error
        (lit "Missing syslogname for SysLogAppender for category: " ++ categoryName))
    else
      let relayer := extractString syslogName.1
      if relayer.1.failbit then
        (relayer.1, Except.error
          (lit "Missing syslog host for SysLogAppender for category: " ++ categoryName))
      else
        let read := extractInt relayer.1
        let facility : Int := if read.1.failbit then env.LOG_USER else read.2.getD 0
        let portNumber := extractInt read.1
        let facility : Int := if portNumber.1.failbit then 514 else facility
        (portNumber.1, Except.ok
          ⟨AppenderTarget.remoteSyslog categoryName syslogName.2 relayer.2 facility portNumber.2,
            none⟩)
  else
    (s, Except.error
      (lit "Invalid appender name (" ++ appenderName
        ++ lit ") in logging configuration file for category: " ++ categoryName))

/-- Lines 130-147: construction of the layout named by `layout`.  For
`pattern` the rest of the line is read into `char pattern[1000]`. -/
def buildLayout (categoryName layout : List Char) (s : IStream) :
    IStream × Except (List Char) Layout :=
  if layout = lit "basic" then (s, Except.ok Layout.basic)
  else if layout = lit "simple" then (s, Except.ok Layout.simple)
  else if layout = lit "pattern" then
    let pattern := getlineBuf 1000 (ws s)
    (pattern.1, Except.ok (Layout.pattern (cstr pattern.2)))
  else
    (s, Except.error
      (lit "Invalid layout (" ++ layout
        ++ lit ") in logging configuration file for category: " ++ categoryName))

/-- Lines 60-63: the category a command names. -/
def resolveCategory (categoryName : List Char) (reg : Registry) : CategoryRef × Registry :=
  if categoryName = lit "root" then reg.getRoot else reg.getInstance categoryName

/-- What a command ends up doing with the category it names: nothing more than
referring to it, `category.addAppender(appender)` (line 148), or
`category.setPriority(v)` (line 158). -/
inductive Action where
  | refer
  | addAppender (a : Appender)
  | setPriority (v : Int)
  deriving DecidableEq, Repr

/-- The call an action stands for, made on the resolved category. -/
def Action.apply (act : Action) (category : CategoryRef × Registry) : Registry :=
  match act with
  | Action.refer => category.2
  | Action.addAppender a => category.2.addAppender category.1 a
  | Action.setPriority v => category.2.setPriority category.1 v

/-- Lines 66-149, the `appender` command: the stream after its arguments and
either the reason of the `ConfigureFailure` thrown or the call to make on the
category.  When the layout or the appender name cannot be read, nothing is
built and nothing is thrown. -/
def appenderCommand (env : Env) (categoryName : List Char) (s : IStream) :
    IStream × Except (List Char) Action :=
  let layout := extractString s
  let appenderName := extractString layout.1
  if !appenderName.1.failbit then
    let built := buildAppender env categoryName appenderName.2 appenderName.1
    match built.2 with
    | Except.error reason => (built.1, Except.error reason)
    | Except.ok appender =>
      let laid := buildLayout categoryName layout.2 built.1
      match laid.2 with
      | Except.error reason => (laid.1, Except.error reason)
      | Except.ok l => (laid.1, Except.ok (Action.addAppender (appender.setLayout l)))
  else (appenderName.1, Except.ok Action.refer)

/-- Lines 152-161, the `priority` command.  The `std::invalid_argument` that
the `try` block catches is the one of `Priority::getPriorityValue`. -/
def priorityCommand (env : Env) (categoryName : List Char) (s : IStream) :
    IStream × Except (List Char) Action :=
  let priority := extractString s
  if priority.1.failbit then
    (priority.1, Except.error
      (lit "Missing priority in logging configuration file for category: " ++ categoryName))
  else
    match env.getPriorityValue priority.2 with
    | none =>
      (priority.1, Except.error
        (lit "Invalid priority (" ++ priority.2
          ++ lit ") in logging configuration file for category: " ++ categoryName))
    | some v => (priority.1, Except.ok (Action.setPriority v))

/-- Lines 65-172: dispatch on the command word. -/
def command (env : Env) (nextCommand categoryName : List Char) (s : IStream) :
    IStream × Except (List Char) Action :=
  if nextCommand = lit "appender" then appenderCommand env categoryName s
  else if nextCommand = lit "priority" then priorityCommand env categoryName s
  else if nextCommand = lit "category" then (s, Except.ok Action.refer)
  else
    (s, Except.error
      (lit "Invalid format in logging configuration file. Command: " ++ nextCommand))

/-- One pass through the body of the `while` loop, condition included: either
`configure` is over, or the loop goes round again. -/
inductive Step where
  | done (r : Result)
  | next (s : IStream) (reg : Registry)
  deriving DecidableEq, Repr

/-- Lines 49-173: the loop condition `initFile >> nextCommand` and the loop
body.  Each extraction is a pair: the stream after it and the text read.  The
category is resolved before the command is looked at, so it is in the registry
also when the command throws. -/
def step (env : Env) (s : IStream) (reg : Registry) : Step :=
  let nextCommand := extractString s
  if nextCommand.1.failbit then Step.done ⟨Outcome.success, reg, some nextCommand.1⟩
  else if nextCommand.2.head? = some '#' then
    Step.next (getlineString nextCommand.1).1 reg
  else
    let categoryName := extractString nextCommand.1
    if categoryName.1.failbit then Step.done ⟨Outcome.success, reg, some categoryName.1⟩
    else
      let category := resolveCategory categoryName.2 reg
      let body := command env nextCommand.2 categoryName.2 categoryName.1
      match body.2 with
      | Except.error reason => Step.done ⟨Outcome.failure reason, category.2, some body.1⟩
      | Except.ok act => Step.next body.1 (act.apply category)

/-- The `while` loop of lines 49-173, bounded by `fuel` passes; `none` when
the bound is exhausted. -/
def configureLoop (env : Env) : Nat → IStream → Registry → Option Result
  | 0, _, _ => none
  | fuel + 1, s, reg =>
    match step env s reg with
    | Step.done r => some r
    | Step.next s1 reg1 => configureLoop env fuel s1 reg1

/-- The loop started in state `s`, with one pass per unread character and one
more: enough for it to finish (`configureLoop_fuel`). -/
def runFrom (env : Env) (s : IStream) (reg : Registry) : Option Result :=
  configureLoop env (s.rest.length + 1) s reg

/-- `SimpleConfigurator::configure(initFileName)`, run on the registry `reg`. -/
def configure (env : Env) (initFileName : List Char) (reg : Registry) : Option Result :=
  match env.openFile (cstr initFileName) with
  | none =>
    some ⟨Outcome.failure
      (lit "Config File " ++ initFileName ++ lit " does not exist or is unreadable"),
      reg, none⟩
  | some content => runFrom env (fresh content) reg

/-- The category reference a category name stands for (lines 60-63): `root`
is the root category, every other name is the named category of that name. -/
def categoryRef (categoryName : List Char) : CategoryRef :=
  if categoryName = lit "root" then CategoryRef.root else CategoryRef.named categoryName

/-! ## Shape of the input text -/

/-- A token: a non-empty text without whitespace. -/
def isToken (t : List Char) : Bool := !t.isEmpty && t.all (fun c => !isspace c)

/-- A run of whitespace, possibly empty. -/
def isBlank (w : List Char) : Bool := w.all isspace

/-- A separator: a non-empty run of whitespace. -/
def isSep (w : List Char) : Bool := !w.isEmpty && w.all isspace

/-- What may follow a token: the end of the input, or whitespace. -/
def tokenEnd (tail : List Char) : Bool :=
  match tail with
  | [] => true
  | c :: _ => isspace c

/-- The stream right after a token was extracted in front of `tail`. -/
def after (tail : List Char) : IStream :=
  { rest := tail, eofbit := tail.isEmpty, failbit := false }

/-- The registry the loop works on when a pass is over. -/
def Step.registry : Step → Registry
  | Step.done r => r.registry
  | Step.next _ reg => reg

/-- `Reaches env s0 reg0 s reg`: the loop started on stream `s0` and registry
`reg0` comes to the top of the loop with stream `s` and registry `reg`. -/
inductive Reaches (env : Env) (s0 : IStream) (reg0 : Registry) : IStream → Registry → Prop where
  | start : Reaches env s0 reg0 s0 reg0
  | pass {s s1 : IStream} {reg reg1 : Registry} :
      Reaches env s0 reg0 s reg → step env s reg = Step.next s1 reg1 → Reaches env s0 reg0 s1 reg1

/-! ## An example environment -/

/-- The name of the one file of the example environment. -/
def exampleFile : List Char := lit "log4cpp.init"

/-- An example priority table: the level names of log4cpp. -/
def examplePriority (name : List Char) : Option Int :=
  if name = lit "EMERG" then some 0
  else if name = lit "FATAL" then some 0
  else if name = lit "ALERT" then some 100
  else if name = lit "CRIT" then some 200
  else if name = lit "ERROR" then some 300
  else if name = lit "WARN" then some 400
  else if name = lit "NOTICE" then some 500
  else if name = lit "INFO" then some 600
  else if name = lit "DEBUG" then some 700
  else if name = lit "NOTSET" then some 800
  else none

/-- An example environment: the only readable file is `exampleFile`, with the
given content; syslog is available and `LOG_USER` is `8`. -/
def fileEnv (content : List Char) : Env :=
  { openFile := fun path => if path = exampleFile then some content else none
    getPriorityValue := examplePriority
    LOG_USER := 8
    haveSyslog := true }

/-- An example registry: a root category at priority 600, no named category. -/
def rootOnly : Registry := { root := { priority := some 600, appenders := [] }, named := [] }

/-- A non-empty run of spaces and tabs. -/
def isGap (w : List Char) : Bool := !w.isEmpty && w.all (fun c => c == ' ' || c == '\t')

/-- A text that begins with a character that is not whitespace. -/
def startsNonBlank (p : List Char) : Bool :=
  match p with
  | [] => false
  | c :: _ => !isspace c

/-- A text without newline. -/
def oneLine (p : List Char) : Bool := p.all (fun c => c != '\n')

/-- A text without NUL character. -/
def nulFree (p : List Char) : Bool := p.all (fun c => c != Char.ofNat 0)

/-- The end of the last line of a file: a newline, or nothing. -/
def lineEnd (newline : Bool) : List Char := if newline then ['\n'] else []

/-- An example input: a good `appender` line, then one with the appender kind
`bogus`. -/
def bogusKindFile : List Char := lit "appender app basic console\nappender foo basic bogus\n"

/-- The example registry after `appender app basic console`. -/
def appConsole : Registry :=
  { root := { priority := some 600, appenders := [] }
    named := [(lit "app", { priority := none, appenders :=
      [⟨AppenderTarget.ostream (lit "app"), some Layout.basic⟩] })] }

/-- An example input: a `priority` line with a priority name that is not in
the table. -/
def bogusPriorityFile : List Char := lit "priority foo BOGUS\n"

/-- An example input: a word that is no command, followed by good commands. -/
def bogusCommandFile : List Char := lit "category app\nlogger app\npriority app DEBUG\n"

/-- The example registry after `category app`. -/
def appOnly : Registry :=
  { root := { priority := some 600, appenders := [] }
    named := [(lit "app", { priority := none, appenders := [] })] }

/-- A text that begins, after whitespace, with an optional sign and a decimal
digit: what the extraction of an `int` can start on. -/
def startsWithInt (tail : List Char) : Bool :=
  match tail.dropWhile isspace with
  | [] => false
  | c :: t =>
    if c == '-' || c == '+' then
      match t with
      | [] => false
      | d :: _ => isdigit d
    else isdigit c

/-- A token that is an integer: an optional sign and one or more decimal
digits, nothing else. -/
def isIntToken (t : List Char) : Bool :=
  match t with
  | [] => false
  | c :: r => if c == '-' || c == '+' then !r.isEmpty && r.all isdigit else (c :: r).all isdigit

/-- An example input: a `syslog` appender whose identity is followed by a
token that is not an integer but begins with digits. -/
def syslogDigitsFile : List Char := lit "appender app basic syslog myapp 12abc"

/-! ## The run of `configure`, registry aside

Nothing `configure` reads depends on the registry.  `pass` is the loop body
of `step` without the registry: it tells how the pass ends and which call, if
any, it makes on which category.  `trace` collects the calls of a whole run. -/

/-- A call on a category: the category name a command gave, and what the
command does with the category. -/
abbrev Call := List Char × Action

/-- One pass of the loop, registry aside: the loop stops with an outcome or
goes on, on the stream given, after the call given (if any). -/
inductive Pass where
  | stop (outcome : Outcome) (s : IStream) (call : Option Call)
  | go (s : IStream) (call : Option Call)
  deriving DecidableEq, Repr

/-- Lines 49-173 without the registry.  A command that throws has still
referred to its category. -/
def pass (env : Env) (s : IStream) : Pass :=
  let nextCommand := extractString s
  if nextCommand.1.failbit then Pass.stop Outcome.success nextCommand.1 none
  else if nextCommand.2.head? = some '#' then
    Pass.go (getlineString nextCommand.1).1 none
  else
    let categoryName := extractString nextCommand.1
    if categoryName.1.failbit then Pass.stop Outcome.success categoryName.1 none
    else
      let body := command env nextCommand.2 categoryName.2 categoryName.1
      match body.2 with
      | Except.error reason =>
        Pass.stop (Outcome.failure reason) body.1 (some (categoryName.2, Action.refer))
      | Except.ok act => Pass.go body.1 (some (categoryName.2, act))

/-- A call made on a registry: the category is resolved (lines 60-63), then
the action is applied to it. -/
def perform (reg : Registry) (call : Call) : Registry :=
  call.2.apply (resolveCategory call.1 reg)

/-- Calls made on a registry one after the other. -/
def performAll (calls : List Call) (reg : Registry) : Registry :=
  calls.foldl perform reg

/-- A pass run on a registry. -/
def Pass.run (p : Pass) (reg : Registry) : Step :=
  match p with
  | Pass.stop outcome s call => Step.done ⟨outcome, performAll call.toList reg, some s⟩
  | Pass.go s call => Step.next s (performAll call.toList reg)

/-- A whole run, registry aside: how it ends, the final stream, and the calls
made on categories, in the order of the input. -/
structure Trace where
  outcome : Outcome
  stream : IStream
  calls : List Call
  deriving DecidableEq, Repr

/-- The loop without the registry, bounded by `fuel` passes. -/
def traceLoop (env : Env) : Nat → IStream → Option Trace
  | 0, _ => none
  | fuel + 1, s =>
    match pass env s with
    | Pass.stop outcome s1 call => some ⟨outcome, s1, call.toList⟩
    | Pass.go s1 call =>
      (traceLoop env fuel s1).map (fun t => { t with calls := call.toList ++ t.calls })

/-- The trace of `configure` on a file content. -/
def trace (env : Env) (content : List Char) : Option Trace :=
  traceLoop env (content.length + 1) (fresh content)

/-- The appenders that the `appender` commands among `calls` attach to the
category `ref`, in order. -/
def attached (ref : CategoryRef) (calls : List Call) : List Appender :=
  calls.filterMap (fun call =>
    match call.2 with
    | Action.addAppender a => if categoryRef call.1 = ref then some a else none
    | _ => none)

/-- An example input: an appender and a priority for one category. -/
def appenderPriorityFile : List Char :=
  lit "appender app basic console\npriority app DEBUG\n"

/-- The example result of `configure` on `appenderPriorityFile`, from
`rootOnly`. -/
def appenderPriorityResult : Result :=
  { outcome := Outcome.success
    registry :=
      { root := { priority := some 600, appenders := [] }
        named :=
          [(lit "app", { priority := some 700, appenders :=
              [⟨AppenderTarget.ostream (lit "app"), some Layout.basic⟩] })] }
    stream := some { rest := [], eofbit := true, failbit := true } }

/-! ## Commands cut short by the end of the input -/

/-- The required arguments that the end of the input can cut off: the file
name of a `file` appender, the identity of a `syslog` appender, the identity
or the relay host of a `remotesyslog` appender, the priority name of a
`priority` command. -/
inductive MissingArg where
  | fileName
  | syslogName
  | remoteName
  | remoteHost
  | priorityName
  deriving DecidableEq, Repr

/-- The command on category `n` (layout `l`, identity `id`) up to the place
where the argument is missing, followed by `tail`; `w1`, `w2`, `w3`, `w4` are
the whitespace between its words. -/
def MissingArg.text (m : MissingArg) (w1 n w2 l w3 w4 id tail : List Char) : List Char :=
  match m with
  | MissingArg.fileName =>
    lit "appender" ++ (w1 ++ (n ++ (w2 ++ (l ++ (w3 ++ (lit "file" ++ tail))))))
  | MissingArg.syslogName =>
    lit "appender" ++ (w1 ++ (n ++ (w2 ++ (l ++ (w3 ++ (lit "syslog" ++ tail))))))
  | MissingArg.remoteName =>
    lit "appender" ++ (w1 ++ (n ++ (w2 ++ (l ++ (w3 ++ (lit "remotesyslog" ++ tail))))))
  | MissingArg.remoteHost =>
    lit "appender" ++ (w1 ++ (n ++ (w2 ++ (l ++ (w3 ++ (lit "remotesyslog" ++
      (w4 ++ (id ++ tail))))))))
  | MissingArg.priorityName => lit "priority" ++ (w1 ++ (n ++ tail))

/-- The reason of the `ConfigureFailure` the source throws for the missing
argument (lines 74, 95, 110, 113, 154). -/
def MissingArg.reason (m : MissingArg) (n : List Char) : List Char :=
  match m with
  | MissingArg.fileName =>
    lit "Missing filename for log file logging configuration file for category: " ++ n
  | MissingArg.syslogName => lit "Missing syslogname for SysLogAppender for category: " ++ n
  | MissingArg.remoteName => lit "Missing syslogname for SysLogAppender for category: " ++ n
  | MissingArg.remoteHost => lit "Missing syslog host for SysLogAppender for category: " ++ n
  | MissingArg.priorityName =>
    lit "Missing priority in logging configuration file for category: " ++ n

/-- An example input: a `file` appender without file name, its words on
several lines. -/
def noFileNameFile : List Char := lit "category foo\nappender\tfoo  basic\nfile\n"

/-- The example registry after `category foo`. -/
def fooOnly : Registry :=
  { root := { priority := some 600, appenders := [] }
    named := [(lit "foo", { priority := none, appenders := [] })] }

/-- An example input: an `appender` command cut short after the layout kind. -/
def noKindFile : List Char := lit "category foo\nappender bar basic\n"

/-- The example registry after `category foo` and a reference to `bar`. -/
def fooBar : Registry :=
  { root := { priority := some 600, appenders := [] }
    named := [(lit "foo", { priority := none, appenders := [] }),
              (lit "bar", { priority := none, appenders := [] })] }

/-- An example input: a `remotesyslog` appender with facility `3` and no port. -/
def remoteNoPortFile : List Char := lit "appender app basic remotesyslog myapp loghost 3\n"

/-- An example input: a `syslog` appender without facility, then a `priority`
command. -/
def syslogThenPriorityFile : List Char := lit "appender app basic syslog myapp\npriority app DEBUG\n"

/-- The same input with the value of `LOG_USER` written as the facility. -/
def syslogFacilityThenPriorityFile : List Char :=
  lit "appender app basic syslog myapp 8\npriority app DEBUG\n"

/-- An example input: an `appender` line with an unknown layout kind. -/
def bogusLayoutFile : List Char := lit "category foo\nappender foo fancy console\n"

/-- An example input: a `pattern` appender line with nothing after the
appender kind, then a `priority` line. -/
def patternThenPriorityFile : List Char := lit "appender app pattern console\npriority app DEBUG\n"

/-- The name of the second file of the two-file example environment. -/
def otherFile : List Char := lit "other.init"

/-- An example environment with two readable files, `exampleFile` and
`otherFile`, with the given contents. -/
def twoFileEnv (content other : List Char) : Env :=
  { openFile := fun path =>
      if path = exampleFile then some content else if path = otherFile then some other else none
    getPriorityValue := examplePriority
    LOG_USER := 8
    haveSyslog := true }

/-! ## Inputs that differ in their whitespace only -/

/-- `Respaced a b`: the text `b` is the text `a` with runs of whitespace
replaced by other non-empty runs of whitespace (spaces, tabs, newlines, ...),
at any number of places. -/
inductive Respaced : List Char → List Char → Prop where
  | same (a : List Char) : Respaced a a
  | gap (x w1 w2 y : List Char) :
      isSep w1 = true → isSep w2 = true → Respaced (x ++ (w1 ++ y)) (x ++ (w2 ++ y))
  | trans {a b c : List Char} : Respaced a b → Respaced b c → Respaced a c

/-- A text with every run of whitespace replaced by one space; `inGap` tells
that the text continues a run of whitespace. -/
def squash (inGap : Bool) : List Char → List Char
  | [] => []
  | c :: t =>
    if isspace c then (if inGap then squash true t else ' ' :: squash true t)
    else c :: squash false t

/-- Two streams with the same state bits whose unread texts differ in their
whitespace only. -/
def Sim (s1 s2 : IStream) : Prop :=
  s1.eofbit = s2.eofbit ∧ s1.failbit = s2.failbit ∧ squash false s1.rest = squash false s2.rest

/-- The pass that starts on `s` is an `appender` command with layout kind
`pattern`: the command word, the category name and the layout kind are read,
the first is `appender` and the last is `pattern`. -/
def patternCommand (s : IStream) : Bool :=
  let nextCommand := extractString s
  let categoryName := extractString nextCommand.1
  let layout := extractString categoryName.1
  !layout.1.failbit && decide (nextCommand.2 = lit "appender")
    && decide (layout.2 = lit "pattern")

/-- No pass of the loop started on `s` is an `appender` command with layout
kind `pattern` (within `fuel` passes). -/
def patternFreeLoop (env : Env) : Nat → IStream → Bool
  | 0, _ => true
  | fuel + 1, s =>
    !patternCommand s &&
      match pass env s with
      | Pass.stop _ _ _ => true
      | Pass.go s1 _ => patternFreeLoop env fuel s1

/-- The run of `configure` on `content` meets no `appender` command with
layout kind `pattern`. -/
def patternFree (env : Env) (content : List Char) : Bool :=
  patternFreeLoop env (content.length + 1) (fresh content)

/-- Two passes that end alike: both stop with the same outcome after the same
call, or both go on after the same call, on streams that differ in their
whitespace only. -/
def PassSim : Pass → Pass → Prop
  | Pass.stop o1 _ c1, Pass.stop o2 _ c2 => o1 = o2 ∧ c1 = c2
  | Pass.go t1 c1, Pass.go t2 c2 => c1 = c2 ∧ Sim t1 t2
  | _, _ => False

/-- An example input: three commands on three lines. -/
def threeLinesFile : List Char :=
  lit "category app\nappender app basic console\npriority app DEBUG\n"

/-- The same commands on one line, the second split over two lines. -/
def respacedFile : List Char :=
  lit "category app appender app\n\tbasic console\npriority app DEBUG\n"


/-! ## Tokens that hold a NUL character -/

/-- An appender kind that holds a NUL character: `bo`, NUL, `gus`. -/
def nulKind : List Char := lit "bo" ++ [Char.ofNat 0] ++ lit "gus"

/-- An example input: an `appender` command whose appender kind is `nulKind`. -/
def nulKindFile : List Char := lit "appender foo basic " ++ nulKind

/-- A category name that holds a NUL character: `a`, NUL, `b`. -/
def nulName : List Char := ['a', Char.ofNat 0, 'b']

/-- An example input: a `priority` command on the category `nulName`, with a
priority name that is not in the table. -/
def nulNamePriorityFile : List Char := lit "priority " ++ nulName ++ lit " BOGUS"

/-- A word that is no command and holds a NUL character: `lo`, NUL, `g`. -/
def nulCommand : List Char := lit "lo" ++ [Char.ofNat 0] ++ lit "g"

/-- An example input: the word `nulCommand` in front of a category name. -/
def nulCommandFile : List Char := nulCommand ++ lit " app"

/-- An example input: a `priority` command on the category `nulName`, cut
off before the priority name. -/
def nulNameCutFile : List Char := lit "priority " ++ nulName

/-- An example environment built without syslog support
(`LOG4CPP_HAVE_SYSLOG` is `0`). -/
def noSyslogEnv (content : List Char) : Env :=
  { openFile := fun path => if path = exampleFile then some content else none
    getPriorityValue := examplePriority
    LOG_USER := 8
    haveSyslog := false }

/-- An example input: a `syslog` appender cut off before its identity. -/
def syslogCutFile : List Char := lit "appender foo basic syslog"

/-- A layout kind that holds a NUL character: `f`, NUL, `y`. -/
def nulLayout : List Char := ['f', Char.ofNat 0, 'y']

/-- An example input: a `console` appender with the layout kind `nulLayout`. -/
def nulLayoutFile : List Char := lit "appender foo " ++ nulLayout ++ lit " console"

/-! ## Inputs written as a list of complete commands -/

/-- An appender kind with its arguments written out in full.  The facility
and the port are written as decimal numerals. -/
inductive KindArgs where
  | file (logFileName : List Char)
  | console
  | stdout
  | stderr
  | syslog (syslogName facility : List Char)
  | remotesyslog (syslogName relayer facility portNumber : List Char)
  deriving DecidableEq, Repr

/-- The appender that an `appender` command of the given kind on the category
name `n` is to construct, after the table of appender kinds: a file appender
on the file name, the console, a duplicate of the standard output or error
descriptor, a syslog appender with the identity and facility given, a remote
syslog appender with the identity, relay host, facility and port given. -/
def KindArgs.target (n : List Char) : KindArgs → AppenderTarget
  | KindArgs.file logFileName => AppenderTarget.file n logFileName
  | KindArgs.console => AppenderTarget.ostream n
  | KindArgs.stdout => AppenderTarget.fd n STDOUT_FILENO
  | KindArgs.stderr => AppenderTarget.fd n STDERR_FILENO
  | KindArgs.syslog syslogName facility => AppenderTarget.syslog n syslogName (digitsValue facility)
  | KindArgs.remotesyslog syslogName relayer facility portNumber =>
    AppenderTarget.remoteSyslog n syslogName relayer (digitsValue facility)
      (some (digitsValue portNumber))

/-- The layout kinds that take no argument. -/
inductive LayoutKind where
  | basic
  | simple
  deriving DecidableEq, Repr

/-- The layout a layout kind stands for. -/
def LayoutKind.layout : LayoutKind → Layout
  | LayoutKind.basic => Layout.basic
  | LayoutKind.simple => Layout.simple

/-- A complete command: `category n`, `priority n v`, or `appender n l k ...`
with a layout kind that takes no argument and an appender kind with all its
arguments. -/
inductive Cmd where
  | category (n : List Char)
  | priority (n v : List Char)
  | appender (n : List Char) (l : LayoutKind) (kind : KindArgs)
  deriving DecidableEq, Repr

/-- The category name of a command. -/
def Cmd.name : Cmd → List Char
  | Cmd.category n => n
  | Cmd.priority n _ => n
  | Cmd.appender n _ _ => n

/-- What a complete command is to do with the category it names: `category`
refers to it, `priority` sets the priority the table gives, `appender`
attaches the appender of its kind with the layout of its layout kind. -/
def Cmd.action (env : Env) : Cmd → Action
  | Cmd.category _ => Action.refer
  | Cmd.priority _ v => Action.setPriority ((env.getPriorityValue v).getD 0)
  | Cmd.appender n l kind => Action.addAppender ⟨kind.target n, some l.layout⟩

/-- The call a complete command is to make. -/
def Cmd.call (env : Env) (c : Cmd) : Call := (c.name, c.action env)

/-- The appenders that the `appender` commands among `cmds` naming the
category `ref` are to build, one per command, in the order of the commands. -/
def built (ref : CategoryRef) (cmds : List Cmd) : List Appender :=
  cmds.filterMap (fun c =>
    match c with
    | Cmd.appender n l kind =>
      if categoryRef n = ref then some ⟨kind.target n, some l.layout⟩ else none
    | _ => none)

theorem length_dropWhile_le (p : Char → Bool) (l : List Char) :
    (l.dropWhile p).length ≤ l.length := by
  induction l with
  | nil => simp
  | cons a t ih =>
    rw [List.dropWhile_cons]
    split
    · exact Nat.le_succ_of_le ih
    · exact Nat.le_refl _

theorem length_takeWhile_add (p : Char → Bool) (l : List Char) :
    (l.takeWhile p).length + (l.dropWhile p).length = l.length := by
  rw [← List.length_append, List.takeWhile_append_dropWhile]

theorem sentry_rest_le (b : Bool) (s : IStream) : (sentry b s).1.rest.length ≤ s.rest.length := by
  unfold sentry
  dsimp only
  split
  · simp
  · split
    · simp
    · split
      · simp
      · exact length_dropWhile_le _ _

theorem sentry_true (b : Bool) (s s1 : IStream) (h : sentry b s = (s1, true)) :
    s1.failbit = false ∧ s1.eofbit = false ∧ s.good = true := by
  unfold sentry at h
  dsimp only at h
  cases hg : s.good
  · simp [hg] at h
  · simp only [IStream.good, Bool.and_eq_true, Bool.not_eq_true'] at hg
    split at h
    · simp at h
    · split at h
      · simp at h; subst h; simp [hg]
      · split at h
        · simp at h
        · simp at h; subst h; simp [hg]

theorem sentry_false (b : Bool) (s s1 : IStream) (h : sentry b s = (s1, false)) :
    s1.failbit = true ∧ s1.rest.length ≤ s.rest.length := by
  have hl := sentry_rest_le b s
  rw [h] at hl
  refine ⟨?_, hl⟩
  unfold sentry at h
  dsimp only at h
  split at h
  · simp at h; subst h; rfl
  · split at h
    · simp at h
    · split at h
      · simp at h; subst h; rfl
      · simp at h

theorem extractString_rest_le (s : IStream) : (extractString s).1.rest.length ≤ s.rest.length := by
  unfold extractString
  have h := sentry_rest_le false s
  split
  · next s1 hs =>
    rw [hs] at h
    exact Nat.le_trans (length_dropWhile_le _ _) h
  · next s1 hs => rw [hs] at h; exact h

theorem extractString_rest_lt (s : IStream) (h : (extractString s).1.failbit = false) :
    (extractString s).1.rest.length < s.rest.length := by
  unfold extractString at h ⊢
  have h1 := sentry_rest_le false s
  split at h
  · next s1 hs =>
    rw [hs] at h1
    simp only [Bool.or_eq_false_iff, List.isEmpty_eq_false] at h
    have h3 := length_takeWhile_add (fun c => !isspace c) s1.rest
    have h4 : 0 < (s1.rest.takeWhile (fun c => !isspace c)).length :=
      List.length_pos.mpr h.2
    simp only
    simp only at h1
    omega
  · next s1 hs =>
    have := (sentry_false _ _ _ hs).1
    simp only at h
    rw [this] at h
    cases h

theorem extractInt_rest_le (s : IStream) : (extractInt s).1.rest.length ≤ s.rest.length := by
  unfold extractInt
  have h := sentry_rest_le false s
  split
  · next s1 hs =>
    rw [hs] at h
    simp only at h ⊢
    refine Nat.le_trans (length_dropWhile_le _ _) (Nat.le_trans ?_ h)
    split
    · next heq =>
      rw [heq]
      split
      · simp
      · split <;> simp
    · simp
  · next s1 hs => rw [hs] at h; exact h

theorem getlineString_rest_le (s : IStream) :
    (getlineString s).1.rest.length ≤ s.rest.length := by
  unfold getlineString
  have h := sentry_rest_le true s
  split
  · next s1 hs =>
    rw [hs] at h
    simp only at h ⊢
    have h2 := length_dropWhile_le (fun c => c != '\n') s1.rest
    split
    · simp
    · next heq => rw [heq] at h2; simp at h2 ⊢; omega
  · next s1 hs => rw [hs] at h; exact h

theorem ws_rest_le (s : IStream) : (ws s).rest.length ≤ s.rest.length := by
  unfold ws
  have h := sentry_rest_le true s
  split
  · next s1 hs =>
    rw [hs] at h
    exact Nat.le_trans (length_dropWhile_le _ _) h
  · next s1 hs => rw [hs] at h; exact h

theorem getlineBuf_rest_le (n : Nat) (s : IStream) :
    (getlineBuf n s).1.rest.length ≤ s.rest.length := by
  unfold getlineBuf
  have h := sentry_rest_le true s
  split
  · next s1 hs =>
    rw [hs] at h
    simp only at h ⊢
    have h2 := List.length_drop
      ((s1.rest.takeWhile (fun c => c != '\n')).take (n - 1)).length s1.rest
    split
    · simp
    · next heq =>
      rw [heq] at h2
      split
      · simp at h2 ⊢; omega
      · simp at h2 ⊢; omega
  · next s1 hs => rw [hs] at h; exact h

theorem ite_rest_le {β : Type} (n : Nat) (c : Prop) [Decidable c] (a b : IStream × β)
    (ha : a.1.rest.length ≤ n) (hb : b.1.rest.length ≤ n) :
    (if c then a else b).1.rest.length ≤ n := by
  split <;> assumption

theorem buildAppender_rest_le (env : Env) (n k : List Char) (s : IStream) :
    (buildAppender env n k s).1.rest.length ≤ s.rest.length := by
  have h1 := extractString_rest_le s
  have h2 := extractString_rest_le (extractString s).1
  have h3 := extractInt_rest_le (extractString s).1
  have h4 := extractInt_rest_le (extractString (extractString s).1).1
  have h5 := extractInt_rest_le (extractInt (extractString (extractString s).1).1).1
  unfold buildAppender
  simp only
  repeat' apply ite_rest_le
  all_goals simp only
  all_goals omega

theorem buildLayout_rest_le (n l : List Char) (s : IStream) :
    (buildLayout n l s).1.rest.length ≤ s.rest.length := by
  have h1 := ws_rest_le s
  have h2 := getlineBuf_rest_le 1000 (ws s)
  unfold buildLayout
  simp only
  repeat' apply ite_rest_le
  all_goals simp only
  all_goals omega

theorem appenderCommand_rest_le (env : Env) (n : List Char) (s : IStream) :
    (appenderCommand env n s).1.rest.length ≤ s.rest.length := by
  have h1 := extractString_rest_le s
  have h2 := extractString_rest_le (extractString s).1
  have h3 := buildAppender_rest_le env n (extractString (extractString s).1).2
    (extractString (extractString s).1).1
  have h4 := buildLayout_rest_le n (extractString s).2
    (buildAppender env n (extractString (extractString s).1).2
      (extractString (extractString s).1).1).1
  unfold appenderCommand
  simp only
  apply ite_rest_le
  · split
    · simp only; omega
    · split <;> (simp only; omega)
  · simp only; omega

theorem priorityCommand_rest_le (env : Env) (n : List Char) (s : IStream) :
    (priorityCommand env n s).1.rest.length ≤ s.rest.length := by
  have h1 := extractString_rest_le s
  unfold priorityCommand
  simp only
  apply ite_rest_le
  · exact h1
  · split <;> exact h1

theorem command_rest_le (env : Env) (c n : List Char) (s : IStream) :
    (command env c n s).1.rest.length ≤ s.rest.length := by
  unfold command
  refine ite_rest_le _ _ _ _ ?_ (ite_rest_le _ _ _ _ ?_ (ite_rest_le _ _ _ _ ?_ ?_))
  · exact appenderCommand_rest_le env n s
  · exact priorityCommand_rest_le env n s
  · exact Nat.le_refl _
  · exact Nat.le_refl _

theorem step_next_lt (env : Env) (s s1 : IStream) (reg reg1 : Registry)
    (h : step env s reg = Step.next s1 reg1) : s1.rest.length < s.rest.length := by
  have e1 := extractString_rest_lt s
  have e2 := extractString_rest_le (extractString s).1
  have g1 := getlineString_rest_le (extractString s).1
  have c1 := command_rest_le env (extractString s).2 (extractString (extractString s).1).2
    (extractString (extractString s).1).1
  unfold step at h
  simp only at h
  by_cases f1 : (extractString s).1.failbit = true
  · rw [if_pos f1] at h; cases h
  rw [if_neg f1] at h
  have e1 := e1 (by simpa using f1)
  by_cases f2 : (extractString s).2.head? = some '#'
  · rw [if_pos f2] at h; cases h; omega
  rw [if_neg f2] at h
  by_cases f3 : (extractString (extractString s).1).1.failbit = true
  · rw [if_pos f3] at h; cases h
  rw [if_neg f3] at h
  split at h
  · cases h
  · cases h; omega

theorem configureLoop_fuel (env : Env) (fuel1 fuel2 : Nat) (s : IStream) (reg : Registry)
    (h1 : s.rest.length < fuel1) (h2 : s.rest.length < fuel2) :
    configureLoop env fuel1 s reg = configureLoop env fuel2 s reg := by
  induction fuel1 generalizing fuel2 s reg with
  | zero => omega
  | succ f ih =>
    cases fuel2 with
    | zero => omega
    | succ g =>
      simp only [configureLoop]
      cases hs : step env s reg with
      | done r => rfl
      | next s1 reg1 =>
        have := step_next_lt env s s1 reg reg1 hs
        exact ih g s1 reg1 (by omega) (by omega)

/-- Unfolding of the loop: a pass that ends `configure` gives its result. -/
theorem runFrom_done (env : Env) (s : IStream) (reg : Registry) (r : Result)
    (h : step env s reg = Step.done r) : runFrom env s reg = some r := by
  simp [runFrom, configureLoop, h]

/-- Unfolding of the loop: a pass that continues hands over to the next. -/
theorem runFrom_next (env : Env) (s s1 : IStream) (reg reg1 : Registry)
    (h : step env s reg = Step.next s1 reg1) : runFrom env s reg = runFrom env s1 reg1 := by
  have hlt := step_next_lt env s s1 reg reg1 h
  simp only [runFrom, configureLoop, h]
  exact configureLoop_fuel env _ _ s1 reg1 hlt (Nat.lt_succ_self _)

/-- The loop always ends: `runFrom` has a result. -/
theorem runFrom_isSome (env : Env) (s : IStream) (reg : Registry) :
    (runFrom env s reg).isSome = true := by
  generalize hn : s.rest.length = n
  induction n using Nat.strong_induction_on generalizing s reg with
  | _ n ih =>
    cases hs : step env s reg with
    | done r => rw [runFrom_done env s reg r hs]; rfl
    | next s1 reg1 =>
      rw [runFrom_next env s s1 reg reg1 hs]
      have := step_next_lt env s s1 reg reg1 hs
      exact ih s1.rest.length (by omega) s1 reg1 rfl

/-! ## Reading tokens off the text -/

theorem dropWhile_all_append (p : Char → Bool) (w r : List Char) (h : w.all p = true) :
    (w ++ r).dropWhile p = r.dropWhile p := by
  induction w with
  | nil => rfl
  | cons a t ih =>
    simp only [List.all_cons, Bool.and_eq_true] at h
    simp [List.dropWhile_cons, h.1, ih h.2]

theorem takeWhile_all_append (p : Char → Bool) (w r : List Char) (h : w.all p = true) :
    (w ++ r).takeWhile p = w ++ r.takeWhile p := by
  induction w with
  | nil => rfl
  | cons a t ih =>
    simp only [List.all_cons, Bool.and_eq_true] at h
    simp [List.takeWhile_cons, h.1, ih h.2]

theorem takeWhile_tokenEnd (tail : List Char) (h : tokenEnd tail = true) :
    tail.takeWhile (fun c => !isspace c) = [] := by
  cases tail with
  | nil => rfl
  | cons c t => simp only [tokenEnd] at h; simp [List.takeWhile_cons, h]

theorem dropWhile_tokenEnd (tail : List Char) (h : tokenEnd tail = true) :
    tail.dropWhile (fun c => !isspace c) = tail := by
  cases tail with
  | nil => rfl
  | cons c t => simp only [tokenEnd] at h; simp [List.dropWhile_cons, h]

theorem dropWhile_token (t r : List Char) (h : isToken t = true) :
    (t ++ r).dropWhile isspace = t ++ r := by
  cases t with
  | nil => simp [isToken] at h
  | cons c u =>
    simp only [isToken, List.isEmpty_cons, Bool.not_false, List.all_cons, Bool.true_and,
      Bool.and_eq_true, Bool.not_eq_true'] at h
    simp [List.dropWhile_cons, h.1]

theorem isToken_ne_nil (t : List Char) (h : isToken t = true) : t ≠ [] := by
  cases t with
  | nil => simp [isToken] at h
  | cons c u => simp

theorem isToken_all (t : List Char) (h : isToken t = true) :
    t.all (fun c => !isspace c) = true := by
  simp only [isToken, Bool.and_eq_true] at h
  exact h.2

/-- Extraction of a token `t` that stands, after whitespace `w`, in front of
`tail`. -/
theorem extractString_token (w t tail : List Char) (e : Bool)
    (hw : isBlank w = true) (ht : isToken t = true) (he : tokenEnd tail = true)
    (hgood : e = false) :
    extractString { rest := w ++ (t ++ tail), eofbit := e, failbit := false }
      = (after tail, t) := by
  subst hgood
  have hne := isToken_ne_nil t ht
  have hd : (w ++ (t ++ tail)).dropWhile isspace = t ++ tail := by
    rw [dropWhile_all_append _ _ _ hw, dropWhile_token _ _ ht]
  have hne2 : (t ++ tail).isEmpty = false := by
    cases t with
    | nil => exact absurd rfl hne
    | cons c u => rfl
  have htw : (t ++ tail).takeWhile (fun c => !isspace c) = t := by
    rw [takeWhile_all_append _ _ _ (isToken_all t ht), takeWhile_tokenEnd _ he, List.append_nil]
  have hdw : (t ++ tail).dropWhile (fun c => !isspace c) = tail := by
    rw [dropWhile_all_append _ _ _ (isToken_all t ht), dropWhile_tokenEnd _ he]
  have ht' : t.isEmpty = false := by
    cases t with
    | nil => exact absurd rfl hne
    | cons c u => rfl
  have hs : sentry false { rest := w ++ (t ++ tail), eofbit := false, failbit := false }
      = ({ rest := t ++ tail, eofbit := false, failbit := false }, true) := by
    simp [sentry, IStream.good, hd, hne2]
  simp only [extractString, hs, htw, hdw, after, ht', Bool.false_or]

theorem tokenEnd_sep_append (w r : List Char) (h : isSep w = true) : tokenEnd (w ++ r) = true := by
  cases w with
  | nil => simp [isSep] at h
  | cons c u =>
    simp only [isSep, List.isEmpty_cons, Bool.not_false, List.all_cons, Bool.true_and,
      Bool.and_eq_true] at h
    simp [tokenEnd, h.1]

theorem isBlank_of_isSep (w : List Char) (h : isSep w = true) : isBlank w = true := by
  simp only [isSep, Bool.and_eq_true] at h
  exact h.2

theorem isEmpty_sep_append (w r : List Char) (h : isSep w = true) : (w ++ r).isEmpty = false := by
  cases w with
  | nil => simp [isSep] at h
  | cons c u => rfl

/-- Extraction of the next token after a separator. -/
theorem extractString_after (w t tail : List Char)
    (hw : isSep w = true) (ht : isToken t = true) (he : tokenEnd tail = true) :
    extractString (after (w ++ (t ++ tail))) = (after tail, t) := by
  unfold after
  exact extractString_token w t tail _ (isBlank_of_isSep w hw) ht he (isEmpty_sep_append _ _ hw)

/-- Extraction at the end of the input fails. -/
theorem extractString_after_nil : extractString (after []) = ({ rest := [], eofbit := true, failbit := true }, []) := by
  rfl

/-! ## The registry model -/

namespace Registry

theorem lookup_update (l : List (List Char × Category)) (name m : List Char)
    (f : Category → Category) :
    lookup m (update name f l) = if m = name then (lookup m l).map f else lookup m l := by
  induction l with
  | nil => simp [lookup, update]
  | cons e t ih =>
    by_cases h1 : e.1 = name
    · by_cases h2 : e.1 = m
      · have : m = name := h2 ▸ h1
        simp [lookup, update, h1, h2, this]
      · have h2' : ¬ name = m := fun h => h2 (h1.trans h)
        simp only [lookup, update, h1, if_true, h2', if_false, h2]
        exact ih
    · by_cases h2 : e.1 = m
      · have : ¬ m = name := fun h => h1 (h2.trans h)
        simp [lookup, update, h1, h2, this]
      · simp only [lookup, update, h1, if_false, h2]
        exact ih

theorem map_fst_update (l : List (List Char × Category)) (name : List Char)
    (f : Category → Category) : (update name f l).map Prod.fst = l.map Prod.fst := by
  induction l with
  | nil => rfl
  | cons e t ih =>
    by_cases h : e.1 = name <;> simp only [update, h, if_true, if_false, List.map_cons, ih]

theorem lookup_isSome (l : List (List Char × Category)) (m : List Char) :
    (lookup m l).isSome = true ↔ m ∈ l.map Prod.fst := by
  induction l with
  | nil => simp [lookup]
  | cons e t ih =>
    by_cases h : e.1 = m
    · subst h
      simp only [lookup, if_true, Option.isSome_some, List.map_cons, List.mem_cons, true_or]
    · have h' : ¬ m = e.1 := fun x => h x.symm
      simp only [lookup, h, if_false, ih, List.map_cons, List.mem_cons, h', false_or]

theorem lookup_append (l1 l2 : List (List Char × Category)) (m : List Char) :
    lookup m (l1 ++ l2) = (lookup m l1).orElse (fun _ => lookup m l2) := by
  induction l1 with
  | nil => simp [lookup]
  | cons e t ih =>
    by_cases h : e.1 = m <;> simp [lookup, h, ih]

theorem find?_modify (reg : Registry) (ref ref1 : CategoryRef) (f : Category → Category) :
    (reg.modify ref f).find? ref1
      = if ref1 = ref then (reg.find? ref1).map f else reg.find? ref1 := by
  cases ref with
  | root =>
    cases ref1 with
    | root => simp [modify, find?]
    | named m => simp [modify, find?]
  | named name =>
    cases ref1 with
    | root => simp [modify, find?]
    | named m =>
      simp only [modify, find?, lookup_update, CategoryRef.named.injEq]

theorem names_modify (reg : Registry) (ref : CategoryRef) (f : Category → Category) :
    (reg.modify ref f).names = reg.names := by
  cases ref with
  | root => rfl
  | named name => simp only [modify, names, map_fst_update]

theorem appendersOf_addAppender (reg : Registry) (ref ref1 : CategoryRef) (a : Appender) :
    (reg.addAppender ref a).appendersOf ref1
      = if ref1 = ref ∧ (reg.find? ref).isSome = true then reg.appendersOf ref1 ++ [a]
        else reg.appendersOf ref1 := by
  simp only [appendersOf, addAppender, find?_modify]
  by_cases h : ref1 = ref
  · subst h
    cases hf : reg.find? ref1 <;> simp [hf]
  · simp [h]

theorem priorityOf_addAppender (reg : Registry) (ref ref1 : CategoryRef) (a : Appender) :
    (reg.addAppender ref a).priorityOf ref1 = reg.priorityOf ref1 := by
  simp only [priorityOf, addAppender, find?_modify]
  by_cases h : ref1 = ref
  · subst h
    cases hf : reg.find? ref1 <;> simp [hf]
  · simp [h]

theorem appendersOf_setPriority (reg : Registry) (ref ref1 : CategoryRef) (v : Int) :
    (reg.setPriority ref v).appendersOf ref1 = reg.appendersOf ref1 := by
  simp only [appendersOf, setPriority, find?_modify]
  by_cases h : ref1 = ref
  · subst h
    cases hf : reg.find? ref1 <;> simp [hf]
  · simp [h]

theorem priorityOf_setPriority (reg : Registry) (ref ref1 : CategoryRef) (v : Int) :
    (reg.setPriority ref v).priorityOf ref1
      = if ref1 = ref ∧ (reg.find? ref).isSome = true then some v else reg.priorityOf ref1 := by
  simp only [priorityOf, setPriority, find?_modify]
  by_cases h : ref1 = ref
  · subst h
    cases hf : reg.find? ref1 <;> simp [hf]
  · simp [h]

theorem find?_named_isSome (reg : Registry) (m : List Char) :
    (reg.find? (CategoryRef.named m)).isSome = true ↔ m ∈ reg.names := by
  simp only [find?, names, lookup_isSome]

theorem find?_getInstance (reg : Registry) (name : List Char) (ref : CategoryRef) :
    (reg.getInstance name).2.find? ref
      = if ref = CategoryRef.named name ∧ name ∉ reg.names
        then some { priority := none, appenders := [] } else reg.find? ref := by
  unfold getInstance
  by_cases h : name ∈ reg.names
  · simp [h]
  · simp only [h, if_false, not_false_eq_true, and_true]
    cases ref with
    | root => simp [find?]
    | named m =>
      simp only [find?, CategoryRef.named.injEq, lookup_append]
      by_cases hm : m = name
      · subst hm
        have : lookup m reg.named = none := by
          cases hx : lookup m reg.named with
          | none => rfl
          | some c =>
            exact absurd ((lookup_isSome reg.named m).mp (by simp [hx])) h
        simp [this, lookup]
      · have hm' : ¬ name = m := fun h => hm h.symm
        cases hx : lookup m reg.named <;> simp [hm, hm', lookup, hx]

end Registry

theorem resolveCategory_fst (n : List Char) (reg : Registry) :
    (resolveCategory n reg).1 = categoryRef n := by
  unfold resolveCategory categoryRef Registry.getRoot Registry.getInstance
  by_cases h : n = lit "root"
  · simp [h]
  · simp only [h, if_false]
    split <;> rfl

theorem find?_resolveCategory (n : List Char) (reg : Registry) (ref : CategoryRef) :
    (resolveCategory n reg).2.find? ref
      = if ref = categoryRef n ∧ (reg.find? ref).isSome = false
        then some { priority := none, appenders := [] } else reg.find? ref := by
  unfold resolveCategory categoryRef
  by_cases h : n = lit "root"
  · simp only [h, if_true, Registry.getRoot]
    by_cases hr : ref = CategoryRef.root
    · subst hr; simp [Registry.find?]
    · simp [hr]
  · simp only [h, if_false, Registry.find?_getInstance]
    by_cases hr : ref = CategoryRef.named n
    · subst hr
      have := Registry.find?_named_isSome reg n
      by_cases hm : n ∈ reg.names
      · simp [hm, this.mpr hm]
      · have hno : (reg.find? (CategoryRef.named n)).isSome = false := by
          cases hx : (reg.find? (CategoryRef.named n)).isSome
          · rfl
          · exact absurd (this.mp hx) hm
        simp [hm, hno]
    · simp [hr]

theorem find?_resolveCategory_self (n : List Char) (reg : Registry) :
    ((resolveCategory n reg).2.find? (categoryRef n)).isSome = true := by
  rw [find?_resolveCategory]
  cases h : (reg.find? (categoryRef n)).isSome <;> simp [h]

theorem appendersOf_resolveCategory (n : List Char) (reg : Registry) (ref : CategoryRef) :
    (resolveCategory n reg).2.appendersOf ref = reg.appendersOf ref := by
  simp only [Registry.appendersOf, find?_resolveCategory]
  cases h : reg.find? ref with
  | none => by_cases hr : ref = categoryRef n <;> simp [hr]
  | some c => simp

theorem priorityOf_resolveCategory (n : List Char) (reg : Registry) (ref : CategoryRef) :
    (resolveCategory n reg).2.priorityOf ref = reg.priorityOf ref := by
  simp only [Registry.priorityOf, find?_resolveCategory]
  cases h : reg.find? ref with
  | none => by_cases hr : ref = categoryRef n <;> simp [hr]
  | some c => simp

theorem names_resolveCategory (n : List Char) (reg : Registry) :
    (resolveCategory n reg).2.names
      = if n = lit "root" ∨ n ∈ reg.names then reg.names else reg.names ++ [n] := by
  unfold resolveCategory Registry.getRoot Registry.getInstance
  by_cases h : n = lit "root"
  · simp [h]
  · by_cases hm : n ∈ reg.names
    · simp only [h, hm, if_false, if_true, or_true]
    · have hm' : n ∉ List.map Prod.fst reg.named := hm
      simp only [h, hm, hm', if_false, or_self, Registry.names, List.map_append, List.map_cons,
        List.map_nil]

theorem root_resolveCategory (n : List Char) (reg : Registry) (h : n ≠ lit "root") :
    (resolveCategory n reg).2.root = reg.root := by
  unfold resolveCategory Registry.getInstance
  simp only [h, if_false]
  split <;> rfl

theorem resolveCategory_root (reg : Registry) :
    (resolveCategory (lit "root") reg).2 = reg := by
  simp [resolveCategory, Registry.getRoot]

/-! ## One pass of the loop -/

/-- A pass whose first extraction fails ends `configure` normally. -/
theorem step_eof (env : Env) (s : IStream) (reg : Registry)
    (h : (extractString s).1.failbit = true) :
    step env s reg = Step.done ⟨Outcome.success, reg, some (extractString s).1⟩ := by
  simp only [step, h, if_true]

/-- A pass that reads a command word and a category name resolves the category
and runs the command. -/
theorem step_command (env : Env) (s s1 s2 : IStream) (reg : Registry) (c n : List Char)
    (h1 : extractString s = (s1, c)) (hf1 : s1.failbit = false) (hc : c.head? ≠ some '#')
    (h2 : extractString s1 = (s2, n)) (hf2 : s2.failbit = false) :
    step env s reg =
      match (command env c n s2).2 with
      | Except.error reason =>
        Step.done ⟨Outcome.failure reason, (resolveCategory n reg).2, some (command env c n s2).1⟩
      | Except.ok act => Step.next (command env c n s2).1 (act.apply (resolveCategory n reg)) := by
  simp only [step, h1, hf1, hc, h2, hf2, if_false, Bool.false_eq_true]

/-- The `appender` command once the layout and the appender name are read. -/
theorem appenderCommand_read (env : Env) (n l k : List Char) (s s1 s2 : IStream)
    (h1 : extractString s = (s1, l)) (h2 : extractString s1 = (s2, k))
    (hf : s2.failbit = false) :
    appenderCommand env n s =
      match (buildAppender env n k s2).2 with
      | Except.error reason => ((buildAppender env n k s2).1, Except.error reason)
      | Except.ok appender =>
        match (buildLayout n l (buildAppender env n k s2).1).2 with
        | Except.error reason =>
          ((buildLayout n l (buildAppender env n k s2).1).1, Except.error reason)
        | Except.ok lay =>
          ((buildLayout n l (buildAppender env n k s2).1).1,
            Except.ok (Action.addAppender (appender.setLayout lay))) := by
  simp only [appenderCommand, h1, h2, hf, Bool.not_false, if_true]

theorem buildAppender_file (env : Env) (n f : List Char) (s s1 : IStream)
    (h : extractString s = (s1, f)) (hf : s1.failbit = false) :
    buildAppender env n (lit "file") s
      = (s1, Except.ok ⟨AppenderTarget.file n f, none⟩) := by
  simp only [buildAppender, h, hf, if_true, if_false, Bool.false_eq_true]

theorem buildLayout_basic (n : List Char) (s : IStream) :
    buildLayout n (lit "basic") s = (s, Except.ok Layout.basic) := by
  simp only [buildLayout, if_true]

/-- The loop started in a reached state ends as the loop started at the
beginning does. -/
theorem runFrom_reaches (env : Env) (s0 s : IStream) (reg0 reg : Registry)
    (h : Reaches env s0 reg0 s reg) : runFrom env s0 reg0 = runFrom env s reg := by
  induction h with
  | start => rfl
  | pass _ hstep ih => rw [ih, runFrom_next env _ _ _ _ hstep]

/-- The one-line input `appender n basic file f`, evaluated. -/
theorem configure_basic_file (env : Env) (initFileName n f : List Char) (reg : Registry)
    (hn : isToken n = true) (hf : isToken f = true)
    (hopen : env.openFile (cstr initFileName)
      = some (lit "appender " ++ n ++ lit " basic file " ++ f)) :
    configure env initFileName reg =
      some ⟨Outcome.success,
        (resolveCategory n reg).2.addAppender (categoryRef n)
          ⟨AppenderTarget.file n f, some Layout.basic⟩,
        some { rest := [], eofbit := true, failbit := true }⟩ := by
  have htxt : lit "appender " ++ n ++ lit " basic file " ++ f
      = [] ++ (lit "appender" ++ ([' '] ++ (n ++ ([' '] ++ (lit "basic" ++ ([' '] ++
          (lit "file" ++ ([' '] ++ (f ++ []))))))))) := by
    simp [lit]
  have hsp : isSep [' '] = true := by decide
  have e1 := extractString_token [] (lit "appender") ([' '] ++ (n ++ ([' '] ++
    (lit "basic" ++ ([' '] ++ (lit "file" ++ ([' '] ++ (f ++ [])))))))) false rfl (by decide)
    (tokenEnd_sep_append _ _ hsp) rfl
  have e2 := extractString_after [' '] n ([' '] ++ (lit "basic" ++ ([' '] ++
    (lit "file" ++ ([' '] ++ (f ++ [])))))) hsp hn (tokenEnd_sep_append _ _ hsp)
  have e3 := extractString_after [' '] (lit "basic") ([' '] ++
    (lit "file" ++ ([' '] ++ (f ++ [])))) hsp (by decide) (tokenEnd_sep_append _ _ hsp)
  have e4 := extractString_after [' '] (lit "file") ([' '] ++ (f ++ [])) hsp (by decide)
    (tokenEnd_sep_append _ _ hsp)
  have e5 := extractString_after [' '] f [] hsp hf rfl
  have hstep := step_command env _ _ _ reg _ _ e1 rfl (by decide) e2 rfl
  have hcmd : command env (lit "appender") n (after ([' '] ++ (lit "basic" ++ ([' '] ++
      (lit "file" ++ ([' '] ++ (f ++ [])))))))
      = (after [],
          Except.ok (Action.addAppender ⟨AppenderTarget.file n f, some Layout.basic⟩)) := by
    simp only [command, if_true]
    rw [appenderCommand_read env n _ _ _ _ _ e3 e4 rfl, buildAppender_file env n f _ _ e5 rfl]
    simp only [buildLayout_basic, Appender.setLayout]
  rw [hcmd] at hstep
  simp only [Action.apply, resolveCategory_fst] at hstep
  simp only [configure, hopen, htxt, fresh]
  rw [runFrom_next env _ _ _ _ hstep]
  exact runFrom_done env _ _ _ (step_eof env _ _ rfl)

/-- Appenders of every category after one is attached to the category a
command names. -/
theorem appendersOf_attach (n : List Char) (reg : Registry) (a : Appender) (ref : CategoryRef) :
    ((resolveCategory n reg).2.addAppender (categoryRef n) a).appendersOf ref
      = if ref = categoryRef n then reg.appendersOf ref ++ [a] else reg.appendersOf ref := by
  rw [Registry.appendersOf_addAppender, find?_resolveCategory_self, appendersOf_resolveCategory]
  simp

/-! ## Pattern layouts -/

theorem buildAppender_console (env : Env) (n : List Char) (s : IStream) :
    buildAppender env n (lit "console") s = (s, Except.ok ⟨AppenderTarget.ostream n, none⟩) := by
  have h1 : ¬ lit "console" = lit "file" := by decide
  simp only [buildAppender, h1, if_false, if_true]

theorem buildLayout_pattern (n : List Char) (s : IStream) :
    buildLayout n (lit "pattern") s
      = ((getlineBuf 1000 (ws s)).1,
          Except.ok (Layout.pattern (cstr (getlineBuf 1000 (ws s)).2))) := by
  have h1 : ¬ lit "pattern" = lit "basic" := by decide
  have h2 : ¬ lit "pattern" = lit "simple" := by decide
  simp only [buildLayout, h1, h2, if_false, if_true]

theorem isSep_of_isGap (w : List Char) (h : isGap w = true) : isSep w = true := by
  simp only [isGap, Bool.and_eq_true, List.all_eq_true, Bool.or_eq_true, beq_iff_eq] at h
  simp only [isSep, Bool.and_eq_true, List.all_eq_true]
  refine ⟨h.1, fun c hc => ?_⟩
  rcases h.2 c hc with rfl | rfl <;> decide

theorem dropWhile_startsNonBlank (p r : List Char) (h : startsNonBlank p = true) :
    (p ++ r).dropWhile isspace = p ++ r := by
  cases p with
  | nil => simp [startsNonBlank] at h
  | cons c t =>
    simp only [startsNonBlank, Bool.not_eq_true'] at h
    simp [List.dropWhile_cons, h]

theorem sentry_noskipws (s : IStream) (h : s.good = true) : sentry true s = (s, true) := by
  simp [sentry, h]

/-- Skipping the gap in front of a pattern text. -/
theorem ws_after_gap (w p tail : List Char) (hw : isSep w = true)
    (hp : startsNonBlank p = true) :
    ws (after (w ++ (p ++ tail))) = fresh (p ++ tail) := by
  have hne : (p ++ tail).isEmpty = false := by
    cases p with
    | nil => simp [startsNonBlank] at hp
    | cons c t => rfl
  have hg : (after (w ++ (p ++ tail))).good = true := by
    simp [IStream.good, after, isEmpty_sep_append _ _ hw]
  rw [ws, sentry_noskipws _ hg]
  simp only [after, dropWhile_all_append _ _ _ (isBlank_of_isSep w hw),
    dropWhile_startsNonBlank _ _ hp, hne, isEmpty_sep_append _ _ hw, Bool.or_self, fresh]

theorem takeWhile_oneLine (p : List Char) (newline : Bool) (h : oneLine p = true) :
    (p ++ lineEnd newline).takeWhile (fun c => c != '\n') = p := by
  rw [takeWhile_all_append _ _ _ h]
  cases newline <;> simp [lineEnd]

/-- Reading a pattern text of at most 999 characters that ends its line. -/
theorem getlineBuf_pattern (p : List Char) (newline : Bool) (h1 : oneLine p = true)
    (h2 : p ≠ []) (h3 : p.length ≤ 999) :
    getlineBuf 1000 (fresh (p ++ lineEnd newline))
      = ({ rest := [], eofbit := !newline, failbit := false }, p) := by
  have hg : (fresh (p ++ lineEnd newline)).good = true := rfl
  have htake : List.take (1000 - 1) p = p := List.take_of_length_le (by omega)
  have hemp : p.isEmpty = false := by
    cases p with
    | nil => exact absurd rfl h2
    | cons c t => rfl
  rw [getlineBuf, sentry_noskipws _ hg]
  simp only [fresh, takeWhile_oneLine p newline h1, htake, List.drop_left]
  cases newline
  · simp [lineEnd, hemp]
  · simp [lineEnd]

theorem cstr_nulFree (p : List Char) (h : nulFree p = true) : cstr p = p := by
  have := takeWhile_all_append (fun c => c != Char.ofNat 0) p [] h
  simpa [cstr] using this

/-- At the end of the input the next pass ends `configure` normally. -/
theorem runFrom_lineEnd (env : Env) (reg : Registry) (newline : Bool) :
    ∃ st, runFrom env { rest := [], eofbit := !newline, failbit := false } reg
      = some ⟨Outcome.success, reg, some st⟩ := by
  refine ⟨_, runFrom_done env _ _ _ (step_eof env _ _ ?_)⟩
  cases newline <;> rfl

/-- The one-line input `appender n pattern console`, a gap, and a pattern
text, evaluated. -/
theorem configure_pattern_console (env : Env) (initFileName n w p : List Char) (newline : Bool)
    (reg : Registry) (hn : isToken n = true) (hw : isGap w = true)
    (hp1 : oneLine p = true) (hp2 : startsNonBlank p = true) (hp3 : p.length ≤ 999)
    (hp4 : nulFree p = true)
    (hopen : env.openFile (cstr initFileName)
      = some (lit "appender " ++ n ++ lit " pattern console" ++ w ++ p ++ lineEnd newline)) :
    ∃ st, configure env initFileName reg =
      some ⟨Outcome.success,
        (resolveCategory n reg).2.addAppender (categoryRef n)
          ⟨AppenderTarget.ostream n, some (Layout.pattern p)⟩, some st⟩ := by
  have hne : p ≠ [] := by
    cases p with
    | nil => simp [startsNonBlank] at hp2
    | cons c t => simp
  have hsep := isSep_of_isGap w hw
  have htxt : lit "appender " ++ n ++ lit " pattern console" ++ w ++ p ++ lineEnd newline
      = [] ++ (lit "appender" ++ ([' '] ++ (n ++ ([' '] ++ (lit "pattern" ++ ([' '] ++
          (lit "console" ++ (w ++ (p ++ lineEnd newline))))))))) := by
    simp [lit]
  have hsp : isSep [' '] = true := by decide
  have e1 := extractString_token [] (lit "appender") ([' '] ++ (n ++ ([' '] ++
    (lit "pattern" ++ ([' '] ++ (lit "console" ++ (w ++ (p ++ lineEnd newline)))))))) false rfl
    (by decide) (tokenEnd_sep_append _ _ hsp) rfl
  have e2 := extractString_after [' '] n ([' '] ++ (lit "pattern" ++ ([' '] ++
    (lit "console" ++ (w ++ (p ++ lineEnd newline)))))) hsp hn (tokenEnd_sep_append _ _ hsp)
  have e3 := extractString_after [' '] (lit "pattern") ([' '] ++
    (lit "console" ++ (w ++ (p ++ lineEnd newline)))) hsp (by decide)
    (tokenEnd_sep_append _ _ hsp)
  have e4 := extractString_after [' '] (lit "console") (w ++ (p ++ lineEnd newline)) hsp
    (by decide) (tokenEnd_sep_append _ _ hsep)
  have hstep := step_command env _ _ _ reg _ _ e1 rfl (by decide) e2 rfl
  have hcmd : command env (lit "appender") n (after ([' '] ++ (lit "pattern" ++ ([' '] ++
      (lit "console" ++ (w ++ (p ++ lineEnd newline)))))))
      = ({ rest := [], eofbit := !newline, failbit := false },
          Except.ok (Action.addAppender ⟨AppenderTarget.ostream n, some (Layout.pattern p)⟩)) := by
    simp only [command, if_true]
    rw [appenderCommand_read env n _ _ _ _ _ e3 e4 rfl, buildAppender_console]
    simp only [buildLayout_pattern, ws_after_gap w p _ hsep hp2,
      getlineBuf_pattern p newline hp1 hne hp3, cstr_nulFree p hp4, Appender.setLayout]
  rw [hcmd] at hstep
  simp only [Action.apply, resolveCategory_fst] at hstep
  simp only [configure, hopen, htxt, fresh]
  rw [runFrom_next env _ _ _ _ hstep]
  exact runFrom_lineEnd env _ newline

/-! ## Commands that throw -/

/-- A pass that starts in front of a command word and a category name. -/
theorem step_text (env : Env) (reg : Registry) (w0 c w1 n tail : List Char)
    (hw0 : isBlank w0 = true) (hc : isToken c = true) (hc1 : c.head? ≠ some '#')
    (hw1 : isSep w1 = true) (hn : isToken n = true) (htail : tokenEnd tail = true) :
    step env (fresh (w0 ++ (c ++ (w1 ++ (n ++ tail))))) reg =
      match (command env c n (after tail)).2 with
      | Except.error reason =>
        Step.done ⟨Outcome.failure reason, (resolveCategory n reg).2,
          some (command env c n (after tail)).1⟩
      | Except.ok act =>
        Step.next (command env c n (after tail)).1 (act.apply (resolveCategory n reg)) := by
  have e1 := extractString_token w0 c (w1 ++ (n ++ tail)) false hw0 hc
    (tokenEnd_sep_append _ _ hw1) rfl
  have e2 := extractString_after w1 n tail hw1 hn htail
  exact step_command env _ _ _ reg _ _ e1 rfl hc1 e2 rfl

/-- When the loop has come to a state whose pass ends `configure`, the result
of that pass is the result of `configure`. -/
theorem configure_of_reaches (env : Env) (initFileName content : List Char)
    (reg0 reg : Registry) (s : IStream) (r : Result)
    (hopen : env.openFile (cstr initFileName) = some content)
    (hreach : Reaches env (fresh content) reg0 s reg)
    (hstep : step env s reg = Step.done r) :
    configure env initFileName reg0 = some r := by
  simp only [configure, hopen]
  rw [runFrom_reaches env _ _ _ _ hreach]
  exact runFrom_done env s reg r hstep

theorem buildAppender_invalid (env : Env) (n k : List Char) (s : IStream)
    (hk : k ∉ [lit "file", lit "console", lit "stdout", lit "stderr", lit "syslog",
      lit "remotesyslog"]) :
    buildAppender env n k s
      = (s, Except.error (lit "Invalid appender name (" ++ k
          ++ lit ") in logging configuration file for category: " ++ n)) := by
  simp only [List.mem_cons, List.mem_singleton, not_or, List.not_mem_nil, not_false_eq_true,
    and_true] at hk
  obtain ⟨h1, h2, h3, h4, h5, h6⟩ := hk
  simp only [buildAppender, h1, h2, h3, h4, h5, h6, and_false, if_false]

theorem infix_middle (a k b n : List Char) : k <:+: a ++ k ++ b ++ n :=
  ⟨a, b ++ n, by simp only [List.append_assoc]⟩

theorem infix_last (a n : List Char) : n <:+: a ++ n :=
  ⟨a, [], by simp only [List.append_nil]⟩

/-- Resolving a category keeps every category the registry holds. -/
theorem find?_resolveCategory_of_some (n : List Char) (reg : Registry) (ref : CategoryRef)
    (c : Category) (h : reg.find? ref = some c) : (resolveCategory n reg).2.find? ref = some c := by
  rw [find?_resolveCategory]
  simp [h]

/-- The pass at an `appender` command with an unknown appender name. -/
theorem step_invalid_appender (env : Env) (reg : Registry)
    (w0 w1 n w2 l w3 k tail : List Char)
    (hw0 : isBlank w0 = true) (hw1 : isSep w1 = true) (hn : isToken n = true)
    (hw2 : isSep w2 = true) (hl : isToken l = true) (hw3 : isSep w3 = true)
    (hk : isToken k = true) (htail : tokenEnd tail = true)
    (hkind : k ∉ [lit "file", lit "console", lit "stdout", lit "stderr", lit "syslog",
      lit "remotesyslog"]) :
    step env (fresh (w0 ++ (lit "appender" ++ (w1 ++ (n ++ (w2 ++ (l ++ (w3 ++ (k ++ tail))))))))) reg
      = Step.done ⟨Outcome.failure (lit "Invalid appender name (" ++ k
          ++ lit ") in logging configuration file for category: " ++ n),
          (resolveCategory n reg).2, some (after tail)⟩ := by
  have e3 := extractString_after w2 l (w3 ++ (k ++ tail)) hw2 hl (tokenEnd_sep_append _ _ hw3)
  have e4 := extractString_after w3 k tail hw3 hk htail
  rw [step_text env reg w0 (lit "appender") w1 n _ hw0 (by decide) (by decide) hw1 hn
    (tokenEnd_sep_append _ _ hw2)]
  simp only [command, if_true]
  rw [appenderCommand_read env n _ _ _ _ _ e3 e4 rfl, buildAppender_invalid env n k _ hkind]

/-- The `priority` command once the priority name is read. -/
theorem priorityCommand_read (env : Env) (n v : List Char) (s s1 : IStream)
    (h : extractString s = (s1, v)) (hf : s1.failbit = false) :
    priorityCommand env n s =
      match env.getPriorityValue v with
      | none =>
        (s1, Except.error (lit "Invalid priority (" ++ v
          ++ lit ") in logging configuration file for category: " ++ n))
      | some x => (s1, Except.ok (Action.setPriority x)) := by
  simp only [priorityCommand, h, hf, if_false, Bool.false_eq_true]

/-- The pass at a `priority` command whose priority name is unknown. -/
theorem step_invalid_priority (env : Env) (reg : Registry) (w0 w1 n w2 v tail : List Char)
    (hw0 : isBlank w0 = true) (hw1 : isSep w1 = true) (hn : isToken n = true)
    (hw2 : isSep w2 = true) (hv : isToken v = true) (htail : tokenEnd tail = true)
    (hunknown : env.getPriorityValue v = none) :
    step env (fresh (w0 ++ (lit "priority" ++ (w1 ++ (n ++ (w2 ++ (v ++ tail))))))) reg
      = Step.done ⟨Outcome.failure (lit "Invalid priority (" ++ v
          ++ lit ") in logging configuration file for category: " ++ n),
          (resolveCategory n reg).2, some (after tail)⟩ := by
  have e3 := extractString_after w2 v tail hw2 hv htail
  have h1 : ¬ lit "priority" = lit "appender" := by decide
  rw [step_text env reg w0 (lit "priority") w1 n _ hw0 (by decide) (by decide) hw1 hn
    (tokenEnd_sep_append _ _ hw2)]
  simp only [command, h1, if_false, if_true]
  rw [priorityCommand_read env n v _ _ e3 rfl, hunknown]

/-- The pass at a command word that is no command. -/
theorem step_invalid_command (env : Env) (reg : Registry) (w0 c w1 n tail : List Char)
    (hw0 : isBlank w0 = true) (hc : isToken c = true) (hc1 : c.head? ≠ some '#')
    (hw1 : isSep w1 = true) (hn : isToken n = true) (htail : tokenEnd tail = true)
    (hcmd : c ∉ [lit "appender", lit "priority", lit "category"]) :
    step env (fresh (w0 ++ (c ++ (w1 ++ (n ++ tail))))) reg
      = Step.done ⟨Outcome.failure
          (lit "Invalid format in logging configuration file. Command: " ++ c),
          (resolveCategory n reg).2, some (after tail)⟩ := by
  simp only [List.mem_cons, List.mem_singleton, not_or, List.not_mem_nil, not_false_eq_true,
    and_true] at hcmd
  obtain ⟨h1, h2, h3⟩ := hcmd
  rw [step_text env reg w0 c w1 n _ hw0 hc hc1 hw1 hn htail]
  simp only [command, h1, h2, h3, if_false]

/-! ## The category a command acts on -/

/-- Whatever a pass in front of a command and a category name does to the
registry is one call on the resolved category. -/
theorem step_text_registry (env : Env) (reg : Registry) (w0 c w1 n tail : List Char)
    (hw0 : isBlank w0 = true) (hc : isToken c = true) (hc1 : c.head? ≠ some '#')
    (hw1 : isSep w1 = true) (hn : isToken n = true) (htail : tokenEnd tail = true) :
    ∃ act : Action, (step env (fresh (w0 ++ (c ++ (w1 ++ (n ++ tail))))) reg).registry
      = act.apply (resolveCategory n reg) := by
  rw [step_text env reg w0 c w1 n tail hw0 hc hc1 hw1 hn htail]
  cases (command env c n (after tail)).2 with
  | error reason => exact ⟨Action.refer, rfl⟩
  | ok act => exact ⟨act, rfl⟩

theorem Action.apply_eq_modify (act : Action) (category : CategoryRef × Registry) :
    act.apply category = category.2 ∨ ∃ f, act.apply category = category.2.modify category.1 f := by
  cases act with
  | refer => exact Or.inl rfl
  | addAppender a =>
    exact Or.inr ⟨fun c => { c with appenders := c.appenders ++ [a] }, rfl⟩
  | setPriority v => exact Or.inr ⟨fun c => { c with priority := some v }, rfl⟩

theorem Action.apply_names (act : Action) (category : CategoryRef × Registry) :
    (act.apply category).names = category.2.names := by
  rcases Action.apply_eq_modify act category with h | ⟨f, h⟩
  · rw [h]
  · rw [h, Registry.names_modify]

theorem Action.apply_find?_other (act : Action) (category : CategoryRef × Registry)
    (ref : CategoryRef) (h : ref ≠ category.1) :
    (act.apply category).find? ref = category.2.find? ref := by
  rcases Action.apply_eq_modify act category with e | ⟨f, e⟩
  · rw [e]
  · rw [e, Registry.find?_modify, if_neg h]

theorem Action.apply_root_named (act : Action) (reg : Registry) :
    (act.apply (CategoryRef.root, reg)).named = reg.named := by
  cases act <;> rfl

theorem Action.apply_named_root (act : Action) (m : List Char) (reg : Registry) :
    (act.apply (CategoryRef.named m, reg)).root = reg.root := by
  cases act <;> rfl

theorem resolveCategory_of_root (reg : Registry) :
    resolveCategory (lit "root") reg = (CategoryRef.root, reg) := by
  simp only [resolveCategory, if_true, Registry.getRoot]

theorem resolveCategory_of_ne_root (n : List Char) (reg : Registry) (h : n ≠ lit "root") :
    resolveCategory n reg = (CategoryRef.named n, (reg.getInstance n).2) := by
  simp only [resolveCategory, h, if_false]
  unfold Registry.getInstance
  split <;> rfl

theorem find?_getInstance_other (reg : Registry) (n m : List Char) (h : m ≠ n) :
    (reg.getInstance n).2.find? (CategoryRef.named m) = reg.find? (CategoryRef.named m) := by
  rw [Registry.find?_getInstance]
  simp [h]

theorem names_getInstance (reg : Registry) (n : List Char) :
    (reg.getInstance n).2.names = if n ∈ reg.names then reg.names else reg.names ++ [n] := by
  unfold Registry.getInstance
  by_cases h : n ∈ reg.names
  · simp only [h, if_true]
  · have h' : n ∉ List.map Prod.fst reg.named := h
    simp only [h, h', if_false, Registry.names, List.map_append, List.map_cons, List.map_nil]

theorem root_getInstance (reg : Registry) (n : List Char) :
    (reg.getInstance n).2.root = reg.root := by
  unfold Registry.getInstance
  split <;> rfl

/-! ## The facility of a syslog appender -/

theorem takeWhile_nil_of_head (p : Char → Bool) (c : Char) (t : List Char) (h : p c = false) :
    (c :: t).takeWhile p = [] := by
  simp [List.takeWhile_cons, h]

/-- The extraction of an `int` fails on a text that does not start with a
number. -/
theorem extractInt_fails (s : IStream) (h : startsWithInt s.rest = false) :
    (extractInt s).1.failbit = true := by
  unfold extractInt
  cases hs : sentry false s with
  | mk s1 ok =>
    cases ok with
    | false => exact (sentry_false _ _ _ hs).1
    | true =>
      have hr : s1.rest = s.rest.dropWhile isspace := by
        unfold sentry at hs
        simp only at hs
        split at hs
        · simp at hs
        · split at hs
          · next hc => exact absurd hc (by decide)
          · split at hs
            · simp at hs
            · simp only [Prod.mk.injEq, and_true] at hs
              rw [← hs]
      simp only
      unfold startsWithInt at h
      rw [← hr] at h
      cases hrest : s1.rest with
      | nil => simp
      | cons c t =>
        rw [hrest] at h
        simp only at h
        by_cases hsign : (c == '-' || c == '+') = true
        · simp only [hsign, if_true] at h
          have hds : t.takeWhile isdigit = [] := by
            cases t with
            | nil => rfl
            | cons d u => exact takeWhile_nil_of_head _ _ _ (by simpa using h)
          simp only [Bool.or_eq_true, beq_iff_eq] at hsign
          rcases hsign with hm | hp
          · simp [hm, hds]
          · have hne : (c == '-') = false := by rw [hp]; decide
            simp [hne, hp, hds]
        · simp only [hsign, if_false, Bool.false_eq_true] at h
          have hds : (c :: t).takeWhile isdigit = [] := takeWhile_nil_of_head _ _ _ h
          simp only [Bool.or_eq_true, not_or, Bool.not_eq_true] at hsign
          simp [hsign.1, hsign.2, hds]

/-- The `syslog` appender when the facility cannot be read. -/
theorem buildAppender_syslog_default (env : Env) (n id : List Char) (s s1 : IStream)
    (hsys : env.haveSyslog = true) (h : extractString s = (s1, id)) (hf : s1.failbit = false)
    (hint : (extractInt s1).1.failbit = true) :
    buildAppender env n (lit "syslog") s
      = ((extractInt s1).1, Except.ok ⟨AppenderTarget.syslog n id env.LOG_USER, none⟩) := by
  have h1 : ¬ lit "syslog" = lit "file" := by decide
  have h2 : ¬ lit "syslog" = lit "console" := by decide
  have h3 : ¬ lit "syslog" = lit "stdout" := by decide
  have h4 : ¬ lit "syslog" = lit "stderr" := by decide
  simp only [buildAppender, h1, h2, h3, h4, hsys, h, hf, hint, if_false, if_true, and_self,
    Bool.false_eq_true]

/-- A known layout kind always gives a layout. -/
theorem buildLayout_known (n l : List Char) (s : IStream)
    (hl : l ∈ [lit "basic", lit "simple", lit "pattern"]) :
    ∃ s1 lay, buildLayout n l s = (s1, Except.ok lay) := by
  simp only [List.mem_cons, List.mem_singleton, List.not_mem_nil, or_false] at hl
  rcases hl with rfl | rfl | rfl
  · exact ⟨_, _, buildLayout_basic n s⟩
  · refine ⟨s, Layout.simple, ?_⟩
    have h1 : ¬ lit "simple" = lit "basic" := by decide
    simp only [buildLayout, h1, if_false, if_true]
  · exact ⟨_, _, buildLayout_pattern n s⟩

/-- The pass at a `syslog` appender command whose identity is not followed by
a number. -/
theorem step_syslog_default (env : Env) (reg : Registry)
    (w0 w1 n w2 l w3 w4 id tail : List Char) (hsys : env.haveSyslog = true)
    (hw0 : isBlank w0 = true) (hw1 : isSep w1 = true) (hn : isToken n = true)
    (hw2 : isSep w2 = true) (hl : l ∈ [lit "basic", lit "simple", lit "pattern"])
    (hw3 : isSep w3 = true) (hw4 : isSep w4 = true) (hid : isToken id = true)
    (htail : tokenEnd tail = true) (hint : startsWithInt tail = false) :
    ∃ s1 lay, step env (fresh (w0 ++ (lit "appender" ++ (w1 ++ (n ++ (w2 ++ (l ++ (w3 ++
        (lit "syslog" ++ (w4 ++ (id ++ tail))))))))))) reg
      = Step.next s1 ((resolveCategory n reg).2.addAppender (categoryRef n)
          ⟨AppenderTarget.syslog n id env.LOG_USER, some lay⟩) := by
  have hltok : isToken l = true := by
    simp only [List.mem_cons, List.mem_singleton, List.not_mem_nil, or_false] at hl
    rcases hl with rfl | rfl | rfl <;> decide
  have e3 := extractString_after w2 l (w3 ++ (lit "syslog" ++ (w4 ++ (id ++ tail)))) hw2 hltok
    (tokenEnd_sep_append _ _ hw3)
  have e4 := extractString_after w3 (lit "syslog") (w4 ++ (id ++ tail)) hw3 (by decide)
    (tokenEnd_sep_append _ _ hw4)
  have e5 := extractString_after w4 id tail hw4 hid htail
  have hfail : (extractInt (after tail)).1.failbit = true := extractInt_fails _ hint
  obtain ⟨s1, lay, hlay⟩ := buildLayout_known n l (extractInt (after tail)).1 hl
  refine ⟨s1, lay, ?_⟩
  rw [step_text env reg w0 (lit "appender") w1 n _ hw0 (by decide) (by decide) hw1 hn
    (tokenEnd_sep_append _ _ hw2)]
  simp only [command, if_true]
  rw [appenderCommand_read env n _ _ _ _ _ e3 e4 rfl,
    buildAppender_syslog_default env n id _ _ hsys e5 rfl hfail]
  simp only [hlay, Action.apply, resolveCategory_fst, Appender.setLayout]

/-! ## A run is its trace, performed on the registry -/

theorem step_eq_pass (env : Env) (s : IStream) (reg : Registry) :
    step env s reg = (pass env s).run reg := by
  unfold step pass
  simp only
  by_cases f1 : (extractString s).1.failbit = true
  · rw [if_pos f1, if_pos f1]; rfl
  rw [if_neg f1, if_neg f1]
  by_cases f2 : (extractString s).2.head? = some '#'
  · rw [if_pos f2, if_pos f2]; rfl
  rw [if_neg f2, if_neg f2]
  by_cases f3 : (extractString (extractString s).1).1.failbit = true
  · rw [if_pos f3, if_pos f3]; rfl
  rw [if_neg f3, if_neg f3]
  cases (command env (extractString s).2 (extractString (extractString s).1).2
    (extractString (extractString s).1).1).2 with
  | error reason => rfl
  | ok act => rfl

theorem performAll_append (c1 c2 : List Call) (reg : Registry) :
    performAll (c1 ++ c2) reg = performAll c2 (performAll c1 reg) := by
  simp only [performAll, List.foldl_append]

/-- The loop on a registry is the registry-free loop, with its calls performed
on the registry. -/
theorem configureLoop_eq_trace (env : Env) (fuel : Nat) (s : IStream) (reg : Registry) :
    configureLoop env fuel s reg
      = (traceLoop env fuel s).map
          (fun t => ⟨t.outcome, performAll t.calls reg, some t.stream⟩) := by
  induction fuel generalizing s reg with
  | zero => rfl
  | succ f ih =>
    simp only [configureLoop, traceLoop, step_eq_pass]
    cases pass env s with
    | stop outcome s1 call => rfl
    | go s1 call =>
      simp only [Pass.run, ih]
      cases traceLoop env f s1 with
      | none => rfl
      | some t => simp only [Option.map_some', performAll_append]

/-- `configure` on a readable file is its trace, performed on the registry. -/
theorem configure_eq_trace (env : Env) (initFileName content : List Char) (reg : Registry)
    (hopen : env.openFile (cstr initFileName) = some content) :
    configure env initFileName reg
      = (trace env content).map
          (fun t => ⟨t.outcome, performAll t.calls reg, some t.stream⟩) := by
  simp only [configure, hopen, runFrom, trace, fresh, configureLoop_eq_trace]

/-! ## What a list of calls does to the registry -/

theorem appendersOf_perform (reg : Registry) (call : Call) (ref : CategoryRef) :
    (perform reg call).appendersOf ref = reg.appendersOf ref ++ attached ref [call] := by
  obtain ⟨n, act⟩ := call
  cases act with
  | refer =>
    simp only [perform, Action.apply, appendersOf_resolveCategory, attached,
      List.filterMap_cons, List.filterMap_nil, List.append_nil]
  | addAppender a =>
    simp only [perform, Action.apply, resolveCategory_fst, appendersOf_attach, attached,
      List.filterMap_cons, List.filterMap_nil]
    by_cases h : ref = categoryRef n
    · simp only [h, if_true]
    · have h' : ¬ categoryRef n = ref := fun x => h x.symm
      simp only [h, h', if_false, List.append_nil]
  | setPriority v =>
    simp only [perform, Action.apply, Registry.appendersOf_setPriority,
      appendersOf_resolveCategory, attached, List.filterMap_cons, List.filterMap_nil,
      List.append_nil]

theorem attached_append (ref : CategoryRef) (c1 c2 : List Call) :
    attached ref (c1 ++ c2) = attached ref c1 ++ attached ref c2 := by
  simp only [attached, List.filterMap_append]

/-- Appenders accumulate: after a list of calls a category has the appenders
it had, followed by those the calls attach to it, in order. -/
theorem appendersOf_performAll (calls : List Call) (reg : Registry) (ref : CategoryRef) :
    (performAll calls reg).appendersOf ref = reg.appendersOf ref ++ attached ref calls := by
  induction calls generalizing reg with
  | nil => simp only [performAll, List.foldl_nil, attached, List.filterMap_nil, List.append_nil]
  | cons c t ih =>
    have h : performAll (c :: t) reg = performAll t (perform reg c) := rfl
    rw [h, ih, appendersOf_perform, List.append_assoc, ← attached_append]
    rfl

theorem names_perform (reg : Registry) (call : Call) :
    (perform reg call).names
      = if call.1 = lit "root" ∨ call.1 ∈ reg.names then reg.names else reg.names ++ [call.1] := by
  simp only [perform, Action.apply_names, names_resolveCategory]

theorem names_perform_of_known (reg : Registry) (call : Call)
    (h : call.1 = lit "root" ∨ call.1 ∈ reg.names) : (perform reg call).names = reg.names := by
  rw [names_perform, if_pos h]

/-- Calls on categories the registry already holds add no name. -/
theorem names_performAll_of_known (calls : List Call) (reg : Registry)
    (h : ∀ call ∈ calls, call.1 = lit "root" ∨ call.1 ∈ reg.names) :
    (performAll calls reg).names = reg.names := by
  induction calls generalizing reg with
  | nil => rfl
  | cons c t ih =>
    have h1 := names_perform_of_known reg c (h c (List.mem_cons_self _ _))
    have h2 : performAll (c :: t) reg = performAll t (perform reg c) := rfl
    rw [h2, ih (perform reg c), h1]
    intro call hcall
    rw [h1]
    exact h call (List.mem_cons_of_mem _ hcall)

theorem names_subset_perform (reg : Registry) (call : Call) (m : List Char)
    (h : m ∈ reg.names) : m ∈ (perform reg call).names := by
  rw [names_perform]
  split
  · exact h
  · exact List.mem_append_left _ h

theorem names_subset_performAll (calls : List Call) (reg : Registry) (m : List Char)
    (h : m ∈ reg.names) : m ∈ (performAll calls reg).names := by
  induction calls generalizing reg with
  | nil => exact h
  | cons c t ih => exact ih (perform reg c) (names_subset_perform reg c m h)

/-- After a list of calls the registry holds every category they name. -/
theorem known_after_performAll (calls : List Call) (reg : Registry) :
    ∀ call ∈ calls, call.1 = lit "root" ∨ call.1 ∈ (performAll calls reg).names := by
  induction calls generalizing reg with
  | nil => intro call h; cases h
  | cons c t ih =>
    intro call hcall
    have h2 : performAll (c :: t) reg = performAll t (perform reg c) := rfl
    rw [h2]
    rcases List.mem_cons.mp hcall with rfl | hmem
    · by_cases hr : call.1 = lit "root"
      · exact Or.inl hr
      · refine Or.inr (names_subset_performAll t _ _ ?_)
        rw [names_perform]
        by_cases hk : call.1 = lit "root" ∨ call.1 ∈ reg.names
        · simp only [hk, if_true]
          rcases hk with hk | hk
          · exact absurd hk hr
          · exact hk
        · simp only [hk, if_false, List.mem_append, List.mem_singleton, or_true]
    · exact ih (perform reg c) call hmem

theorem priorityOf_perform (reg : Registry) (call : Call) (ref : CategoryRef) :
    (perform reg call).priorityOf ref
      = match call.2 with
        | Action.setPriority v => if categoryRef call.1 = ref then some v else reg.priorityOf ref
        | _ => reg.priorityOf ref := by
  obtain ⟨n, act⟩ := call
  cases act with
  | refer => simp only [perform, Action.apply, priorityOf_resolveCategory]
  | addAppender a =>
    simp only [perform, Action.apply, Registry.priorityOf_addAppender,
      priorityOf_resolveCategory]
  | setPriority v =>
    simp only [perform, Action.apply, resolveCategory_fst, Registry.priorityOf_setPriority,
      find?_resolveCategory_self, priorityOf_resolveCategory, and_true]
    by_cases h : ref = categoryRef n
    · simp only [h, if_true]
    · have h' : ¬ categoryRef n = ref := fun x => h x.symm
      simp only [h, h', if_false]

/-- The priority of a category after a list of calls: the last one a
`priority` command gave it, or the one it had. -/
theorem priorityOf_performAll (calls : List Call) (reg : Registry) (ref : CategoryRef) :
    (performAll calls reg).priorityOf ref
      = calls.foldl (fun p call =>
          match call.2 with
          | Action.setPriority v => if categoryRef call.1 = ref then some v else p
          | _ => p) (reg.priorityOf ref) := by
  induction calls generalizing reg with
  | nil => rfl
  | cons c t ih =>
    have h2 : performAll (c :: t) reg = performAll t (perform reg c) := rfl
    rw [h2, ih, priorityOf_perform, List.foldl_cons]

/-- The fold that gives the priority after a list of calls forgets its start
once a `priority` command has named the category. -/
theorem foldl_priority_idem (calls : List Call) (ref : CategoryRef) (p : Option Int) :
    calls.foldl (fun p call =>
        match call.2 with
        | Action.setPriority v => if categoryRef call.1 = ref then some v else p
        | _ => p)
      (calls.foldl (fun p call =>
        match call.2 with
        | Action.setPriority v => if categoryRef call.1 = ref then some v else p
        | _ => p) p)
    = calls.foldl (fun p call =>
        match call.2 with
        | Action.setPriority v => if categoryRef call.1 = ref then some v else p
        | _ => p) p := by
  suffices h : ∀ (q : Option Int),
      (calls.foldl (fun p call =>
        match call.2 with
        | Action.setPriority v => if categoryRef call.1 = ref then some v else p
        | _ => p) q
      = calls.foldl (fun p call =>
        match call.2 with
        | Action.setPriority v => if categoryRef call.1 = ref then some v else p
        | _ => p) p) ∨
      (calls.foldl (fun p call =>
        match call.2 with
        | Action.setPriority v => if categoryRef call.1 = ref then some v else p
        | _ => p) q = q ∧
       calls.foldl (fun p call =>
        match call.2 with
        | Action.setPriority v => if categoryRef call.1 = ref then some v else p
        | _ => p) p = p) by
    rcases h (calls.foldl (fun p call =>
        match call.2 with
        | Action.setPriority v => if categoryRef call.1 = ref then some v else p
        | _ => p) p) with h1 | ⟨h1, _⟩
    · exact h1
    · exact h1
  induction calls generalizing p with
  | nil => intro q; exact Or.inr ⟨rfl, rfl⟩
  | cons c t ih =>
    intro q
    simp only [List.foldl_cons]
    obtain ⟨n, act⟩ := c
    cases act with
    | refer =>
      simp only
      exact ih p q
    | addAppender a =>
      simp only
      exact ih p q
    | setPriority v =>
      simp only
      by_cases hc : categoryRef n = ref
      · simp only [hc, if_true]
        exact Or.inl trivial
      · simp only [hc, if_false]
        exact ih p q

/-- `configure` always ends: it has a result on every file name, environment
and registry. -/
theorem configure_isSome (env : Env) (initFileName : List Char) (reg : Registry) :
    (configure env initFileName reg).isSome = true := by
  unfold configure
  cases env.openFile (cstr initFileName) with
  | none => rfl
  | some content => exact runFrom_isSome env _ reg

/-! ## The end of the input -/

theorem tokenEnd_of_isBlank (tail : List Char) (h : isBlank tail = true) :
    tokenEnd tail = true := by
  cases tail with
  | nil => rfl
  | cons c t =>
    simp only [isBlank, List.all_cons, Bool.and_eq_true] at h
    exact h.1

theorem dropWhile_isBlank (w : List Char) (h : isBlank w = true) : w.dropWhile isspace = [] := by
  have := dropWhile_all_append isspace w [] h
  simpa using this

/-- The stream on which an extraction has met the end of the input. -/
theorem extractString_blank (tail : List Char) (h : isBlank tail = true) :
    extractString (after tail) = ({ rest := [], eofbit := true, failbit := true }, []) := by
  cases tail with
  | nil => rfl
  | cons c t =>
    have hd := dropWhile_isBlank (c :: t) h
    simp only [extractString, sentry, after, IStream.good, List.isEmpty_cons, Bool.not_false,
      Bool.and_self, Bool.not_true, Bool.false_eq_true, if_false, hd, List.isEmpty_nil, if_true]

theorem extractString_fresh_blank (w : List Char) (h : isBlank w = true) :
    extractString (fresh w) = ({ rest := [], eofbit := true, failbit := true }, []) := by
  have hd := dropWhile_isBlank w h
  simp only [extractString, sentry, fresh, IStream.good, Bool.not_false, Bool.and_self,
    Bool.not_true, Bool.false_eq_true, if_false, hd, List.isEmpty_nil, if_true]

/-- On a stream whose `failbit` is set an extraction changes nothing. -/
theorem extractString_failed (s : IStream) (h : s.failbit = true) :
    extractString s = (s, []) := by
  have hg : s.good = false := by simp [IStream.good, h]
  cases s with
  | mk rest e f =>
    simp only at h
    subst h
    simp only [extractString, sentry, hg, Bool.not_false, if_true]

/-- On a stream whose `failbit` is set the next pass ends `configure`
normally. -/
theorem step_failed (env : Env) (s : IStream) (reg : Registry) (h : s.failbit = true) :
    step env s reg = Step.done ⟨Outcome.success, reg, some s⟩ := by
  have := step_eof env s reg (by rw [extractString_failed s h]; exact h)
  rw [this, extractString_failed s h]

/-- When the loop has come to a state whose pass goes on to a state whose pass
ends `configure`, the result of that last pass is the result of `configure`. -/
theorem configure_of_reaches_next (env : Env) (initFileName content : List Char)
    (reg0 reg reg1 : Registry) (s s1 : IStream) (r : Result)
    (hopen : env.openFile (cstr initFileName) = some content)
    (hreach : Reaches env (fresh content) reg0 s reg)
    (hstep : step env s reg = Step.next s1 reg1) (hlast : step env s1 reg1 = Step.done r) :
    configure env initFileName reg0 = some r :=
  configure_of_reaches env initFileName content reg0 reg1 s1 r hopen
    (Reaches.pass hreach hstep) hlast

/-! ## Missing arguments -/

theorem buildAppender_file_missing (env : Env) (n : List Char) (s : IStream)
    (h : (extractString s).1.failbit = true) :
    buildAppender env n (lit "file") s
      = ((extractString s).1, Except.error (MissingArg.fileName.reason n)) := by
  simp only [buildAppender, h, if_true, MissingArg.reason]

theorem buildAppender_syslog_missing (env : Env) (n : List Char) (s : IStream)
    (hsys : env.haveSyslog = true) (h : (extractString s).1.failbit = true) :
    buildAppender env n (lit "syslog") s
      = ((extractString s).1, Except.error (MissingArg.syslogName.reason n)) := by
  have h1 : ¬ lit "syslog" = lit "file" := by decide
  have h2 : ¬ lit "syslog" = lit "console" := by decide
  have h3 : ¬ lit "syslog" = lit "stdout" := by decide
  have h4 : ¬ lit "syslog" = lit "stderr" := by decide
  simp only [buildAppender, h1, h2, h3, h4, hsys, h, if_false, if_true, and_self,
    MissingArg.reason]

theorem buildAppender_remote_missing_name (env : Env) (n : List Char) (s : IStream)
    (h : (extractString s).1.failbit = true) :
    buildAppender env n (lit "remotesyslog") s
      = ((extractString s).1, Except.error (MissingArg.remoteName.reason n)) := by
  have h1 : ¬ lit "remotesyslog" = lit "file" := by decide
  have h2 : ¬ lit "remotesyslog" = lit "console" := by decide
  have h3 : ¬ lit "remotesyslog" = lit "stdout" := by decide
  have h4 : ¬ lit "remotesyslog" = lit "stderr" := by decide
  have h5 : ¬ lit "remotesyslog" = lit "syslog" := by decide
  simp only [buildAppender, h1, h2, h3, h4, h5, h, if_false, if_true, and_false,
    MissingArg.reason]

theorem buildAppender_remote_missing_host (env : Env) (n id : List Char) (s s1 : IStream)
    (h : extractString s = (s1, id)) (hf : s1.failbit = false)
    (h2 : (extractString s1).1.failbit = true) :
    buildAppender env n (lit "remotesyslog") s
      = ((extractString s1).1, Except.error (MissingArg.remoteHost.reason n)) := by
  have h1 : ¬ lit "remotesyslog" = lit "file" := by decide
  have h2' : ¬ lit "remotesyslog" = lit "console" := by decide
  have h3 : ¬ lit "remotesyslog" = lit "stdout" := by decide
  have h4 : ¬ lit "remotesyslog" = lit "stderr" := by decide
  have h5 : ¬ lit "remotesyslog" = lit "syslog" := by decide
  simp only [buildAppender, h1, h2', h3, h4, h5, h, hf, h2, if_false, if_true, and_false,
    Bool.false_eq_true, MissingArg.reason]

/-- The pass at a command whose required argument is cut off by the end of the
input. -/
theorem step_missing (env : Env) (reg : Registry) (m : MissingArg)
    (w0 w1 n w2 l w3 w4 id tail : List Char)
    (hsys : m = MissingArg.syslogName → env.haveSyslog = true)
    (hw0 : isBlank w0 = true) (hw1 : isSep w1 = true) (hn : isToken n = true)
    (hw2 : isSep w2 = true) (hl : isToken l = true) (hw3 : isSep w3 = true)
    (hw4 : isSep w4 = true) (hid : isToken id = true) (htail : isBlank tail = true) :
    step env (fresh (w0 ++ m.text w1 n w2 l w3 w4 id tail)) reg
      = Step.done ⟨Outcome.failure (m.reason n), (resolveCategory n reg).2,
          some { rest := [], eofbit := true, failbit := true }⟩ := by
  have hte := tokenEnd_of_isBlank tail htail
  have hend := extractString_blank tail htail
  have hendf : (extractString (after tail)).1.failbit = true := by rw [hend]
  cases m with
  | fileName =>
    have e3 := extractString_after w2 l (w3 ++ (lit "file" ++ tail)) hw2 hl
      (tokenEnd_sep_append _ _ hw3)
    have e4 := extractString_after w3 (lit "file") tail hw3 (by decide) hte
    rw [MissingArg.text, step_text env reg w0 (lit "appender") w1 n _ hw0 (by decide)
      (by decide) hw1 hn (tokenEnd_sep_append _ _ hw2)]
    simp only [command, if_true]
    rw [appenderCommand_read env n _ _ _ _ _ e3 e4 rfl, buildAppender_file_missing env n _ hendf,
      hend]
  | syslogName =>
    have e3 := extractString_after w2 l (w3 ++ (lit "syslog" ++ tail)) hw2 hl
      (tokenEnd_sep_append _ _ hw3)
    have e4 := extractString_after w3 (lit "syslog") tail hw3 (by decide) hte
    rw [MissingArg.text, step_text env reg w0 (lit "appender") w1 n _ hw0 (by decide)
      (by decide) hw1 hn (tokenEnd_sep_append _ _ hw2)]
    simp only [command, if_true]
    rw [appenderCommand_read env n _ _ _ _ _ e3 e4 rfl,
      buildAppender_syslog_missing env n _ (hsys rfl) hendf, hend]
  | remoteName =>
    have e3 := extractString_after w2 l (w3 ++ (lit "remotesyslog" ++ tail)) hw2 hl
      (tokenEnd_sep_append _ _ hw3)
    have e4 := extractString_after w3 (lit "remotesyslog") tail hw3 (by decide) hte
    rw [MissingArg.text, step_text env reg w0 (lit "appender") w1 n _ hw0 (by decide)
      (by decide) hw1 hn (tokenEnd_sep_append _ _ hw2)]
    simp only [command, if_true]
    rw [appenderCommand_read env n _ _ _ _ _ e3 e4 rfl,
      buildAppender_remote_missing_name env n _ hendf, hend]
  | remoteHost =>
    have e3 := extractString_after w2 l (w3 ++ (lit "remotesyslog" ++ (w4 ++
      (id ++ tail)))) hw2 hl (tokenEnd_sep_append _ _ hw3)
    have e4 := extractString_after w3 (lit "remotesyslog") (w4 ++ (id ++ tail)) hw3
      (by decide) (tokenEnd_sep_append _ _ hw4)
    have e5 := extractString_after w4 id tail hw4 hid hte
    rw [MissingArg.text, step_text env reg w0 (lit "appender") w1 n _ hw0 (by decide)
      (by decide) hw1 hn (tokenEnd_sep_append _ _ hw2)]
    simp only [command, if_true]
    rw [appenderCommand_read env n _ _ _ _ _ e3 e4 rfl,
      buildAppender_remote_missing_host env n id _ _ e5 rfl hendf, hend]
  | priorityName =>
    have h1 : ¬ lit "priority" = lit "appender" := by decide
    rw [MissingArg.text, step_text env reg w0 (lit "priority") w1 n tail hw0 (by decide)
      (by decide) hw1 hn hte]
    simp only [command, h1, if_false, if_true, priorityCommand, hendf, hend, MissingArg.reason]

/-! ## Commands that only refer to their category -/

/-- The `appender` command when the layout kind cannot be read. -/
theorem appenderCommand_no_layout (env : Env) (n : List Char) (s : IStream)
    (h : (extractString s).1.failbit = true) :
    appenderCommand env n s = ((extractString s).1, Except.ok Action.refer) := by
  have h2 := extractString_failed _ h
  simp only [appenderCommand, h2, h, Bool.not_true, Bool.false_eq_true, if_false]

/-- The `appender` command when the appender kind cannot be read. -/
theorem appenderCommand_no_kind (env : Env) (n : List Char) (s : IStream)
    (h : (extractString (extractString s).1).1.failbit = true) :
    appenderCommand env n s
      = ((extractString (extractString s).1).1, Except.ok Action.refer) := by
  simp only [appenderCommand, h, Bool.not_true, Bool.false_eq_true, if_false]

/-- The pass at `appender n` when the input ends there. -/
theorem step_appender_cut (env : Env) (reg : Registry) (w0 w1 n tail : List Char)
    (hw0 : isBlank w0 = true) (hw1 : isSep w1 = true) (hn : isToken n = true)
    (htail : isBlank tail = true) :
    step env (fresh (w0 ++ (lit "appender" ++ (w1 ++ (n ++ tail))))) reg
      = Step.next { rest := [], eofbit := true, failbit := true } (resolveCategory n reg).2 := by
  have hend := extractString_blank tail htail
  rw [step_text env reg w0 (lit "appender") w1 n tail hw0 (by decide) (by decide) hw1 hn
    (tokenEnd_of_isBlank tail htail)]
  simp only [command, if_true]
  rw [appenderCommand_no_layout env n _ (by rw [hend]), hend]
  rfl

/-- The pass at `appender n l` when the input ends there. -/
theorem step_appender_cut_layout (env : Env) (reg : Registry) (w0 w1 n w2 l tail : List Char)
    (hw0 : isBlank w0 = true) (hw1 : isSep w1 = true) (hn : isToken n = true)
    (hw2 : isSep w2 = true) (hl : isToken l = true) (htail : isBlank tail = true) :
    step env (fresh (w0 ++ (lit "appender" ++ (w1 ++ (n ++ (w2 ++ (l ++ tail))))))) reg
      = Step.next { rest := [], eofbit := true, failbit := true } (resolveCategory n reg).2 := by
  have hend := extractString_blank tail htail
  have e3 := extractString_after w2 l tail hw2 hl (tokenEnd_of_isBlank tail htail)
  rw [step_text env reg w0 (lit "appender") w1 n _ hw0 (by decide) (by decide) hw1 hn
    (tokenEnd_sep_append _ _ hw2)]
  simp only [command, if_true]
  rw [appenderCommand_no_kind env n _ (by rw [e3, hend]), e3, hend]
  rfl

/-- The pass at a `category` command. -/
theorem step_category (env : Env) (reg : Registry) (w0 w1 n tail : List Char)
    (hw0 : isBlank w0 = true) (hw1 : isSep w1 = true) (hn : isToken n = true)
    (htail : tokenEnd tail = true) :
    step env (fresh (w0 ++ (lit "category" ++ (w1 ++ (n ++ tail))))) reg
      = Step.next (after tail) (resolveCategory n reg).2 := by
  have h1 : ¬ lit "category" = lit "appender" := by decide
  have h2 : ¬ lit "category" = lit "priority" := by decide
  rw [step_text env reg w0 (lit "category") w1 n tail hw0 (by decide) (by decide) hw1 hn htail]
  simp only [command, h1, h2, if_false, if_true]
  rfl

/-- Resolving a category that the registry holds, or the root category,
changes nothing. -/
theorem resolveCategory_of_known (n : List Char) (reg : Registry)
    (h : n = lit "root" ∨ n ∈ reg.names) : (resolveCategory n reg).2 = reg := by
  by_cases hr : n = lit "root"
  · rw [hr, resolveCategory_root]
  · have hm : n ∈ reg.names := by
      rcases h with h | h
      · exact absurd h hr
      · exact h
    simp only [resolveCategory, hr, if_false, Registry.getInstance, hm, if_true]

/-- The pass at a word that no category name follows. -/
theorem step_dangling (env : Env) (reg : Registry) (w0 c w1 : List Char)
    (hw0 : isBlank w0 = true) (hc : isToken c = true) (hc1 : c.head? ≠ some '#')
    (hw1 : isBlank w1 = true) :
    step env (fresh (w0 ++ (c ++ w1))) reg
      = Step.done ⟨Outcome.success, reg, some { rest := [], eofbit := true, failbit := true }⟩ := by
  have e1 := extractString_token w0 c w1 false hw0 hc (tokenEnd_of_isBlank w1 hw1) rfl
  have e2 := extractString_blank w1 hw1
  have hf : (after w1).failbit = false := rfl
  simp only [fresh, step, e1, e2, hf, if_true, if_false, hc1, Bool.false_eq_true]

/-! ## Unknown layout kinds -/

theorem buildLayout_invalid (n l : List Char) (s : IStream)
    (hl : l ∉ [lit "basic", lit "simple", lit "pattern"]) :
    buildLayout n l s
      = (s, Except.error (lit "Invalid layout (" ++ l
          ++ lit ") in logging configuration file for category: " ++ n)) := by
  simp only [List.mem_cons, List.mem_singleton, not_or, List.not_mem_nil, not_false_eq_true,
    and_true] at hl
  obtain ⟨h1, h2, h3⟩ := hl
  simp only [buildLayout, h1, h2, h3, if_false]

/-- The pass at an `appender` command whose appender is built and whose layout
kind is unknown. -/
theorem step_invalid_layout (env : Env) (reg : Registry)
    (w0 w1 n w2 l w3 k tail : List Char) (a : Appender)
    (hw0 : isBlank w0 = true) (hw1 : isSep w1 = true) (hn : isToken n = true)
    (hw2 : isSep w2 = true) (hl : isToken l = true) (hw3 : isSep w3 = true)
    (hk : isToken k = true) (htail : tokenEnd tail = true)
    (hbuilt : (buildAppender env n k (after tail)).2 = Except.ok a)
    (hkind : l ∉ [lit "basic", lit "simple", lit "pattern"]) :
    step env (fresh (w0 ++ (lit "appender" ++ (w1 ++ (n ++ (w2 ++ (l ++ (w3 ++ (k ++ tail))))))))) reg
      = Step.done ⟨Outcome.failure (lit "Invalid layout (" ++ l
          ++ lit ") in logging configuration file for category: " ++ n),
          (resolveCategory n reg).2, some (buildAppender env n k (after tail)).1⟩ := by
  have e3 := extractString_after w2 l (w3 ++ (k ++ tail)) hw2 hl (tokenEnd_sep_append _ _ hw3)
  have e4 := extractString_after w3 k tail hw3 hk htail
  rw [step_text env reg w0 (lit "appender") w1 n _ hw0 (by decide) (by decide) hw1 hn
    (tokenEnd_sep_append _ _ hw2)]
  simp only [command, if_true]
  rw [appenderCommand_read env n _ _ _ _ _ e3 e4 rfl, hbuilt]
  simp only [buildLayout_invalid n l _ hkind]

/-! ## The pattern text across line ends -/

/-- Reading a pattern text of at most 999 characters that a newline ends. -/
theorem getlineBuf_line (p rest : List Char) (h1 : oneLine p = true) (h3 : p.length ≤ 999) :
    getlineBuf 1000 (fresh (p ++ '\n' :: rest)) = (fresh rest, p) := by
  have hg : (fresh (p ++ '\n' :: rest)).good = true := rfl
  have htake : List.take (1000 - 1) p = p := List.take_of_length_le (by omega)
  have htw : (p ++ '\n' :: rest).takeWhile (fun c => c != '\n') = p := by
    rw [takeWhile_all_append _ _ _ h1]
    simp
  rw [getlineBuf, sentry_noskipws _ hg]
  simp only [fresh, htw, htake, List.drop_left, beq_self_eq_true, if_true]

theorem sentry_not_good (b : Bool) (s : IStream) (h : s.good = false) :
    sentry b s = ({ s with failbit := true }, false) := by
  simp only [sentry, h, Bool.not_false, if_true]

/-- After nothing but whitespace up to the end of the input, the stream that
`std::ws` leaves is not good. -/
theorem ws_blank_not_good (tail : List Char) (h : isBlank tail = true) :
    (ws (after tail)).good = false := by
  cases tail with
  | nil => rfl
  | cons c t =>
    have hg : (after (c :: t)).good = true := rfl
    rw [ws, sentry_noskipws _ hg]
    simp [after, dropWhile_isBlank _ h, IStream.good]

/-- The pattern layout when nothing but whitespace follows up to the end of
the input: the conversion pattern is empty. -/
theorem buildLayout_pattern_blank (n tail : List Char) (h : isBlank tail = true) :
    ∃ s1, buildLayout n (lit "pattern") (after tail) = (s1, Except.ok (Layout.pattern [])) := by
  refine ⟨{ ws (after tail) with failbit := true }, ?_⟩
  rw [buildLayout_pattern, getlineBuf, sentry_not_good _ _ (ws_blank_not_good tail h)]
  rfl

/-- The pattern layout when a text follows, on the same line or on a later
one: the conversion pattern is that text up to the end of its line. -/
theorem buildLayout_pattern_line (n w p rest : List Char) (hw : isSep w = true)
    (hp1 : oneLine p = true) (hp2 : startsNonBlank p = true) (hp3 : p.length ≤ 999)
    (hp4 : nulFree p = true) :
    buildLayout n (lit "pattern") (after (w ++ (p ++ '\n' :: rest)))
      = (fresh rest, Except.ok (Layout.pattern p)) := by
  rw [buildLayout_pattern, ws_after_gap w p _ hw hp2, getlineBuf_line p rest hp1 hp3,
    cstr_nulFree p hp4]

/-- The pass at an `appender` command with layout kind `pattern` whose
appender is built from the text in front of `tail`. -/
theorem step_pattern (env : Env) (reg : Registry)
    (w0 w1 n w2 w3 k t1 tail : List Char) (a : Appender) (s1 : IStream) (p : List Char)
    (hw0 : isBlank w0 = true) (hw1 : isSep w1 = true) (hn : isToken n = true)
    (hw2 : isSep w2 = true) (hw3 : isSep w3 = true) (hk : isToken k = true)
    (ht1 : tokenEnd t1 = true)
    (hbuilt : buildAppender env n k (after t1) = (after tail, Except.ok a))
    (hlay : buildLayout n (lit "pattern") (after tail) = (s1, Except.ok (Layout.pattern p))) :
    step env (fresh (w0 ++ (lit "appender" ++ (w1 ++ (n ++ (w2 ++ (lit "pattern" ++ (w3 ++
        (k ++ t1))))))))) reg
      = Step.next s1 ((resolveCategory n reg).2.addAppender (categoryRef n)
          (a.setLayout (Layout.pattern p))) := by
  have e3 := extractString_after w2 (lit "pattern") (w3 ++ (k ++ t1)) hw2 (by decide)
    (tokenEnd_sep_append _ _ hw3)
  have e4 := extractString_after w3 k t1 hw3 hk ht1
  rw [step_text env reg w0 (lit "appender") w1 n _ hw0 (by decide) (by decide) hw1 hn
    (tokenEnd_sep_append _ _ hw2)]
  simp only [command, if_true]
  rw [appenderCommand_read env n _ _ _ _ _ e3 e4 rfl, hbuilt]
  simp only [hlay, Action.apply, resolveCategory_fst]

/-! ## Comment lines -/

/-- Inside a line, dropping the characters of a token leaves the rest of the
line and everything after it. -/
theorem dropWhile_nonspace_line (t rest : List Char) (ht : oneLine t = true) :
    ∃ u, (t ++ '\n' :: rest).dropWhile (fun c => !isspace c) = u ++ '\n' :: rest ∧
      oneLine u = true := by
  induction t with
  | nil => exact ⟨[], by simp [List.dropWhile_cons, isspace], rfl⟩
  | cons c v ih =>
    have hc : oneLine v = true := by
      simp only [oneLine, List.all_cons, Bool.and_eq_true] at ht ⊢
      exact ht.2
    by_cases hs : isspace c = true
    · exact ⟨c :: v, by simp [List.dropWhile_cons, hs], ht⟩
    · obtain ⟨u, hu, hone⟩ := ih hc
      refine ⟨u, ?_, hone⟩
      simp only [List.cons_append, List.dropWhile_cons, hs, Bool.not_false, if_true,
        Bool.not_eq_true] at hu ⊢
      simpa [hs] using hu

theorem dropWhile_line (u rest : List Char) (hu : oneLine u = true) :
    (u ++ '\n' :: rest).dropWhile (fun c => c != '\n') = '\n' :: rest := by
  rw [dropWhile_all_append _ _ _ hu]
  simp [List.dropWhile_cons]

/-- The pass at a comment line: the line is dropped, the stream is at the
beginning of the next line, in good state, and the registry is untouched. -/
theorem step_comment (env : Env) (reg : Registry) (t rest : List Char)
    (ht : oneLine t = true) :
    step env (fresh ('#' :: (t ++ '\n' :: rest))) reg = Step.next (fresh rest) reg := by
  obtain ⟨u, hu, hone⟩ := dropWhile_nonspace_line t rest ht
  have hh : isspace '#' = false := by decide
  have hs : sentry false (fresh ('#' :: (t ++ '\n' :: rest)))
      = (fresh ('#' :: (t ++ '\n' :: rest)), true) := by
    simp [sentry, IStream.good, fresh, List.dropWhile_cons, hh]
  have he : extractString (fresh ('#' :: (t ++ '\n' :: rest)))
      = (fresh (u ++ '\n' :: rest),
          '#' :: (t ++ '\n' :: rest).takeWhile (fun c => !isspace c)) := by
    rw [extractString, hs]
    simp only [fresh, List.takeWhile_cons, List.dropWhile_cons, hh, Bool.not_false, if_true,
      hu, Bool.false_or, List.isEmpty_cons, Prod.mk.injEq, IStream.mk.injEq, and_true, true_and]
    cases u <;> rfl
  have hg : (fresh (u ++ '\n' :: rest)).good = true := rfl
  have hl : (getlineString (fresh (u ++ '\n' :: rest))).1 = fresh rest := by
    rw [getlineString, sentry_noskipws _ hg]
    simp only [fresh, dropWhile_line u rest hone]
  have hf : (fresh (u ++ '\n' :: rest)).failbit = false := rfl
  simp only [step, he, hf, hl, List.head?_cons, if_true, if_false, Bool.false_eq_true]

/-! ## Whitespace is read as one separator -/

theorem squash_true_eq (t : List Char) : squash true t = squash false (t.dropWhile isspace) := by
  induction t with
  | nil => rfl
  | cons c u ih =>
    by_cases hc : isspace c = true
    · simp only [squash, hc, if_true, List.dropWhile_cons, ih]
    · simp only [squash, hc, if_false, List.dropWhile_cons, Bool.false_eq_true]

theorem squash_false_cons_space (c : Char) (t : List Char) (hc : isspace c = true) :
    squash false (c :: t) = ' ' :: squash false ((c :: t).dropWhile isspace) := by
  simp only [squash, hc, if_true, Bool.false_eq_true, if_false, List.dropWhile_cons,
    squash_true_eq]

theorem squash_false_cons_char (c : Char) (t : List Char) (hc : isspace c = false) :
    squash false (c :: t) = c :: squash false t := by
  simp only [squash, hc, Bool.false_eq_true, if_false]

theorem squash_eq_nil (b : Bool) (a : List Char) (h : squash b a = []) (hb : b = false) :
    a = [] := by
  subst hb
  cases a with
  | nil => rfl
  | cons c t =>
    by_cases hc : isspace c = true
    · rw [squash_false_cons_space c t hc] at h; cases h
    · rw [squash_false_cons_char c t (by simpa using hc)] at h; cases h

/-- Texts that differ in their whitespace only are empty together. -/
theorem isEmpty_eq_of_squash (a b : List Char) (h : squash false a = squash false b) :
    a.isEmpty = b.isEmpty := by
  cases a with
  | nil =>
    have : b = [] := squash_eq_nil false b h.symm rfl
    rw [this]
  | cons c t =>
    cases b with
    | nil =>
      have := squash_eq_nil false (c :: t) h rfl
      cases this
    | cons d u => rfl

/-- Texts that differ in their whitespace only begin with whitespace
together, and with the same character otherwise. -/
theorem head_of_squash (c d : Char) (t u : List Char)
    (h : squash false (c :: t) = squash false (d :: u)) :
    (isspace c = true ∧ isspace d = true) ∨
    (isspace c = false ∧ c = d ∧ squash false t = squash false u) := by
  have hsp : isspace ' ' = true := by decide
  by_cases hc : isspace c = true
  · by_cases hd : isspace d = true
    · exact Or.inl ⟨hc, hd⟩
    · rw [squash_false_cons_space c t hc, squash_false_cons_char d u (by simpa using hd)] at h
      simp only [List.cons.injEq] at h
      rw [← h.1] at hd
      exact absurd hsp hd
  · have hc' : isspace c = false := by simpa using hc
    by_cases hd : isspace d = true
    · rw [squash_false_cons_char c t hc', squash_false_cons_space d u hd] at h
      simp only [List.cons.injEq] at h
      rw [h.1] at hc
      exact absurd hsp hc
    · rw [squash_false_cons_char c t hc', squash_false_cons_char d u (by simpa using hd)] at h
      simp only [List.cons.injEq] at h
      exact Or.inr ⟨hc', h.1, h.2⟩

/-- Skipping leading whitespace keeps two texts alike. -/
theorem squash_dropWhile_isspace (a b : List Char) (h : squash false a = squash false b) :
    squash false (a.dropWhile isspace) = squash false (b.dropWhile isspace) := by
  cases a with
  | nil =>
    have : b = [] := squash_eq_nil false b h.symm rfl
    rw [this]
  | cons c t =>
    cases b with
    | nil =>
      have := squash_eq_nil false (c :: t) h rfl
      cases this
    | cons d u =>
      rcases head_of_squash c d t u h with ⟨hc, hd⟩ | ⟨hc, hcd, _⟩
      · rw [squash_false_cons_space c t hc, squash_false_cons_space d u hd] at h
        simp only [List.cons.injEq, true_and] at h
        exact h
      · have hd : isspace d = false := hcd ▸ hc
        simp only [List.dropWhile_cons, hc, hd, Bool.false_eq_true, if_false]
        exact h

/-- Reading the characters that satisfy `p`, none of them whitespace, gives
the same characters and leaves two texts alike. -/
theorem squash_span (p : Char → Bool) (hp : ∀ c, p c = true → isspace c = false)
    (a b : List Char) (h : squash false a = squash false b) :
    a.takeWhile p = b.takeWhile p ∧
      squash false (a.dropWhile p) = squash false (b.dropWhile p) := by
  induction a generalizing b with
  | nil =>
    have : b = [] := squash_eq_nil false b h.symm rfl
    rw [this]
    exact ⟨rfl, rfl⟩
  | cons c t ih =>
    cases b with
    | nil =>
      have := squash_eq_nil false (c :: t) h rfl
      cases this
    | cons d u =>
      rcases head_of_squash c d t u h with ⟨hc, hd⟩ | ⟨hc, hcd, htu⟩
      · have pc : p c = false := by
          cases hpc : p c
          · rfl
          · rw [hp c hpc] at hc; cases hc
        have pd : p d = false := by
          cases hpd : p d
          · rfl
          · rw [hp d hpd] at hd; cases hd
        simp only [List.takeWhile_cons, List.dropWhile_cons, pc, pd, Bool.false_eq_true,
          if_false, true_and]
        exact h
      · subst hcd
        by_cases pc : p c = true
        · obtain ⟨h1, h2⟩ := ih u htu
          simp only [List.takeWhile_cons, List.dropWhile_cons, pc, if_true, h1, true_and]
          exact h2
        · simp only [List.takeWhile_cons, List.dropWhile_cons, pc, Bool.false_eq_true,
            if_false, true_and]
          exact h

theorem isspace_of_isdigit (c : Char) (h : isdigit c = true) : isspace c = false := by
  simp only [isdigit, Bool.and_eq_true, decide_eq_true_eq] at h
  simp only [isspace, Bool.or_eq_false_iff, beq_eq_false_iff_ne, ne_eq]
  refine ⟨⟨⟨⟨⟨?_, ?_⟩, ?_⟩, ?_⟩, ?_⟩, ?_⟩ <;>
  · intro hc
    rw [hc] at h
    revert h
    decide

/-! ## Extractions on streams that differ in their whitespace only -/

theorem Sim.good_eq {s1 s2 : IStream} (h : Sim s1 s2) : s1.good = s2.good := by
  simp only [IStream.good, h.1, h.2.1]

theorem Sim.refl (s : IStream) : Sim s s := ⟨rfl, rfl, rfl⟩

/-- The sentry of a formatted extraction succeeds on both streams or on
neither, and leaves them alike. -/
theorem sentry_sim (s1 s2 : IStream) (h : Sim s1 s2) :
    (sentry false s1).2 = (sentry false s2).2 ∧ Sim (sentry false s1).1 (sentry false s2).1 := by
  have hg := h.good_eq
  have hd := squash_dropWhile_isspace _ _ h.2.2
  have he := isEmpty_eq_of_squash _ _ hd
  cases hg1 : s1.good
  · rw [hg1] at hg
    rw [sentry_not_good _ _ hg1, sentry_not_good _ _ hg.symm]
    exact ⟨rfl, h.1, rfl, h.2.2⟩
  · rw [hg1] at hg
    cases hemp : (s1.rest.dropWhile isspace).isEmpty
    · have hemp2 : (s2.rest.dropWhile isspace).isEmpty = false := by rw [← he, hemp]
      simp only [sentry, hg1, ← hg, hemp, hemp2, Bool.not_true, Bool.false_eq_true, if_false]
      exact ⟨trivial, h.1, h.2.1, hd⟩
    · have hemp2 : (s2.rest.dropWhile isspace).isEmpty = true := by rw [← he, hemp]
      simp only [sentry, hg1, ← hg, hemp, hemp2, Bool.not_true, Bool.false_eq_true, if_false,
        if_true]
      exact ⟨trivial, rfl, rfl, rfl⟩

/-- The extraction of a string reads the same token from both streams and
leaves them alike. -/
theorem extractString_sim (s1 s2 : IStream) (h : Sim s1 s2) :
    (extractString s1).2 = (extractString s2).2 ∧
      Sim (extractString s1).1 (extractString s2).1 := by
  obtain ⟨hok, hsim⟩ := sentry_sim s1 s2 h
  unfold extractString
  cases h1 : sentry false s1 with
  | mk t1 ok1 =>
    cases h2 : sentry false s2 with
    | mk t2 ok2 =>
      rw [h1, h2] at hok hsim
      simp only at hok hsim
      subst hok
      cases ok1 with
      | false => exact ⟨rfl, hsim⟩
      | true =>
        obtain ⟨htok, hrest⟩ := squash_span (fun c => !isspace c)
          (fun c hc => by simpa using hc) t1.rest t2.rest hsim.2.2
        have he := isEmpty_eq_of_squash _ _ hrest
        simp only
        refine ⟨htok, ?_, ?_, hrest⟩
        · simp only [hsim.1, he]
        · simp only [hsim.2.1, htok]

/-- The extraction of an `int` reads the same value from both streams and
leaves them alike. -/
theorem extractInt_sim (s1 s2 : IStream) (h : Sim s1 s2) :
    (extractInt s1).2 = (extractInt s2).2 ∧ Sim (extractInt s1).1 (extractInt s2).1 := by
  obtain ⟨hok, hsim⟩ := sentry_sim s1 s2 h
  unfold extractInt
  cases h1 : sentry false s1 with
  | mk t1 ok1 =>
    cases h2 : sentry false s2 with
    | mk t2 ok2 =>
      rw [h1, h2] at hok hsim
      simp only at hok hsim
      subst hok
      cases ok1 with
      | false => exact ⟨rfl, hsim⟩
      | true =>
        have hsigned :
            (match t1.rest with
              | c :: t => if c == '-' then (true, t) else if c == '+' then (false, t)
                else (false, c :: t)
              | [] => (false, [])).1
            = (match t2.rest with
              | c :: t => if c == '-' then (true, t) else if c == '+' then (false, t)
                else (false, c :: t)
              | [] => (false, [])).1 ∧
            squash false (match t1.rest with
              | c :: t => if c == '-' then (true, t) else if c == '+' then (false, t)
                else (false, c :: t)
              | [] => (false, [])).2
            = squash false (match t2.rest with
              | c :: t => if c == '-' then (true, t) else if c == '+' then (false, t)
                else (false, c :: t)
              | [] => (false, [])).2 := by
          have hs := hsim.2.2
          cases hr1 : t1.rest with
          | nil =>
            rw [hr1] at hs
            have : t2.rest = [] := squash_eq_nil false _ hs.symm rfl
            rw [this]
            exact ⟨rfl, rfl⟩
          | cons c t =>
            rw [hr1] at hs
            cases hr2 : t2.rest with
            | nil =>
              rw [hr2] at hs
              have := squash_eq_nil false (c :: t) hs rfl
              cases this
            | cons d u =>
              rw [hr2] at hs
              rcases head_of_squash c d t u hs with ⟨hc, hd⟩ | ⟨hc, hcd, htu⟩
              · have c1 : (c == '-') = false := by
                  cases hx : c == '-'
                  · rfl
                  · rw [beq_iff_eq] at hx; rw [hx] at hc; revert hc; decide
                have c2 : (c == '+') = false := by
                  cases hx : c == '+'
                  · rfl
                  · rw [beq_iff_eq] at hx; rw [hx] at hc; revert hc; decide
                have d1 : (d == '-') = false := by
                  cases hx : d == '-'
                  · rfl
                  · rw [beq_iff_eq] at hx; rw [hx] at hd; revert hd; decide
                have d2 : (d == '+') = false := by
                  cases hx : d == '+'
                  · rfl
                  · rw [beq_iff_eq] at hx; rw [hx] at hd; revert hd; decide
                simp only [c1, c2, d1, d2, Bool.false_eq_true, if_false, true_and]
                exact hs
              · subst hcd
                by_cases c1 : (c == '-') = true
                · simp only [c1, if_true, true_and]
                  exact htu
                · have c1' : (c == '-') = false := by simpa using c1
                  by_cases c2 : (c == '+') = true
                  · simp only [c1', c2, if_true, if_false, Bool.false_eq_true, true_and]
                    exact htu
                  · have c2' : (c == '+') = false := by simpa using c2
                    simp only [c1', c2', if_false, Bool.false_eq_true, true_and]
                    exact hs
        obtain ⟨hsign, hsq⟩ := hsigned
        obtain ⟨hds, hrest⟩ := squash_span isdigit isspace_of_isdigit _ _ hsq
        have he := isEmpty_eq_of_squash _ _ hrest
        simp only
        rw [hsign, hds]
        refine ⟨rfl, ?_, ?_, hrest⟩
        · simp only [hsim.1, he]
        · simp only [hsim.2.1]

/-- The construction of an appender gives the same appender, or fails for the
same reason, on both streams, and leaves them alike. -/
theorem buildAppender_sim (env : Env) (n k : List Char) (s1 s2 : IStream) (h : Sim s1 s2) :
    (buildAppender env n k s1).2 = (buildAppender env n k s2).2 ∧
      Sim (buildAppender env n k s1).1 (buildAppender env n k s2).1 := by
  obtain ⟨ta, sa⟩ := extractString_sim s1 s2 h
  obtain ⟨tb, sb⟩ := extractString_sim _ _ sa
  obtain ⟨va, ia⟩ := extractInt_sim _ _ sa
  obtain ⟨vb, ib⟩ := extractInt_sim _ _ sb
  obtain ⟨vc, ic⟩ := extractInt_sim _ _ ib
  have fa := sa.2.1
  have fb := sb.2.1
  have fia := ia.2.1
  have fib := ib.2.1
  have fic := ic.2.1
  unfold buildAppender
  simp only
  by_cases c1 : k = lit "file"
  · rw [if_pos c1, if_pos c1, fa, ta]
    by_cases d : (extractString s2).1.failbit = true
    · rw [if_pos d, if_pos d]; exact ⟨rfl, sa⟩
    · rw [if_neg d, if_neg d]; exact ⟨rfl, sa⟩
  rw [if_neg c1, if_neg c1]
  by_cases c2 : k = lit "console"
  · rw [if_pos c2, if_pos c2]; exact ⟨rfl, h⟩
  rw [if_neg c2, if_neg c2]
  by_cases c3 : k = lit "stdout"
  · rw [if_pos c3, if_pos c3]; exact ⟨rfl, h⟩
  rw [if_neg c3, if_neg c3]
  by_cases c4 : k = lit "stderr"
  · rw [if_pos c4, if_pos c4]; exact ⟨rfl, h⟩
  rw [if_neg c4, if_neg c4]
  by_cases c5 : env.haveSyslog = true ∧ k = lit "syslog"
  · rw [if_pos c5, if_pos c5, fa, ta, fia, va]
    by_cases d : (extractString s2).1.failbit = true
    · rw [if_pos d, if_pos d]; exact ⟨rfl, sa⟩
    · rw [if_neg d, if_neg d]; exact ⟨rfl, ia⟩
  rw [if_neg c5, if_neg c5]
  by_cases c6 : k = lit "remotesyslog"
  · rw [if_pos c6, if_pos c6, fa, ta, fb, tb, fib, vb, fic, vc]
    by_cases d : (extractString s2).1.failbit = true
    · rw [if_pos d, if_pos d]; exact ⟨rfl, sa⟩
    · rw [if_neg d, if_neg d]
      by_cases d2 : (extractString (extractString s2).1).1.failbit = true
      · rw [if_pos d2, if_pos d2]; exact ⟨rfl, sb⟩
      · rw [if_neg d2, if_neg d2]; exact ⟨rfl, ic⟩
  · rw [if_neg c6, if_neg c6]; exact ⟨rfl, h⟩

/-- A layout kind other than `pattern` reads nothing from the stream. -/
theorem buildLayout_not_pattern (n l : List Char) (s : IStream) (hl : l ≠ lit "pattern") :
    (buildLayout n l s).1 = s := by
  unfold buildLayout
  by_cases c1 : l = lit "basic"
  · rw [if_pos c1]
  rw [if_neg c1]
  by_cases c2 : l = lit "simple"
  · rw [if_pos c2]
  rw [if_neg c2, if_neg hl]

theorem buildLayout_not_pattern_snd (n l : List Char) (s1 s2 : IStream)
    (hl : l ≠ lit "pattern") : (buildLayout n l s1).2 = (buildLayout n l s2).2 := by
  unfold buildLayout
  by_cases c1 : l = lit "basic"
  · rw [if_pos c1, if_pos c1]
  rw [if_neg c1, if_neg c1]
  by_cases c2 : l = lit "simple"
  · rw [if_pos c2, if_pos c2]
  rw [if_neg c2, if_neg c2, if_neg hl, if_neg hl]

/-- The `appender` command, when its layout kind is not read or is not
`pattern`, asks for the same call on both streams and leaves them alike. -/
theorem appenderCommand_sim (env : Env) (n : List Char) (s1 s2 : IStream) (h : Sim s1 s2)
    (hpat : (extractString s1).1.failbit = true ∨ (extractString s1).2 ≠ lit "pattern") :
    (appenderCommand env n s1).2 = (appenderCommand env n s2).2 ∧
      Sim (appenderCommand env n s1).1 (appenderCommand env n s2).1 := by
  obtain ⟨ta, sa⟩ := extractString_sim s1 s2 h
  obtain ⟨tb, sb⟩ := extractString_sim _ _ sa
  obtain ⟨bb, bs⟩ := buildAppender_sim env n (extractString (extractString s2).1).2 _ _ sb
  have fb := sb.2.1
  unfold appenderCommand
  simp only
  rw [fb, tb, ta]
  by_cases d : (extractString (extractString s2).1).1.failbit = true
  · have dn : ¬ (!(extractString (extractString s2).1).1.failbit) = true := by simp [d]
    rw [if_neg dn, if_neg dn]
    exact ⟨rfl, sb⟩
  · have dp : (!(extractString (extractString s2).1).1.failbit) = true := by simpa using d
    have hl : (extractString s2).2 ≠ lit "pattern" := by
      rcases hpat with hf | hne
      · have h2 := extractString_failed _ hf
        have h3 : (extractString (extractString s1).1).1.failbit = true := by rw [h2]; exact hf
        rw [fb] at h3
        exact absurd h3 d
      · rw [← ta]; exact hne
    rw [if_pos dp, if_pos dp, bb]
    cases hb : (buildAppender env n (extractString (extractString s2).1).2
      (extractString (extractString s2).1).1).2 with
    | error reason => exact ⟨rfl, bs⟩
    | ok a =>
      simp only
      rw [buildLayout_not_pattern _ _ _ hl, buildLayout_not_pattern _ _ _ hl,
        buildLayout_not_pattern_snd n _ (buildAppender env n (extractString (extractString s2).1).2
          (extractString (extractString s1).1).1).1 (buildAppender env n
          (extractString (extractString s2).1).2 (extractString (extractString s2).1).1).1 hl]
      cases (buildLayout n (extractString s2).2 (buildAppender env n
        (extractString (extractString s2).1).2 (extractString (extractString s2).1).1).1).2 with
      | error reason => exact ⟨rfl, bs⟩
      | ok lay => exact ⟨rfl, bs⟩

/-- The `priority` command asks for the same call on both streams and leaves
them alike. -/
theorem priorityCommand_sim (env : Env) (n : List Char) (s1 s2 : IStream) (h : Sim s1 s2) :
    (priorityCommand env n s1).2 = (priorityCommand env n s2).2 ∧
      Sim (priorityCommand env n s1).1 (priorityCommand env n s2).1 := by
  obtain ⟨ta, sa⟩ := extractString_sim s1 s2 h
  have fa := sa.2.1
  unfold priorityCommand
  simp only
  rw [fa, ta]
  by_cases d : (extractString s2).1.failbit = true
  · rw [if_pos d, if_pos d]; exact ⟨rfl, sa⟩
  · rw [if_neg d, if_neg d]
    cases env.getPriorityValue (extractString s2).2 with
    | none => exact ⟨rfl, sa⟩
    | some v => exact ⟨rfl, sa⟩

/-- A command that is no `appender` command with layout kind `pattern` asks
for the same call on both streams and leaves them alike. -/
theorem command_sim (env : Env) (c n : List Char) (s1 s2 : IStream) (h : Sim s1 s2)
    (hpat : c = lit "appender" →
      (extractString s1).1.failbit = true ∨ (extractString s1).2 ≠ lit "pattern") :
    (command env c n s1).2 = (command env c n s2).2 ∧
      Sim (command env c n s1).1 (command env c n s2).1 := by
  unfold command
  by_cases c1 : c = lit "appender"
  · rw [if_pos c1, if_pos c1]; exact appenderCommand_sim env n s1 s2 h (hpat c1)
  rw [if_neg c1, if_neg c1]
  by_cases c2 : c = lit "priority"
  · rw [if_pos c2, if_pos c2]; exact priorityCommand_sim env n s1 s2 h
  rw [if_neg c2, if_neg c2]
  by_cases c3 : c = lit "category"
  · rw [if_pos c3, if_pos c3]; exact ⟨rfl, h⟩
  · rw [if_neg c3, if_neg c3]; exact ⟨rfl, h⟩

/-! ## What is left to read is an end of what was there -/

theorem sentry_rest_suffix (b : Bool) (s : IStream) : (sentry b s).1.rest <:+ s.rest := by
  unfold sentry
  dsimp only
  split
  · exact List.suffix_refl _
  · split
    · exact List.suffix_refl _
    · split
      · exact List.nil_suffix
      · exact List.dropWhile_suffix _

theorem extractString_rest_suffix (s : IStream) : (extractString s).1.rest <:+ s.rest := by
  unfold extractString
  have h := sentry_rest_suffix false s
  split
  · next s1 hs =>
    rw [hs] at h
    exact (List.dropWhile_suffix _).trans h
  · next s1 hs => rw [hs] at h; exact h

theorem extractInt_rest_suffix (s : IStream) : (extractInt s).1.rest <:+ s.rest := by
  unfold extractInt
  have h := sentry_rest_suffix false s
  split
  · next s1 hs =>
    rw [hs] at h
    simp only at h ⊢
    refine (List.dropWhile_suffix _).trans (List.IsSuffix.trans ?_ h)
    split
    · next heq =>
      rw [heq]
      split
      · exact List.suffix_cons _ _
      · split
        · exact List.suffix_cons _ _
        · exact List.suffix_refl _
    · exact List.nil_suffix
  · next s1 hs => rw [hs] at h; exact h

theorem getlineString_rest_suffix (s : IStream) : (getlineString s).1.rest <:+ s.rest := by
  unfold getlineString
  have h := sentry_rest_suffix true s
  split
  · next s1 hs =>
    rw [hs] at h
    simp only at h ⊢
    have h2 := List.dropWhile_suffix (l := s1.rest) (fun c => c != '\n')
    split
    · exact List.nil_suffix
    · next heq =>
      rw [heq] at h2
      exact ((List.suffix_cons _ _).trans h2).trans h
  · next s1 hs => rw [hs] at h; exact h

theorem ws_rest_suffix (s : IStream) : (ws s).rest <:+ s.rest := by
  unfold ws
  have h := sentry_rest_suffix true s
  split
  · next s1 hs =>
    rw [hs] at h
    exact (List.dropWhile_suffix _).trans h
  · next s1 hs => rw [hs] at h; exact h

theorem getlineBuf_rest_suffix (n : Nat) (s : IStream) :
    (getlineBuf n s).1.rest <:+ s.rest := by
  unfold getlineBuf
  have h := sentry_rest_suffix true s
  split
  · next s1 hs =>
    rw [hs] at h
    simp only at h ⊢
    have h2 := List.drop_suffix
      ((s1.rest.takeWhile (fun c => c != '\n')).take (n - 1)).length s1.rest
    split
    · exact List.nil_suffix
    · next heq =>
      rw [heq] at h2
      split
      · exact ((List.suffix_cons _ _).trans h2).trans h
      · exact h2.trans h
  · next s1 hs => rw [hs] at h; exact h

theorem ite_rest_suffix {β : Type} (l : List Char) (c : Prop) [Decidable c] (a b : IStream × β)
    (ha : a.1.rest <:+ l) (hb : b.1.rest <:+ l) : (if c then a else b).1.rest <:+ l := by
  split <;> assumption

theorem buildAppender_rest_suffix (env : Env) (n k : List Char) (s : IStream) :
    (buildAppender env n k s).1.rest <:+ s.rest := by
  have h1 := extractString_rest_suffix s
  have h2 := (extractString_rest_suffix (extractString s).1).trans h1
  have h3 := (extractInt_rest_suffix (extractString s).1).trans h1
  have h4 := (extractInt_rest_suffix (extractString (extractString s).1).1).trans h2
  have h5 := (extractInt_rest_suffix
    (extractInt (extractString (extractString s).1).1).1).trans h4
  have h0 := List.suffix_refl s.rest
  unfold buildAppender
  simp only
  repeat' apply ite_rest_suffix
  all_goals simp only
  all_goals assumption

theorem buildLayout_rest_suffix (n l : List Char) (s : IStream) :
    (buildLayout n l s).1.rest <:+ s.rest := by
  have h1 := ws_rest_suffix s
  have h2 := (getlineBuf_rest_suffix 1000 (ws s)).trans h1
  have h0 := List.suffix_refl s.rest
  unfold buildLayout
  simp only
  repeat' apply ite_rest_suffix
  all_goals simp only
  all_goals assumption

theorem appenderCommand_rest_suffix (env : Env) (n : List Char) (s : IStream) :
    (appenderCommand env n s).1.rest <:+ s.rest := by
  have h1 := extractString_rest_suffix s
  have h2 := (extractString_rest_suffix (extractString s).1).trans h1
  have h3 := (buildAppender_rest_suffix env n (extractString (extractString s).1).2
    (extractString (extractString s).1).1).trans h2
  have h4 := (buildLayout_rest_suffix n (extractString s).2
    (buildAppender env n (extractString (extractString s).1).2
      (extractString (extractString s).1).1).1).trans h3
  unfold appenderCommand
  simp only
  apply ite_rest_suffix
  · split
    · exact h3
    · split <;> exact h4
  · exact h2

theorem priorityCommand_rest_suffix (env : Env) (n : List Char) (s : IStream) :
    (priorityCommand env n s).1.rest <:+ s.rest := by
  have h1 := extractString_rest_suffix s
  unfold priorityCommand
  simp only
  apply ite_rest_suffix
  · exact h1
  · split <;> exact h1

theorem command_rest_suffix (env : Env) (c n : List Char) (s : IStream) :
    (command env c n s).1.rest <:+ s.rest := by
  unfold command
  refine ite_rest_suffix _ _ _ _ ?_ (ite_rest_suffix _ _ _ _ ?_ (ite_rest_suffix _ _ _ _ ?_ ?_))
  · exact appenderCommand_rest_suffix env n s
  · exact priorityCommand_rest_suffix env n s
  · exact List.suffix_refl _
  · exact List.suffix_refl _

/-- A pass that goes on leaves an end of the text it started on. -/
theorem pass_go_suffix (env : Env) (s s1 : IStream) (call : Option Call)
    (h : pass env s = Pass.go s1 call) : s1.rest <:+ s.rest := by
  have e1 := extractString_rest_suffix s
  have e2 := (extractString_rest_suffix (extractString s).1).trans e1
  have g1 := (getlineString_rest_suffix (extractString s).1).trans e1
  have c1 := (command_rest_suffix env (extractString s).2 (extractString (extractString s).1).2
    (extractString (extractString s).1).1).trans e2
  unfold pass at h
  simp only at h
  by_cases f1 : (extractString s).1.failbit = true
  · rw [if_pos f1] at h; cases h
  rw [if_neg f1] at h
  by_cases f2 : (extractString s).2.head? = some '#'
  · rw [if_pos f2] at h; cases h; exact g1
  rw [if_neg f2] at h
  by_cases f3 : (extractString (extractString s).1).1.failbit = true
  · rw [if_pos f3] at h; cases h
  rw [if_neg f3] at h
  split at h
  · cases h
  · cases h; exact c1

/-- A pass that goes on has consumed input. -/
theorem pass_go_lt (env : Env) (s s1 : IStream) (call : Option Call)
    (h : pass env s = Pass.go s1 call) : s1.rest.length < s.rest.length := by
  have hs : step env s rootOnly = Step.next s1 (performAll call.toList rootOnly) := by
    rw [step_eq_pass, h]; rfl
  exact step_next_lt env s s1 _ _ hs

/-- The characters of the token read are characters of the text. -/
theorem extractString_token_subset (s : IStream) : (extractString s).2 ⊆ s.rest := by
  unfold extractString
  have h := sentry_rest_suffix false s
  split
  · next s1 hs =>
    rw [hs] at h
    exact fun c hc => h.subset (List.takeWhile_subset _ hc)
  · exact List.nil_subset _

/-- In a text without `#` no token begins with `#`. -/
theorem head_ne_hash (s : IStream) (h : '#' ∉ s.rest) :
    (extractString s).2.head? ≠ some '#' := by
  intro hh
  apply h
  apply extractString_token_subset s
  cases ht : (extractString s).2 with
  | nil => rw [ht] at hh; cases hh
  | cons c t =>
    rw [ht] at hh
    simp only [List.head?_cons, Option.some.injEq] at hh
    rw [hh]
    exact List.mem_cons_self _ _

/-! ## The loop on inputs that differ in their whitespace only -/

theorem patternCommand_false (s : IStream) (h : patternCommand s = false)
    (hc : (extractString s).2 = lit "appender") :
    (extractString (extractString (extractString s).1).1).1.failbit = true ∨
      (extractString (extractString (extractString s).1).1).2 ≠ lit "pattern" := by
  unfold patternCommand at h
  simp only [hc, decide_True, Bool.and_true, Bool.and_eq_false_iff, Bool.not_eq_false',
    decide_eq_false_iff_not] at h
  exact h

/-- A pass that is neither a comment nor an `appender` command with layout
kind `pattern` ends alike on streams that differ in their whitespace only. -/
theorem pass_sim (env : Env) (s1 s2 : IStream) (h : Sim s1 s2)
    (hhash : (extractString s1).2.head? ≠ some '#') (hpat : patternCommand s1 = false) :
    PassSim (pass env s1) (pass env s2) := by
  obtain ⟨ta, sa⟩ := extractString_sim s1 s2 h
  obtain ⟨tb, sb⟩ := extractString_sim _ _ sa
  have fa := sa.2.1
  have fb := sb.2.1
  have hcmd := command_sim env (extractString s1).2 (extractString (extractString s1).1).2 _ _ sb
    (patternCommand_false s1 hpat)
  have hhash2 : (extractString s2).2.head? ≠ some '#' := by rw [← ta]; exact hhash
  unfold pass
  simp only
  by_cases f1 : (extractString s1).1.failbit = true
  · have f1' : (extractString s2).1.failbit = true := by rw [← fa]; exact f1
    rw [if_pos f1, if_pos f1']
    exact ⟨rfl, rfl⟩
  have f1' : ¬ (extractString s2).1.failbit = true := by rw [← fa]; exact f1
  rw [if_neg f1, if_neg f1', if_neg hhash, if_neg hhash2]
  by_cases f3 : (extractString (extractString s1).1).1.failbit = true
  · have f3' : (extractString (extractString s2).1).1.failbit = true := by rw [← fb]; exact f3
    rw [if_pos f3, if_pos f3']
    exact ⟨rfl, rfl⟩
  have f3' : ¬ (extractString (extractString s2).1).1.failbit = true := by rw [← fb]; exact f3
  rw [if_neg f3, if_neg f3']
  rw [ta, tb] at hcmd
  obtain ⟨hres, hsim⟩ := hcmd
  rw [← ta, ← tb] at hres hsim ⊢
  cases hb1 : (command env (extractString s1).2 (extractString (extractString s1).1).2
    (extractString (extractString s1).1).1).2 with
  | error reason =>
    rw [hb1] at hres
    rw [← hres]
    exact ⟨rfl, rfl⟩
  | ok act =>
    rw [hb1] at hres
    rw [← hres]
    exact ⟨rfl, hsim⟩

/-- The registry-free loop gives the same outcome and the same calls on
streams that differ in their whitespace only, when the text holds no `#` and
no pass is an `appender` command with layout kind `pattern`. -/
theorem traceLoop_sim (env : Env) (fuel1 : Nat) :
    ∀ (fuel2 : Nat) (s1 s2 : IStream), Sim s1 s2 → '#' ∉ s1.rest →
      patternFreeLoop env fuel1 s1 = true → s1.rest.length < fuel1 → s2.rest.length < fuel2 →
      ∃ t1 t2, traceLoop env fuel1 s1 = some t1 ∧ traceLoop env fuel2 s2 = some t2 ∧
        t1.outcome = t2.outcome ∧ t1.calls = t2.calls := by
  induction fuel1 with
  | zero => intro fuel2 s1 s2 _ _ _ h1; omega
  | succ f ih =>
    intro fuel2 s1 s2 hsim hhash hfree h1 h2
    cases fuel2 with
    | zero => omega
    | succ g =>
      simp only [patternFreeLoop, Bool.and_eq_true, Bool.not_eq_true'] at hfree
      obtain ⟨hpc, hrest⟩ := hfree
      have hp := pass_sim env s1 s2 hsim (head_ne_hash s1 hhash) hpc
      simp only [traceLoop]
      cases hp1 : pass env s1 with
      | stop o1 u1 c1 =>
        cases hp2 : pass env s2 with
        | stop o2 u2 c2 =>
          rw [hp1, hp2] at hp
          exact ⟨_, _, rfl, rfl, hp.1, by rw [hp.2]⟩
        | go u2 c2 => rw [hp1, hp2] at hp; exact absurd hp id
      | go u1 c1 =>
        cases hp2 : pass env s2 with
        | stop o2 u2 c2 => rw [hp1, hp2] at hp; exact absurd hp id
        | go u2 c2 =>
          rw [hp1, hp2] at hp
          rw [hp1] at hrest
          simp only at hrest
          have hl1 := pass_go_lt env s1 u1 c1 hp1
          have hl2 := pass_go_lt env s2 u2 c2 hp2
          have hsuf := pass_go_suffix env s1 u1 c1 hp1
          obtain ⟨t1, t2, e1, e2, ho, hc⟩ := ih g u1 u2 hp.2
            (fun hm => hhash (hsuf.subset hm)) hrest (by omega) (by omega)
          refine ⟨{ t1 with calls := c1.toList ++ t1.calls },
            { t2 with calls := c2.toList ++ t2.calls }, ?_, ?_, ho, ?_⟩
          · simp only [e1, Option.map_some']
          · simp only [e2, Option.map_some']
          · simp only [hp.1, hc]

theorem squash_true_blank_append (w y : List Char) (hw : isBlank w = true) :
    squash true (w ++ y) = squash true y := by
  induction w with
  | nil => rfl
  | cons c t ih =>
    simp only [isBlank, List.all_cons, Bool.and_eq_true] at hw
    simp only [List.cons_append, squash, hw.1, if_true]
    exact ih hw.2

theorem squash_sep_append (b : Bool) (w y : List Char) (hw : isSep w = true) :
    squash b (w ++ y) = if b then squash true y else ' ' :: squash true y := by
  cases w with
  | nil => simp [isSep] at hw
  | cons c t =>
    simp only [isSep, List.isEmpty_cons, Bool.not_false, List.all_cons, Bool.true_and,
      Bool.and_eq_true] at hw
    have ht : isBlank t = true := hw.2
    simp only [List.cons_append, squash, hw.1, if_true, List.append_eq,
      squash_true_blank_append t y ht]

theorem squash_replace (b : Bool) (x w1 w2 y : List Char) (h1 : isSep w1 = true)
    (h2 : isSep w2 = true) : squash b (x ++ (w1 ++ y)) = squash b (x ++ (w2 ++ y)) := by
  induction x generalizing b with
  | nil => simp only [List.nil_append, squash_sep_append _ _ _ h1, squash_sep_append _ _ _ h2]
  | cons c t ih =>
    simp only [List.cons_append, squash, List.append_eq, ih]

/-- Texts of which one is the other with runs of whitespace replaced differ in
their whitespace only. -/
theorem squash_of_respaced (a b : List Char) (h : Respaced a b) :
    squash false a = squash false b := by
  induction h with
  | same a => rfl
  | gap x w1 w2 y h1 h2 => exact squash_replace false x w1 w2 y h1 h2
  | trans _ _ ih1 ih2 => exact ih1.trans ih2

/-- `configure` on two files that differ in their whitespace only, the first
without `#` and without `appender` command with layout kind `pattern`. -/
theorem configure_sim (env : Env) (name1 name2 a b : List Char) (reg : Registry)
    (h1 : env.openFile (cstr name1) = some a) (h2 : env.openFile (cstr name2) = some b)
    (hsq : squash false a = squash false b) (hhash : '#' ∉ a)
    (hfree : patternFree env a = true) :
    ∃ r1 r2, configure env name1 reg = some r1 ∧ configure env name2 reg = some r2 ∧
      r1.outcome = r2.outcome ∧ r1.registry = r2.registry := by
  obtain ⟨t1, t2, e1, e2, ho, hc⟩ := traceLoop_sim env (a.length + 1) (b.length + 1)
    (fresh a) (fresh b) ⟨rfl, rfl, hsq⟩ hhash hfree (Nat.lt_succ_self _) (Nat.lt_succ_self _)
  refine ⟨⟨t1.outcome, performAll t1.calls reg, some t1.stream⟩,
    ⟨t2.outcome, performAll t2.calls reg, some t2.stream⟩, ?_, ?_, ho, ?_⟩
  · rw [configure_eq_trace env name1 a reg h1, trace, e1]; rfl
  · rw [configure_eq_trace env name2 b reg h2, trace, e2]; rfl
  · simp only [hc]


/-! ## Inputs written as a list of complete commands -/

theorem nulFree_append (a b : List Char) (ha : nulFree a = true) (hb : nulFree b = true) :
    nulFree (a ++ b) = true := by
  simp only [nulFree, List.all_append, Bool.and_eq_true] at ha hb ⊢
  exact ⟨ha, hb⟩

/-- A reason without NUL character is read in full as the message. -/
theorem what_failure (reason : List Char) (h : nulFree reason = true) :
    (Outcome.failure reason).what = some reason := by
  simp only [Outcome.what, cstr_nulFree reason h]

/-! ## The claims -/

/-- C1: when the source cannot be opened for reading, `configure` throws the
`ConfigureFailure` that names the file as missing or unreadable, no stream is
ever read (the result has no stream), and the registry is the one it was
given. -/
theorem C1_unreadable_source (env : Env) (initFileName : List Char) (reg : Registry)
    (h : env.openFile (cstr initFileName) = none) :
    configure env initFileName reg =
      some ⟨Outcome.failure
        (lit "Config File " ++ initFileName ++ lit " does not exist or is unreadable"),
        reg, none⟩ := by
  simp only [configure, h]

/-- Witness of C1: the example environment has no file `missing.init`. -/
theorem C1_unreadable_source_witness :
    (fileEnv []).openFile (cstr (lit "missing.init")) = none ∧
    configure (fileEnv []) (lit "missing.init") rootOnly =
      some ⟨Outcome.failure
        (lit "Config File " ++ lit "missing.init" ++ lit " does not exist or is unreadable"),
        rootOnly, none⟩ :=
  ⟨by decide, C1_unreadable_source (fileEnv []) (lit "missing.init") rootOnly (by decide)⟩

/-- C2: for tokens `n` and `f`, configuring the one-line input
`appender n basic file f` returns normally, attaches to the category `n` names
exactly one more appender, the file appender on `f` with the basic layout, and
leaves the appenders of every other category as they were. -/
theorem C2_appender_basic_file (env : Env) (initFileName n f : List Char) (reg : Registry)
    (hn : isToken n = true) (hf : isToken f = true)
    (hopen : env.openFile (cstr initFileName)
      = some (lit "appender " ++ n ++ lit " basic file " ++ f)) :
    ∃ r, configure env initFileName reg = some r ∧ r.outcome = Outcome.success ∧
      r.registry.appendersOf (categoryRef n)
        = reg.appendersOf (categoryRef n) ++ [⟨AppenderTarget.file n f, some Layout.basic⟩] ∧
      ∀ ref, ref ≠ categoryRef n → r.registry.appendersOf ref = reg.appendersOf ref := by
  refine ⟨_, configure_basic_file env initFileName n f reg hn hf hopen, rfl, ?_, ?_⟩
  · simp only [appendersOf_attach, if_true]
  · intro ref href
    simp only [appendersOf_attach, href, if_false]

/-- Witness of C2: `appender app basic file /tmp/x.log`. -/
theorem C2_appender_basic_file_witness :
    ∃ r, configure (fileEnv (lit "appender app basic file /tmp/x.log")) exampleFile rootOnly
        = some r ∧ r.outcome = Outcome.success ∧
      r.registry.appendersOf (categoryRef (lit "app"))
        = rootOnly.appendersOf (categoryRef (lit "app"))
          ++ [⟨AppenderTarget.file (lit "app") (lit "/tmp/x.log"), some Layout.basic⟩] ∧
      ∀ ref, ref ≠ categoryRef (lit "app") →
        r.registry.appendersOf ref = rootOnly.appendersOf ref :=
  C2_appender_basic_file (fileEnv (lit "appender app basic file /tmp/x.log")) exampleFile
    (lit "app") (lit "/tmp/x.log") rootOnly (by decide) (by decide) (by decide)

/-- C3 (amended): for a token `n`, a gap `w` of spaces and tabs and a text `p`
of 1 to 999 characters without newline and without NUL that does not begin
with whitespace, configuring the line `appender n pattern console`, then `w`,
then `p` (with or without a final newline) returns normally and attaches to
the category `n` names a console appender whose layout is the pattern layout
with conversion pattern exactly `p`. -/
theorem C3_pattern_console (env : Env) (initFileName n w p : List Char) (newline : Bool)
    (reg : Registry) (hn : isToken n = true) (hw : isGap w = true)
    (hp1 : oneLine p = true) (hp2 : startsNonBlank p = true) (hp3 : p.length ≤ 999)
    (hp4 : nulFree p = true)
    (hopen : env.openFile (cstr initFileName)
      = some (lit "appender " ++ n ++ lit " pattern console" ++ w ++ p ++ lineEnd newline)) :
    ∃ r, configure env initFileName reg = some r ∧ r.outcome = Outcome.success ∧
      r.registry.appendersOf (categoryRef n)
        = reg.appendersOf (categoryRef n)
          ++ [⟨AppenderTarget.ostream n, some (Layout.pattern p)⟩] := by
  obtain ⟨st, h⟩ :=
    configure_pattern_console env initFileName n w p newline reg hn hw hp1 hp2 hp3 hp4 hopen
  refine ⟨_, h, rfl, ?_⟩
  simp only [appendersOf_attach, if_true]

/-- Witness of C3: the pattern `%d [%p] %m%n` after `appender app pattern console`. -/
theorem C3_pattern_console_witness :
    ∃ r, configure (fileEnv (lit "appender app pattern console %d [%p] %m%n\n")) exampleFile
        rootOnly = some r ∧ r.outcome = Outcome.success ∧
      r.registry.appendersOf (categoryRef (lit "app"))
        = rootOnly.appendersOf (categoryRef (lit "app"))
          ++ [⟨AppenderTarget.ostream (lit "app"), some (Layout.pattern (lit "%d [%p] %m%n"))⟩] :=
  C3_pattern_console (fileEnv (lit "appender app pattern console %d [%p] %m%n\n")) exampleFile
    (lit "app") [' '] (lit "%d [%p] %m%n") true rootOnly (by decide) (by decide) (by decide)
    (by decide) (by decide) (by decide) (by decide)

/-- Counterexample to C3 as stated: the text `a`, NUL, `b` has three
characters, no newline and no leading whitespace, yet the conversion pattern
of the layout is `a`: `std::string(pattern)` stops at the NUL. -/
theorem C3_counterexample :
    oneLine ['a', Char.ofNat 0, 'b'] = true ∧ startsNonBlank ['a', Char.ofNat 0, 'b'] = true ∧
    configure (fileEnv (lit "appender app pattern console " ++ ['a', Char.ofNat 0, 'b']))
        exampleFile rootOnly
      = some ⟨Outcome.success,
          { root := { priority := some 600, appenders := [] },
            named := [(lit "app", { priority := none, appenders :=
              [⟨AppenderTarget.ostream (lit "app"), some (Layout.pattern ['a'])⟩] })] },
          some { rest := [], eofbit := true, failbit := true }⟩ ∧
    Layout.pattern ['a'] ≠ Layout.pattern ['a', Char.ofNat 0, 'b'] := by
  decide

/-- C4 (amended): when the loop comes to a command `appender n l k` whose
appender kind `k` is none of `file`, `console`, `stdout`, `stderr`, `syslog`,
`remotesyslog`, and neither `k` nor `n` holds a NUL character, `configure`
throws the `ConfigureFailure` whose message (`what()`) is "Invalid appender
name (k) ... for category: n", which contains `k` and `n`; no category has
gained an appender or changed priority with respect to the registry `reg` the
commands before it produced, and every category of `reg` is still there,
unchanged. -/
theorem C4_invalid_appender_kind (env : Env) (initFileName content : List Char)
    (reg0 reg : Registry) (w0 w1 n w2 l w3 k tail : List Char)
    (hopen : env.openFile (cstr initFileName) = some content)
    (hreach : Reaches env (fresh content) reg0
      (fresh (w0 ++ (lit "appender" ++ (w1 ++ (n ++ (w2 ++ (l ++ (w3 ++ (k ++ tail))))))))) reg)
    (hw0 : isBlank w0 = true) (hw1 : isSep w1 = true) (hn : isToken n = true)
    (hw2 : isSep w2 = true) (hl : isToken l = true) (hw3 : isSep w3 = true)
    (hk : isToken k = true) (htail : tokenEnd tail = true)
    (hkind : k ∉ [lit "file", lit "console", lit "stdout", lit "stderr", lit "syslog",
      lit "remotesyslog"])
    (hk0 : nulFree k = true) (hn0 : nulFree n = true) :
    ∃ r reason, configure env initFileName reg0 = some r ∧
      r.outcome = Outcome.failure reason ∧ r.outcome.what = some reason ∧
      reason = lit "Invalid appender name (" ++ k
        ++ lit ") in logging configuration file for category: " ++ n ∧
      k <:+: reason ∧ n <:+: reason ∧
      (∀ ref, r.registry.appendersOf ref = reg.appendersOf ref) ∧
      (∀ ref, r.registry.priorityOf ref = reg.priorityOf ref) ∧
      (∀ ref c, reg.find? ref = some c → r.registry.find? ref = some c) := by
  refine ⟨_, _, configure_of_reaches env initFileName content reg0 reg _ _ hopen hreach
    (step_invalid_appender env reg w0 w1 n w2 l w3 k tail hw0 hw1 hn hw2 hl hw3 hk htail hkind),
    rfl, what_failure _ (nulFree_append _ _ (nulFree_append _ _
      (nulFree_append _ _ (by decide) hk0) (by decide)) hn0),
    rfl, infix_middle _ _ _ _, infix_last _ _, ?_, ?_, ?_⟩
  · exact appendersOf_resolveCategory n reg
  · exact priorityOf_resolveCategory n reg
  · exact find?_resolveCategory_of_some n reg

/-- Witness of C4 (amended): `appender foo basic bogus` after a successful
`appender app basic console`. -/
theorem C4_invalid_appender_kind_witness :
    ∃ r reason, configure (fileEnv bogusKindFile) exampleFile rootOnly = some r ∧
      r.outcome = Outcome.failure reason ∧ r.outcome.what = some reason ∧
      reason = lit "Invalid appender name (" ++ lit "bogus"
        ++ lit ") in logging configuration file for category: " ++ lit "foo" ∧
      lit "bogus" <:+: reason ∧ lit "foo" <:+: reason ∧
      (∀ ref, r.registry.appendersOf ref = appConsole.appendersOf ref) ∧
      (∀ ref, r.registry.priorityOf ref = appConsole.priorityOf ref) ∧
      (∀ ref c, appConsole.find? ref = some c → r.registry.find? ref = some c) :=
  C4_invalid_appender_kind (fileEnv bogusKindFile) exampleFile bogusKindFile rootOnly appConsole
    ['\n'] [' '] (lit "foo") [' '] (lit "basic") [' '] (lit "bogus") ['\n']
    (by decide) (Reaches.pass Reaches.start (by decide))
    (by decide) (by decide) (by decide) (by decide) (by decide) (by decide) (by decide)
    (by decide) (by decide) (by decide) (by decide)

/-- Counterexample to C4 as stated: in `appender foo basic bo<NUL>gus` the
appender kind is a token outside the six kinds, but the message of the failure
ends in front of the NUL: it is `Invalid appender name (bo`, which contains
neither the appender kind nor the category name `foo`. -/
theorem C4_counterexample :
    isToken nulKind = true ∧
    nulKind ∉ [lit "file", lit "console", lit "stdout", lit "stderr", lit "syslog",
      lit "remotesyslog"] ∧
    configure (fileEnv nulKindFile) exampleFile rootOnly
      = some ⟨Outcome.failure (lit "Invalid appender name (" ++ nulKind
            ++ lit ") in logging configuration file for category: " ++ lit "foo"),
          { root := { priority := some 600, appenders := [] },
            named := [(lit "foo", { priority := none, appenders := [] })] },
          some { rest := [], eofbit := true, failbit := false }⟩ ∧
    (Outcome.failure (lit "Invalid appender name (" ++ nulKind
        ++ lit ") in logging configuration file for category: " ++ lit "foo")).what
      = some (lit "Invalid appender name (bo") ∧
    ¬ nulKind <:+: lit "Invalid appender name (bo" ∧
    ¬ lit "foo" <:+: lit "Invalid appender name (bo" := by
  decide

/-- C5 (amended): when the loop comes to a command `priority n v` whose
priority name `v` the priority table does not resolve, and neither `v` nor `n`
holds a NUL character, `configure` throws the `ConfigureFailure` whose message
(`what()`) is "Invalid priority (v) ... for category: n", which contains `v`
and `n`, and the priority threshold of every category, the one `n` names
included, is the one it had in the registry `reg` before the command. -/
theorem C5_invalid_priority (env : Env) (initFileName content : List Char)
    (reg0 reg : Registry) (w0 w1 n w2 v tail : List Char)
    (hopen : env.openFile (cstr initFileName) = some content)
    (hreach : Reaches env (fresh content) reg0
      (fresh (w0 ++ (lit "priority" ++ (w1 ++ (n ++ (w2 ++ (v ++ tail))))))) reg)
    (hw0 : isBlank w0 = true) (hw1 : isSep w1 = true) (hn : isToken n = true)
    (hw2 : isSep w2 = true) (hv : isToken v = true) (htail : tokenEnd tail = true)
    (hunknown : env.getPriorityValue v = none)
    (hv0 : nulFree v = true) (hn0 : nulFree n = true) :
    ∃ r reason, configure env initFileName reg0 = some r ∧
      r.outcome = Outcome.failure reason ∧ r.outcome.what = some reason ∧
      reason = lit "Invalid priority (" ++ v
        ++ lit ") in logging configuration file for category: " ++ n ∧
      v <:+: reason ∧ n <:+: reason ∧
      r.registry.priorityOf (categoryRef n) = reg.priorityOf (categoryRef n) ∧
      (∀ ref, r.registry.priorityOf ref = reg.priorityOf ref) := by
  refine ⟨_, _, configure_of_reaches env initFileName content reg0 reg _ _ hopen hreach
    (step_invalid_priority env reg w0 w1 n w2 v tail hw0 hw1 hn hw2 hv htail hunknown),
    rfl, what_failure _ (nulFree_append _ _ (nulFree_append _ _
      (nulFree_append _ _ (by decide) hv0) (by decide)) hn0),
    rfl, infix_middle _ _ _ _, infix_last _ _, ?_, ?_⟩
  · exact priorityOf_resolveCategory n reg _
  · exact priorityOf_resolveCategory n reg

/-- Witness of C5 (amended): `priority foo BOGUS`. -/
theorem C5_invalid_priority_witness :
    ∃ r reason, configure (fileEnv bogusPriorityFile) exampleFile rootOnly = some r ∧
      r.outcome = Outcome.failure reason ∧ r.outcome.what = some reason ∧
      reason = lit "Invalid priority (" ++ lit "BOGUS"
        ++ lit ") in logging configuration file for category: " ++ lit "foo" ∧
      lit "BOGUS" <:+: reason ∧ lit "foo" <:+: reason ∧
      r.registry.priorityOf (categoryRef (lit "foo")) = rootOnly.priorityOf (categoryRef (lit "foo")) ∧
      (∀ ref, r.registry.priorityOf ref = rootOnly.priorityOf ref) :=
  C5_invalid_priority (fileEnv bogusPriorityFile) exampleFile bogusPriorityFile rootOnly rootOnly
    [] [' '] (lit "foo") [' '] (lit "BOGUS") ['\n']
    (by decide) Reaches.start
    (by decide) (by decide) (by decide) (by decide) (by decide) (by decide) (by decide)
    (by decide) (by decide)

/-- Counterexample to C5 as stated: in `priority a<NUL>b BOGUS` the category
name is the token `a<NUL>b` and `BOGUS` is not in the table, but the message
of the failure ends in front of the NUL: it is "Invalid priority (BOGUS) ...
for category: a", which does not contain the category name. -/
theorem C5_counterexample :
    isToken nulName = true ∧ examplePriority (lit "BOGUS") = none ∧
    configure (fileEnv nulNamePriorityFile) exampleFile rootOnly
      = some ⟨Outcome.failure (lit "Invalid priority (" ++ lit "BOGUS"
            ++ lit ") in logging configuration file for category: " ++ nulName),
          { root := { priority := some 600, appenders := [] },
            named := [(nulName, { priority := none, appenders := [] })] },
          some { rest := [], eofbit := true, failbit := false }⟩ ∧
    (Outcome.failure (lit "Invalid priority (" ++ lit "BOGUS"
        ++ lit ") in logging configuration file for category: " ++ nulName)).what
      = some (lit "Invalid priority (BOGUS) in logging configuration file for category: a") ∧
    ¬ nulName <:+: lit "Invalid priority (BOGUS) in logging configuration file for category: a" := by
  refine ⟨by decide, by decide, by decide, by decide, fun h => ?_⟩
  exact absurd (h.subset (show Char.ofNat 0 ∈ nulName by decide)) (by decide)

/-- C6: a pass in front of a command word `c` (not a comment) and a category
name `n` makes one call `act` on the category it resolves.  When `n` is
exactly `root` that category is the root category and the table of named
categories is left as it was.  For every other `n` it is the named category
`n`, created if absent: the root category is left as it was, `n` is in the
table afterwards, the table has gained at most the name `n`, and every other
named category is left as it was. -/
theorem C6_root_by_exact_name (env : Env) (reg : Registry) (w0 c w1 n tail : List Char)
    (hw0 : isBlank w0 = true) (hc : isToken c = true) (hc1 : c.head? ≠ some '#')
    (hw1 : isSep w1 = true) (hn : isToken n = true) (htail : tokenEnd tail = true) :
    (n = lit "root" →
      (∃ act : Action, (step env (fresh (w0 ++ (c ++ (w1 ++ (n ++ tail))))) reg).registry
        = act.apply (CategoryRef.root, reg)) ∧
      (step env (fresh (w0 ++ (c ++ (w1 ++ (n ++ tail))))) reg).registry.named = reg.named) ∧
    (n ≠ lit "root" →
      (∃ act : Action, (step env (fresh (w0 ++ (c ++ (w1 ++ (n ++ tail))))) reg).registry
        = act.apply (CategoryRef.named n, (reg.getInstance n).2)) ∧
      (step env (fresh (w0 ++ (c ++ (w1 ++ (n ++ tail))))) reg).registry.root = reg.root ∧
      n ∈ (step env (fresh (w0 ++ (c ++ (w1 ++ (n ++ tail))))) reg).registry.names ∧
      (step env (fresh (w0 ++ (c ++ (w1 ++ (n ++ tail))))) reg).registry.names
        = (if n ∈ reg.names then reg.names else reg.names ++ [n]) ∧
      ∀ m, m ≠ n →
        (step env (fresh (w0 ++ (c ++ (w1 ++ (n ++ tail))))) reg).registry.find?
            (CategoryRef.named m) = reg.find? (CategoryRef.named m)) := by
  obtain ⟨act, hact⟩ := step_text_registry env reg w0 c w1 n tail hw0 hc hc1 hw1 hn htail
  constructor
  · intro hroot
    rw [hact, hroot, resolveCategory_of_root]
    exact ⟨⟨act, rfl⟩, Action.apply_root_named act reg⟩
  · intro hne
    rw [hact, resolveCategory_of_ne_root n reg hne]
    refine ⟨⟨act, rfl⟩, ?_, ?_, ?_, ?_⟩
    · rw [Action.apply_named_root, root_getInstance]
    · rw [Action.apply_names, names_getInstance]
      by_cases h : n ∈ reg.names
      · simp only [h, if_true]
      · simp only [h, if_false, List.mem_append, List.mem_singleton, or_true]
    · rw [Action.apply_names, names_getInstance]
    · intro m hm
      rw [Action.apply_find?_other _ _ _ (by simpa using hm), find?_getInstance_other reg n m hm]

/-- Witness of C6: `priority Root DEBUG` acts on a named category `Root`, not
on the root category. -/
theorem C6_root_by_exact_name_witness :
    (lit "Root" = lit "root" →
      (∃ act : Action, (step (fileEnv []) (fresh ([] ++ (lit "priority" ++ ([' '] ++
          (lit "Root" ++ lit " DEBUG\n"))))) rootOnly).registry
        = act.apply (CategoryRef.root, rootOnly)) ∧
      (step (fileEnv []) (fresh ([] ++ (lit "priority" ++ ([' '] ++
          (lit "Root" ++ lit " DEBUG\n"))))) rootOnly).registry.named = rootOnly.named) ∧
    (lit "Root" ≠ lit "root" →
      (∃ act : Action, (step (fileEnv []) (fresh ([] ++ (lit "priority" ++ ([' '] ++
          (lit "Root" ++ lit " DEBUG\n"))))) rootOnly).registry
        = act.apply (CategoryRef.named (lit "Root"), (rootOnly.getInstance (lit "Root")).2)) ∧
      (step (fileEnv []) (fresh ([] ++ (lit "priority" ++ ([' '] ++
          (lit "Root" ++ lit " DEBUG\n"))))) rootOnly).registry.root = rootOnly.root ∧
      lit "Root" ∈ (step (fileEnv []) (fresh ([] ++ (lit "priority" ++ ([' '] ++
          (lit "Root" ++ lit " DEBUG\n"))))) rootOnly).registry.names ∧
      (step (fileEnv []) (fresh ([] ++ (lit "priority" ++ ([' '] ++
          (lit "Root" ++ lit " DEBUG\n"))))) rootOnly).registry.names
        = (if lit "Root" ∈ rootOnly.names then rootOnly.names
            else rootOnly.names ++ [lit "Root"]) ∧
      ∀ m, m ≠ lit "Root" →
        (step (fileEnv []) (fresh ([] ++ (lit "priority" ++ ([' '] ++
          (lit "Root" ++ lit " DEBUG\n"))))) rootOnly).registry.find?
            (CategoryRef.named m) = rootOnly.find? (CategoryRef.named m)) :=
  C6_root_by_exact_name (fileEnv []) rootOnly [] (lit "priority") [' '] (lit "Root")
    (lit " DEBUG\n") (by decide) (by decide) (by decide) (by decide) (by decide) (by decide)

/-- C7 (amended): in a build with syslog support, when the loop comes to a
command `appender n l syslog id` with a known layout kind `l`, and the text
after `id` does not begin, after whitespace, with an optional sign and a
decimal digit (in particular when the input ends there), the pass throws
nothing and attaches to the category `n` names a syslog appender with identity
`id` whose facility is `LOG_USER`. -/
theorem C7_syslog_default_facility (env : Env) (reg : Registry)
    (w0 w1 n w2 l w3 w4 id tail : List Char) (hsys : env.haveSyslog = true)
    (hw0 : isBlank w0 = true) (hw1 : isSep w1 = true) (hn : isToken n = true)
    (hw2 : isSep w2 = true) (hl : l ∈ [lit "basic", lit "simple", lit "pattern"])
    (hw3 : isSep w3 = true) (hw4 : isSep w4 = true) (hid : isToken id = true)
    (htail : tokenEnd tail = true) (hint : startsWithInt tail = false) :
    ∃ s1 lay, step env (fresh (w0 ++ (lit "appender" ++ (w1 ++ (n ++ (w2 ++ (l ++ (w3 ++
        (lit "syslog" ++ (w4 ++ (id ++ tail))))))))))) reg
      = Step.next s1 ((resolveCategory n reg).2.addAppender (categoryRef n)
          ⟨AppenderTarget.syslog n id env.LOG_USER, some lay⟩) ∧
      ((resolveCategory n reg).2.addAppender (categoryRef n)
          ⟨AppenderTarget.syslog n id env.LOG_USER, some lay⟩).appendersOf (categoryRef n)
        = reg.appendersOf (categoryRef n)
          ++ [⟨AppenderTarget.syslog n id env.LOG_USER, some lay⟩] := by
  obtain ⟨s1, lay, h⟩ := step_syslog_default env reg w0 w1 n w2 l w3 w4 id tail hsys hw0 hw1 hn
    hw2 hl hw3 hw4 hid htail hint
  refine ⟨s1, lay, h, ?_⟩
  simp only [appendersOf_attach, if_true]

/-- Witness of C7 (amended): `appender app basic syslog myapp`, end of input. -/
theorem C7_syslog_default_facility_witness :
    ∃ s1 lay, step (fileEnv []) (fresh ([] ++ (lit "appender" ++ ([' '] ++ (lit "app" ++ ([' '] ++
        (lit "basic" ++ ([' '] ++ (lit "syslog" ++ ([' '] ++ (lit "myapp" ++ []))))))))))) rootOnly
      = Step.next s1 ((resolveCategory (lit "app") rootOnly).2.addAppender
          (categoryRef (lit "app"))
          ⟨AppenderTarget.syslog (lit "app") (lit "myapp") (fileEnv []).LOG_USER, some lay⟩) ∧
      ((resolveCategory (lit "app") rootOnly).2.addAppender (categoryRef (lit "app"))
          ⟨AppenderTarget.syslog (lit "app") (lit "myapp") (fileEnv []).LOG_USER,
            some lay⟩).appendersOf (categoryRef (lit "app"))
        = rootOnly.appendersOf (categoryRef (lit "app"))
          ++ [⟨AppenderTarget.syslog (lit "app") (lit "myapp") (fileEnv []).LOG_USER,
            some lay⟩] :=
  C7_syslog_default_facility (fileEnv []) rootOnly [] [' '] (lit "app") [' '] (lit "basic")
    [' '] [' '] (lit "myapp") [] (by decide) (by decide) (by decide) (by decide) (by decide)
    (by decide) (by decide) (by decide) (by decide) (by decide) (by decide)

/-- Counterexample to C7 as stated: in `appender app basic syslog myapp 12abc`
the token after the identity, `12abc`, is not an integer, yet the extraction
of an `int` succeeds on its digits and the appender has facility `12`, not
`LOG_USER`. -/
theorem C7_counterexample :
    isToken (lit "12abc") = true ∧ isIntToken (lit "12abc") = false ∧
    configure (fileEnv syslogDigitsFile) exampleFile rootOnly
      = some ⟨Outcome.success,
          { root := { priority := some 600, appenders := [] },
            named := [(lit "app", { priority := none, appenders :=
              [⟨AppenderTarget.syslog (lit "app") (lit "myapp") 12, some Layout.basic⟩] })] },
          some { rest := [], eofbit := true, failbit := true }⟩ ∧
    (12 : Int) ≠ (fileEnv syslogDigitsFile).LOG_USER := by
  decide

/-- C9: when `configure` returns normally on a registry `reg`, leaving
`r1.registry`, then `configure` with the same file name and environment run on
`r1.registry` returns normally as well; it leaves the same category names,
the same priority on every category, and on every category the appenders of
after the first run followed by the very list `added` that the first run had
added: nothing is deduplicated. -/
theorem C9_second_run (env : Env) (initFileName : List Char) (reg : Registry) (r1 : Result)
    (hrun : configure env initFileName reg = some r1) (hok : r1.outcome = Outcome.success) :
    ∃ r2, configure env initFileName r1.registry = some r2 ∧
      r2.outcome = Outcome.success ∧
      r2.registry.names = r1.registry.names ∧
      (∀ ref, r2.registry.priorityOf ref = r1.registry.priorityOf ref) ∧
      ∃ added : CategoryRef → List Appender, ∀ ref,
        r1.registry.appendersOf ref = reg.appendersOf ref ++ added ref ∧
        r2.registry.appendersOf ref = r1.registry.appendersOf ref ++ added ref := by
  cases hopen : env.openFile (cstr initFileName) with
  | none =>
    simp only [configure, hopen, Option.some.injEq] at hrun
    subst hrun
    cases hok
  | some content =>
    rw [configure_eq_trace env initFileName content reg hopen] at hrun
    cases ht : trace env content with
    | none => rw [ht] at hrun; cases hrun
    | some t =>
      rw [ht] at hrun
      simp only [Option.map_some', Option.some.injEq] at hrun
      subst hrun
      refine ⟨⟨t.outcome, performAll t.calls (performAll t.calls reg), some t.stream⟩, ?_, hok,
        ?_, ?_, fun ref => attached ref t.calls, ?_⟩
      · rw [configure_eq_trace env initFileName content _ hopen, ht]
        rfl
      · exact names_performAll_of_known t.calls _ (known_after_performAll t.calls reg)
      · intro ref
        simp only [priorityOf_performAll]
        exact foldl_priority_idem t.calls ref _
      · intro ref
        exact ⟨appendersOf_performAll t.calls reg ref, appendersOf_performAll t.calls _ ref⟩

/-- Witness of C9: an appender and a priority for `app`, configured twice. -/
theorem C9_second_run_witness :
    ∃ r2, configure (fileEnv appenderPriorityFile) exampleFile appenderPriorityResult.registry
        = some r2 ∧
      r2.outcome = Outcome.success ∧
      r2.registry.names = appenderPriorityResult.registry.names ∧
      (∀ ref, r2.registry.priorityOf ref = appenderPriorityResult.registry.priorityOf ref) ∧
      ∃ added : CategoryRef → List Appender, ∀ ref,
        appenderPriorityResult.registry.appendersOf ref = rootOnly.appendersOf ref ++ added ref ∧
        r2.registry.appendersOf ref
          = appenderPriorityResult.registry.appendersOf ref ++ added ref :=
  C9_second_run (fileEnv appenderPriorityFile) exampleFile rootOnly appenderPriorityResult
    (by decide) (by decide)

/-- C10 (amended): when the loop comes to a word `c` that does not begin with
`#`, is none of `appender`, `priority`, `category`, holds no NUL character and
is followed by a category name `n`, `configure` throws the `ConfigureFailure`
whose message (`what()`) is "Invalid format ... Command: c", which contains
`c`.  The registry it leaves is the registry `reg` of before the command with
the category `n` names resolved, whatever text `tail` follows: no later
command has an effect. -/
theorem C10_invalid_command (env : Env) (initFileName content : List Char)
    (reg0 reg : Registry) (w0 c w1 n tail : List Char)
    (hopen : env.openFile (cstr initFileName) = some content)
    (hreach : Reaches env (fresh content) reg0 (fresh (w0 ++ (c ++ (w1 ++ (n ++ tail))))) reg)
    (hw0 : isBlank w0 = true) (hc : isToken c = true) (hc1 : c.head? ≠ some '#')
    (hw1 : isSep w1 = true) (hn : isToken n = true) (htail : tokenEnd tail = true)
    (hcmd : c ∉ [lit "appender", lit "priority", lit "category"])
    (hc0 : nulFree c = true) :
    ∃ r reason, configure env initFileName reg0 = some r ∧
      r.outcome = Outcome.failure reason ∧ r.outcome.what = some reason ∧
      reason = lit "Invalid format in logging configuration file. Command: " ++ c ∧
      c <:+: reason ∧
      r.registry = (resolveCategory n reg).2 ∧
      (∀ ref, r.registry.appendersOf ref = reg.appendersOf ref) ∧
      (∀ ref, r.registry.priorityOf ref = reg.priorityOf ref) ∧
      (∀ ref x, reg.find? ref = some x → r.registry.find? ref = some x) := by
  refine ⟨_, _, configure_of_reaches env initFileName content reg0 reg _ _ hopen hreach
    (step_invalid_command env reg w0 c w1 n tail hw0 hc hc1 hw1 hn htail hcmd),
    rfl, what_failure _ (nulFree_append _ _ (by decide) hc0),
    rfl, infix_last _ _, rfl, ?_, ?_, ?_⟩
  · exact appendersOf_resolveCategory n reg
  · exact priorityOf_resolveCategory n reg
  · exact find?_resolveCategory_of_some n reg

/-- Witness of C10 (amended): the word `logger` after `category app`; the
`priority` line that follows it is not run. -/
theorem C10_invalid_command_witness :
    ∃ r reason, configure (fileEnv bogusCommandFile) exampleFile rootOnly = some r ∧
      r.outcome = Outcome.failure reason ∧ r.outcome.what = some reason ∧
      reason = lit "Invalid format in logging configuration file. Command: " ++ lit "logger" ∧
      lit "logger" <:+: reason ∧
      r.registry = (resolveCategory (lit "app") appOnly).2 ∧
      (∀ ref, r.registry.appendersOf ref = appOnly.appendersOf ref) ∧
      (∀ ref, r.registry.priorityOf ref = appOnly.priorityOf ref) ∧
      (∀ ref x, appOnly.find? ref = some x → r.registry.find? ref = some x) :=
  C10_invalid_command (fileEnv bogusCommandFile) exampleFile bogusCommandFile rootOnly appOnly
    ['\n'] (lit "logger") [' '] (lit "app") (lit "\npriority app DEBUG\n")
    (by decide) (Reaches.pass Reaches.start (by decide))
    (by decide) (by decide) (by decide) (by decide) (by decide) (by decide) (by decide)
    (by decide)

/-- Counterexample to C10 as stated: in `lo<NUL>g app` the word `lo<NUL>g` is
a token that is no command and does not begin with `#`, but the message of the
failure ends in front of the NUL: it is "Invalid format ... Command: lo",
which does not contain the word. -/
theorem C10_counterexample :
    isToken nulCommand = true ∧ nulCommand.head? ≠ some '#' ∧
    nulCommand ∉ [lit "appender", lit "priority", lit "category"] ∧
    configure (fileEnv nulCommandFile) exampleFile rootOnly
      = some ⟨Outcome.failure
            (lit "Invalid format in logging configuration file. Command: " ++ nulCommand),
          { root := { priority := some 600, appenders := [] },
            named := [(lit "app", { priority := none, appenders := [] })] },
          some { rest := [], eofbit := true, failbit := false }⟩ ∧
    (Outcome.failure
        (lit "Invalid format in logging configuration file. Command: " ++ nulCommand)).what
      = some (lit "Invalid format in logging configuration file. Command: lo") ∧
    ¬ nulCommand <:+: lit "Invalid format in logging configuration file. Command: lo" := by
  decide

/-- C11 (amended): when the loop comes to a command on a category `n`
without NUL character and the input ends (nothing but whitespace follows)
where a required argument should stand (the file name of a `file` appender,
the identity of a `syslog` appender in a build with syslog support, the
identity or the relay host of a `remotesyslog` appender, the priority name of
a `priority` command), whatever whitespace separates the words of the command,
`configure` throws the `ConfigureFailure` whose message (`what()`) says which
argument is missing and ends in `n`; no category has gained an appender and
no priority has changed. -/
theorem C11_missing_argument (env : Env) (initFileName content : List Char)
    (reg0 reg : Registry) (m : MissingArg) (w0 w1 n w2 l w3 w4 id tail : List Char)
    (hopen : env.openFile (cstr initFileName) = some content)
    (hreach : Reaches env (fresh content) reg0
      (fresh (w0 ++ m.text w1 n w2 l w3 w4 id tail)) reg)
    (hsys : m = MissingArg.syslogName → env.haveSyslog = true)
    (hw0 : isBlank w0 = true) (hw1 : isSep w1 = true) (hn : isToken n = true)
    (hw2 : isSep w2 = true) (hl : isToken l = true) (hw3 : isSep w3 = true)
    (hw4 : isSep w4 = true) (hid : isToken id = true) (htail : isBlank tail = true)
    (hn0 : nulFree n = true) :
    ∃ r, configure env initFileName reg0 = some r ∧
      r.outcome = Outcome.failure (m.reason n) ∧ r.outcome.what = some (m.reason n) ∧
      n <:+: m.reason n ∧
      r.registry.appendersOf (categoryRef n) = reg.appendersOf (categoryRef n) ∧
      r.registry.priorityOf (categoryRef n) = reg.priorityOf (categoryRef n) ∧
      (∀ ref, r.registry.appendersOf ref = reg.appendersOf ref) ∧
      (∀ ref, r.registry.priorityOf ref = reg.priorityOf ref) := by
  refine ⟨_, configure_of_reaches env initFileName content reg0 reg _ _ hopen hreach
    (step_missing env reg m w0 w1 n w2 l w3 w4 id tail hsys hw0 hw1 hn hw2 hl hw3 hw4 hid
      htail), rfl, what_failure _ ?_, ?_,
    appendersOf_resolveCategory n reg _, priorityOf_resolveCategory n reg _,
    appendersOf_resolveCategory n reg, priorityOf_resolveCategory n reg⟩
  · cases m <;> exact nulFree_append _ _ (by decide) hn0
  · cases m <;> exact infix_last _ _

/-- Witness of C11 (amended): `appender foo basic file` with its words spread
over several lines, and the end of the input, after `category foo`. -/
theorem C11_missing_argument_witness :
    ∃ r, configure (fileEnv noFileNameFile) exampleFile rootOnly = some r ∧
      r.outcome = Outcome.failure (MissingArg.fileName.reason (lit "foo")) ∧
      r.outcome.what = some (MissingArg.fileName.reason (lit "foo")) ∧
      lit "foo" <:+: MissingArg.fileName.reason (lit "foo") ∧
      r.registry.appendersOf (categoryRef (lit "foo")) = fooOnly.appendersOf (categoryRef (lit "foo")) ∧
      r.registry.priorityOf (categoryRef (lit "foo")) = fooOnly.priorityOf (categoryRef (lit "foo")) ∧
      (∀ ref, r.registry.appendersOf ref = fooOnly.appendersOf ref) ∧
      (∀ ref, r.registry.priorityOf ref = fooOnly.priorityOf ref) :=
  C11_missing_argument (fileEnv noFileNameFile) exampleFile noFileNameFile rootOnly fooOnly
    MissingArg.fileName ['\n'] ['\t'] (lit "foo") [' ', ' '] (lit "basic") ['\n'] [' ']
    (lit "myapp") ['\n']
    (by decide) (Reaches.pass Reaches.start (by decide)) (by decide) (by decide) (by decide)
    (by decide) (by decide) (by decide) (by decide) (by decide) (by decide) (by decide)
    (by decide)

/-- Counterexample to C11 as stated.  In `priority a<NUL>b`, cut off before
the priority name, the message of the failure ends in front of the NUL: it is
"Missing priority ... for category: a", which does not contain the category
name `a<NUL>b`.  And in a build without syslog support the input
`appender foo basic syslog`, cut off before the identity, does not end with a
missing-argument failure but with "Invalid appender name (syslog) ...". -/
theorem C11_counterexample :
    isToken nulName = true ∧
    configure (fileEnv nulNameCutFile) exampleFile rootOnly
      = some ⟨Outcome.failure (MissingArg.priorityName.reason nulName),
          { root := { priority := some 600, appenders := [] },
            named := [(nulName, { priority := none, appenders := [] })] },
          some { rest := [], eofbit := true, failbit := true }⟩ ∧
    (Outcome.failure (MissingArg.priorityName.reason nulName)).what
      = some (lit "Missing priority in logging configuration file for category: a") ∧
    ¬ nulName <:+: lit "Missing priority in logging configuration file for category: a" ∧
    configure (noSyslogEnv syslogCutFile) exampleFile rootOnly
      = some ⟨Outcome.failure
            (lit "Invalid appender name (syslog) in logging configuration file for category: foo"),
          { root := { priority := some 600, appenders := [] },
            named := [(lit "foo", { priority := none, appenders := [] })] },
          some { rest := [], eofbit := true, failbit := false }⟩ ∧
    lit "Invalid appender name (syslog) in logging configuration file for category: foo"
      ≠ MissingArg.syslogName.reason (lit "foo") := by
  refine ⟨by decide, by decide, by decide, fun h => ?_, by decide, by decide⟩
  exact absurd (h.subset (show Char.ofNat 0 ∈ nulName by decide)) (by decide)

/-- C12, the code at the failing input: for
`appender app basic remotesyslog myapp loghost 3`, with the port left out, the
appender is built with facility `514` (line 119 assigns the port default to
`facility`) and with a port that was never assigned (`none`); the facility
`3` that was read is lost. -/
theorem C12_remotesyslog_port_omitted :
    configure (fileEnv remoteNoPortFile) exampleFile rootOnly
      = some ⟨Outcome.success,
          { root := { priority := some 600, appenders := [] },
            named := [(lit "app", { priority := none, appenders :=
              [⟨AppenderTarget.remoteSyslog (lit "app") (lit "myapp") (lit "loghost") 514 none,
                some Layout.basic⟩] })] },
          some { rest := [], eofbit := true, failbit := true }⟩ := by
  decide

/-- C13: an input that is empty or holds nothing but whitespace, and an input
that holds one token `c` not beginning with `#`, with any whitespace around it
and no category name after it, make `configure` return normally with the
registry it was given, whether or not `c` is a command word. -/
theorem C13_dangling_command (env : Env) (initFileName content w0 c w1 : List Char)
    (reg : Registry) (hopen : env.openFile (cstr initFileName) = some content)
    (hw0 : isBlank w0 = true) (hc : isToken c = true) (hc1 : c.head? ≠ some '#')
    (hw1 : isBlank w1 = true) (hshape : content = w0 ∨ content = w0 ++ (c ++ w1)) :
    ∃ st, configure env initFileName reg = some ⟨Outcome.success, reg, some st⟩ := by
  rcases hshape with h | h
  · subst h
    refine ⟨_, configure_of_reaches env initFileName content reg reg _ _ hopen Reaches.start
      (step_eof env _ reg ?_)⟩
    rw [extractString_fresh_blank content hw0]
  · subst h
    exact ⟨_, configure_of_reaches env initFileName _ reg reg _ _ hopen Reaches.start
      (step_dangling env reg w0 c w1 hw0 hc hc1 hw1)⟩

/-- Witness of C13: the input ` appender` alone, between a space and a
newline. -/
theorem C13_dangling_command_witness :
    ∃ st, configure (fileEnv (lit " appender\n")) exampleFile rootOnly
      = some ⟨Outcome.success, rootOnly, some st⟩ :=
  C13_dangling_command (fileEnv (lit " appender\n")) exampleFile (lit " appender\n") [' ']
    (lit "appender") ['\n'] rootOnly (by decide) (by decide) (by decide) (by decide) (by decide)
    (Or.inr (by decide))

/-- C14, the code at the failing input: after a `syslog` appender without
facility the failed extraction leaves `failbit` set, the loop condition fails
and the `priority` line is never read; with the value of `LOG_USER` written as
the facility the same line is run.  The two registries differ in the priority
of `app`. -/
theorem C14_syslog_default_stops_the_loop :
    configure (fileEnv syslogThenPriorityFile) exampleFile rootOnly
      = some ⟨Outcome.success,
          { root := { priority := some 600, appenders := [] },
            named := [(lit "app", { priority := none, appenders :=
              [⟨AppenderTarget.syslog (lit "app") (lit "myapp") 8, some Layout.basic⟩] })] },
          some { rest := lit "priority app DEBUG\n", eofbit := false, failbit := true }⟩ ∧
    configure (fileEnv syslogFacilityThenPriorityFile) exampleFile rootOnly
      = some ⟨Outcome.success,
          { root := { priority := some 600, appenders := [] },
            named := [(lit "app", { priority := some 700, appenders :=
              [⟨AppenderTarget.syslog (lit "app") (lit "myapp") 8, some Layout.basic⟩] })] },
          some { rest := [], eofbit := true, failbit := true }⟩ ∧
    (fileEnv syslogThenPriorityFile).LOG_USER = 8 := by
  decide

/-- C15, the code at the failing input: in `appender app pattern console`,
newline, `priority app DEBUG` the appender line holds nothing after `console`,
yet `initFile >> std::ws` runs over the line end and the conversion pattern is
not empty: it is the text of the following line, `priority app DEBUG`, and
that line is not run as a command (the priority of `app` stays unset). -/
theorem C15_pattern_takes_the_next_line :
    configure (fileEnv patternThenPriorityFile) exampleFile rootOnly
      = some ⟨Outcome.success,
          { root := { priority := some 600, appenders := [] },
            named := [(lit "app", { priority := none, appenders :=
              [⟨AppenderTarget.ostream (lit "app"),
                some (Layout.pattern (lit "priority app DEBUG"))⟩] })] },
          some { rest := [], eofbit := true, failbit := true }⟩ ∧
    Layout.pattern (lit "priority app DEBUG") ≠ Layout.pattern [] := by
  decide

/-- C16 (amended): when the loop comes to a command `appender n l k ...`
whose appender is built (the arguments of the kind `k` are all there) and
whose layout kind `l` is none of `basic`, `simple`, `pattern`, and neither `l`
nor `n` holds a NUL character, `configure` throws the `ConfigureFailure` whose
message (`what()`) is "Invalid layout (l) ... for category: n", which contains
`l` and `n`; the appender that was built is attached to no category: every
category, the one `n` names included, has the appenders it had. -/
theorem C16_invalid_layout_kind (env : Env) (initFileName content : List Char)
    (reg0 reg : Registry) (w0 w1 n w2 l w3 k tail : List Char) (a : Appender)
    (hopen : env.openFile (cstr initFileName) = some content)
    (hreach : Reaches env (fresh content) reg0
      (fresh (w0 ++ (lit "appender" ++ (w1 ++ (n ++ (w2 ++ (l ++ (w3 ++ (k ++ tail))))))))) reg)
    (hw0 : isBlank w0 = true) (hw1 : isSep w1 = true) (hn : isToken n = true)
    (hw2 : isSep w2 = true) (hl : isToken l = true) (hw3 : isSep w3 = true)
    (hk : isToken k = true) (htail : tokenEnd tail = true)
    (hbuilt : (buildAppender env n k (after tail)).2 = Except.ok a)
    (hkind : l ∉ [lit "basic", lit "simple", lit "pattern"])
    (hl0 : nulFree l = true) (hn0 : nulFree n = true) :
    ∃ r reason, configure env initFileName reg0 = some r ∧
      r.outcome = Outcome.failure reason ∧ r.outcome.what = some reason ∧
      reason = lit "Invalid layout (" ++ l
        ++ lit ") in logging configuration file for category: " ++ n ∧
      l <:+: reason ∧ n <:+: reason ∧
      r.registry.appendersOf (categoryRef n) = reg.appendersOf (categoryRef n) ∧
      (∀ ref, r.registry.appendersOf ref = reg.appendersOf ref) ∧
      (∀ ref, r.registry.priorityOf ref = reg.priorityOf ref) := by
  refine ⟨_, _, configure_of_reaches env initFileName content reg0 reg _ _ hopen hreach
    (step_invalid_layout env reg w0 w1 n w2 l w3 k tail a hw0 hw1 hn hw2 hl hw3 hk htail
      hbuilt hkind),
    rfl, what_failure _ (nulFree_append _ _ (nulFree_append _ _
      (nulFree_append _ _ (by decide) hl0) (by decide)) hn0),
    rfl, infix_middle _ _ _ _, infix_last _ _, appendersOf_resolveCategory n reg _,
    appendersOf_resolveCategory n reg, priorityOf_resolveCategory n reg⟩

/-- Witness of C16 (amended): `appender foo fancy console` after
`category foo`. -/
theorem C16_invalid_layout_kind_witness :
    ∃ r reason, configure (fileEnv bogusLayoutFile) exampleFile rootOnly = some r ∧
      r.outcome = Outcome.failure reason ∧ r.outcome.what = some reason ∧
      reason = lit "Invalid layout (" ++ lit "fancy"
        ++ lit ") in logging configuration file for category: " ++ lit "foo" ∧
      lit "fancy" <:+: reason ∧ lit "foo" <:+: reason ∧
      r.registry.appendersOf (categoryRef (lit "foo")) = fooOnly.appendersOf (categoryRef (lit "foo")) ∧
      (∀ ref, r.registry.appendersOf ref = fooOnly.appendersOf ref) ∧
      (∀ ref, r.registry.priorityOf ref = fooOnly.priorityOf ref) :=
  C16_invalid_layout_kind (fileEnv bogusLayoutFile) exampleFile bogusLayoutFile rootOnly fooOnly
    ['\n'] [' '] (lit "foo") [' '] (lit "fancy") [' '] (lit "console") ['\n']
    ⟨AppenderTarget.ostream (lit "foo"), none⟩
    (by decide) (Reaches.pass Reaches.start (by decide))
    (by decide) (by decide) (by decide) (by decide) (by decide) (by decide) (by decide)
    (by decide) rfl (by decide) (by decide) (by decide)

/-- Counterexample to C16 as stated: in `appender foo f<NUL>y console` the
console appender is built and the layout kind `f<NUL>y` is a token outside the
three kinds, but the message of the failure ends in front of the NUL: it is
`Invalid layout (f`, which contains neither the layout kind nor the category
name `foo`. -/
theorem C16_counterexample :
    isToken nulLayout = true ∧ nulLayout ∉ [lit "basic", lit "simple", lit "pattern"] ∧
    configure (fileEnv nulLayoutFile) exampleFile rootOnly
      = some ⟨Outcome.failure (lit "Invalid layout (" ++ nulLayout
            ++ lit ") in logging configuration file for category: " ++ lit "foo"),
          { root := { priority := some 600, appenders := [] },
            named := [(lit "foo", { priority := none, appenders := [] })] },
          some { rest := [], eofbit := true, failbit := false }⟩ ∧
    (Outcome.failure (lit "Invalid layout (" ++ nulLayout
        ++ lit ") in logging configuration file for category: " ++ lit "foo")).what
      = some (lit "Invalid layout (f") ∧
    ¬ nulLayout <:+: lit "Invalid layout (f" ∧
    ¬ lit "foo" <:+: lit "Invalid layout (f" := by
  decide

/-- C17: when the loop comes to `appender n` or to `appender n l` and the
input ends there (nothing but whitespace follows), `configure` returns
normally; the registry it leaves is the registry `reg` of before the command
with the category `n` names resolved: no appender is attached anywhere, no
priority is changed, every category of `reg` is kept. -/
theorem C17_appender_cut_short (env : Env) (initFileName content : List Char)
    (reg0 reg : Registry) (w0 w1 n w2 l tail : List Char)
    (hopen : env.openFile (cstr initFileName) = some content)
    (hw0 : isBlank w0 = true) (hw1 : isSep w1 = true) (hn : isToken n = true)
    (hw2 : isSep w2 = true) (hl : isToken l = true) (htail : isBlank tail = true)
    (hreach : Reaches env (fresh content) reg0
        (fresh (w0 ++ (lit "appender" ++ (w1 ++ (n ++ tail))))) reg ∨
      Reaches env (fresh content) reg0
        (fresh (w0 ++ (lit "appender" ++ (w1 ++ (n ++ (w2 ++ (l ++ tail))))))) reg) :
    ∃ r, configure env initFileName reg0 = some r ∧
      r.outcome = Outcome.success ∧
      r.registry = (resolveCategory n reg).2 ∧
      (r.registry.find? (categoryRef n)).isSome = true ∧
      (∀ ref, r.registry.appendersOf ref = reg.appendersOf ref) ∧
      (∀ ref, r.registry.priorityOf ref = reg.priorityOf ref) ∧
      (∀ ref x, reg.find? ref = some x → r.registry.find? ref = some x) := by
  have hlast : step env { rest := [], eofbit := true, failbit := true } (resolveCategory n reg).2
      = Step.done ⟨Outcome.success, (resolveCategory n reg).2,
          some { rest := [], eofbit := true, failbit := true }⟩ := step_failed env _ _ rfl
  have hrun : configure env initFileName reg0
      = some ⟨Outcome.success, (resolveCategory n reg).2,
          some { rest := [], eofbit := true, failbit := true }⟩ := by
    rcases hreach with h | h
    · exact configure_of_reaches_next env initFileName content reg0 reg _ _ _ _ hopen h
        (step_appender_cut env reg w0 w1 n tail hw0 hw1 hn htail) hlast
    · exact configure_of_reaches_next env initFileName content reg0 reg _ _ _ _ hopen h
        (step_appender_cut_layout env reg w0 w1 n w2 l tail hw0 hw1 hn hw2 hl htail) hlast
  exact ⟨_, hrun, rfl, rfl, find?_resolveCategory_self n reg, appendersOf_resolveCategory n reg,
    priorityOf_resolveCategory n reg, find?_resolveCategory_of_some n reg⟩

/-- Witness of C17: `appender bar basic` and the end of the input, after
`category foo`. -/
theorem C17_appender_cut_short_witness :
    ∃ r, configure (fileEnv noKindFile) exampleFile rootOnly = some r ∧
      r.outcome = Outcome.success ∧
      r.registry = (resolveCategory (lit "bar") fooOnly).2 ∧
      (r.registry.find? (categoryRef (lit "bar"))).isSome = true ∧
      (∀ ref, r.registry.appendersOf ref = fooOnly.appendersOf ref) ∧
      (∀ ref, r.registry.priorityOf ref = fooOnly.priorityOf ref) ∧
      (∀ ref x, fooOnly.find? ref = some x → r.registry.find? ref = some x) :=
  C17_appender_cut_short (fileEnv noKindFile) exampleFile noKindFile rootOnly fooOnly
    ['\n'] [' '] (lit "bar") [' '] (lit "basic") ['\n']
    (by decide) (by decide) (by decide) (by decide) (by decide) (by decide) (by decide)
    (Or.inr (Reaches.pass Reaches.start (by decide)))

/-- C18: a comment is dropped with its whole line.  For every text `t`
without newline and every input `rest`, `configure` on the file that holds
`#`, `t`, a newline and `rest` has the result of `configure` on the file that
holds `rest`: the same outcome, the same registry, the same final stream,
whatever `t` is. -/
theorem C18_comment_line (env : Env) (commented plain t rest : List Char) (reg : Registry)
    (ht : oneLine t = true)
    (hcommented : env.openFile (cstr commented) = some ('#' :: (t ++ '\n' :: rest)))
    (hplain : env.openFile (cstr plain) = some rest) :
    configure env commented reg = configure env plain reg := by
  simp only [configure, hcommented, hplain]
  exact runFrom_next env _ _ _ _ (step_comment env reg t rest ht)

/-- Witness of C18: a comment that reads like a command with an unknown
layout. -/
theorem C18_comment_line_witness :
    configure (twoFileEnv (lit "# appender app bogus console\npriority root DEBUG\n")
        (lit "priority root DEBUG\n")) exampleFile rootOnly
      = configure (twoFileEnv (lit "# appender app bogus console\npriority root DEBUG\n")
        (lit "priority root DEBUG\n")) otherFile rootOnly :=
  C18_comment_line (twoFileEnv (lit "# appender app bogus console\npriority root DEBUG\n")
      (lit "priority root DEBUG\n")) exampleFile otherFile
    (lit " appender app bogus console") (lit "priority root DEBUG\n") rootOnly
    (by decide) (by decide) (by decide)

/-- C19: the grammar is positional.  When the content `a` of a file holds no
`#` and its run meets no `appender` command with layout kind `pattern`, and
the content `b` of another file is `a` with runs of whitespace replaced by
other non-empty runs of whitespace, at any number of places (`Respaced`),
then `configure` ends on both files with the same outcome and leaves the same
registry. -/
theorem C19_positional_grammar (env : Env) (name1 name2 a b : List Char) (reg : Registry)
    (h1 : env.openFile (cstr name1) = some a) (h2 : env.openFile (cstr name2) = some b)
    (hsp : Respaced a b) (hhash : '#' ∉ a) (hfree : patternFree env a = true) :
    ∃ r1 r2, configure env name1 reg = some r1 ∧ configure env name2 reg = some r2 ∧
      r1.outcome = r2.outcome ∧ r1.registry = r2.registry :=
  configure_sim env name1 name2 a b reg h1 h2 (squash_of_respaced a b hsp) hhash hfree

/-- Witness of C19: three commands on three lines, and the same commands with
the first two joined on one line and the second split over two lines. -/
theorem C19_positional_grammar_witness :
    ∃ r1 r2, configure (twoFileEnv threeLinesFile respacedFile) exampleFile rootOnly = some r1 ∧
      configure (twoFileEnv threeLinesFile respacedFile) otherFile rootOnly = some r2 ∧
      r1.outcome = r2.outcome ∧ r1.registry = r2.registry :=
  C19_positional_grammar (twoFileEnv threeLinesFile respacedFile) exampleFile otherFile
    threeLinesFile respacedFile rootOnly (by decide) (by decide)
    (Respaced.trans
      (Respaced.gap (lit "category app") ['\n'] [' ']
        (lit "appender app basic console\npriority app DEBUG\n") (by decide) (by decide))
      (Respaced.gap (lit "category app appender app") [' '] ['\n', '\t']
        (lit "basic console\npriority app DEBUG\n") (by decide) (by decide)))
    (by decide) (by decide)

/-- C20: the pass at a command `category n` reads nothing beyond `n`: the
stream it leaves has exactly the text `tail` that follows `n` still to read,
so the next token is read as the next command word.  Its only effect is the
resolution of the category: afterwards the registry holds the category `n`
names; the registry is unchanged when `n` is `root` or was there already;
every category that was there is kept as it was, and no category has gained
an appender or changed priority. -/
theorem C20_category_command (env : Env) (reg : Registry) (w0 w1 n tail : List Char)
    (hw0 : isBlank w0 = true) (hw1 : isSep w1 = true) (hn : isToken n = true)
    (htail : tokenEnd tail = true) :
    ∃ reg1, step env (fresh (w0 ++ (lit "category" ++ (w1 ++ (n ++ tail))))) reg
        = Step.next (after tail) reg1 ∧
      (after tail).rest = tail ∧ (after tail).failbit = false ∧
      (reg1.find? (categoryRef n)).isSome = true ∧
      (n = lit "root" ∨ n ∈ reg.names → reg1 = reg) ∧
      (∀ ref x, reg.find? ref = some x → reg1.find? ref = some x) ∧
      (∀ ref, reg1.appendersOf ref = reg.appendersOf ref) ∧
      (∀ ref, reg1.priorityOf ref = reg.priorityOf ref) :=
  ⟨(resolveCategory n reg).2, step_category env reg w0 w1 n tail hw0 hw1 hn htail, rfl, rfl,
    find?_resolveCategory_self n reg, resolveCategory_of_known n reg,
    find?_resolveCategory_of_some n reg, appendersOf_resolveCategory n reg,
    priorityOf_resolveCategory n reg⟩

/-- Witness of C20: `category app` in front of a `priority` line. -/
theorem C20_category_command_witness :
    ∃ reg1, step (fileEnv []) (fresh ([] ++ (lit "category" ++ ([' '] ++
        (lit "app" ++ lit "\npriority app DEBUG\n"))))) rootOnly
        = Step.next (after (lit "\npriority app DEBUG\n")) reg1 ∧
      (after (lit "\npriority app DEBUG\n")).rest = lit "\npriority app DEBUG\n" ∧
      (after (lit "\npriority app DEBUG\n")).failbit = false ∧
      (reg1.find? (categoryRef (lit "app"))).isSome = true ∧
      (lit "app" = lit "root" ∨ lit "app" ∈ rootOnly.names → reg1 = rootOnly) ∧
      (∀ ref x, rootOnly.find? ref = some x → reg1.find? ref = some x) ∧
      (∀ ref, reg1.appendersOf ref = rootOnly.appendersOf ref) ∧
      (∀ ref, reg1.priorityOf ref = rootOnly.priorityOf ref) :=
  C20_category_command (fileEnv []) rootOnly [] [' '] (lit "app")
    (lit "\npriority app DEBUG\n") (by decide) (by decide) (by decide) (by decide)

end log4cpp
